import Mathlib

/-!
Shallow embedding of the Drawflow flow-graph engine (src/unnamed/part_000).

The mutable editor object is modelled as a pure record `EditorState` holding
the data structure `this.drawflow.drawflow` (module name to node-id to node
record), the current module name, the sequential id counter and the uuid flag.
JavaScript objects are modelled as insertion-ordered association lists, which
matches the iteration order the source relies on for port renumbering.

Conventions used throughout:
- JavaScript exceptions (dereferencing an undefined lookup) are modelled by
  operations returning `Option`; `none` means the source code would throw.
- Events sent through the synchronous `dispatch` observer registry are
  modelled as an emitted trace `List Event` returned by each operation.
- Purely visual effects (DOM element creation/removal, SVG path updates,
  CSS class renaming) are omitted; where the source reads the DOM back to
  decide which connection records to delete (`removeConnectionNodeId`), the
  set of rendered connection elements of the active module is derived from
  the active module's data, which is exactly what the renderer keeps in sync.
- The source stores a connection twice: on the output port as
  `{node, output, points?}` and on the input port as `{node, input}`.  Both
  record shapes are modelled by `ConnEntry` whose `ref` field stands for the
  source's `output` (on output-side entries) respectively `input` (on
  input-side entries) key, and whose `points` field models the optional
  reroute-point array (input-side entries never carry one).
-/

namespace Drawflow

/-- Decimal digit character of a value below ten. -/
def decDigit : Nat → Char
| 0 => '0'
| 1 => '1'
| 2 => '2'
| 3 => '3'
| 4 => '4'
| 5 => '5'
| 6 => '6'
| 7 => '7'
| 8 => '8'
| _ => '9'

/-- Decimal digit characters of a number, most significant first; the first
argument is recursion fuel, sufficient whenever the number is at most the
fuel. -/
def natDigitsF : Nat → Nat → List Char
| 0, n => [decDigit (n % 10)]
| f + 1, n => if n < 10 then [decDigit n] else natDigitsF f (n / 10) ++ [decDigit (n % 10)]

/-- Decimal notation of a natural number, JavaScript Number.toString. -/
def natToStr (n : Nat) : String := String.mk (natDigitsF n n)

/-- Decimal notation of an integer, JavaScript Number.toString. -/
def intToStr : Int → String
| .ofNat m => String.mk (natDigitsF m m)
| .negSucc m => String.mk ('-' :: natDigitsF (m + 1) (m + 1))

/-- String.prototype.slice(n) on the ASCII strings the engine slices. -/
def strDrop (s : String) (n : Nat) : String := String.mk (s.data.drop n)

/-- JavaScript primitive value used for node identifiers: the source accepts
both numbers and strings and coerces them where needed. -/
inductive JsVal where
| num (n : Int)
| str (s : String)
deriving DecidableEq, Repr

/-- String coercion applied by JavaScript when a value is used as an object
key or converted with toString(). -/
def JsVal.toKey : JsVal → String
| .num n => intToStr n
| .str s => s

/-- Numeric value of a list of decimal digit characters. -/
def digitsVal (cs : List Char) : Nat :=
  cs.foldl (fun n c => n * 10 + (c.toNat - 48)) 0

/-- Integer reading of a string as performed by Number() inside a loose
equality comparison; integer-valued strings only, which covers every value
the engine compares. -/
def jsNumOfString (s : String) : Option Int :=
  match s.data with
  | [] => none
  | c :: rest =>
    if c = '-' then
      if rest ≠ [] ∧ rest.all (fun d => d.isDigit) then some (-(digitsVal rest : Int)) else none
    else
      if (c :: rest).all (fun d => d.isDigit) then some ((digitsVal (c :: rest) : Int)) else none

/-- JavaScript loose equality between two id values, as used by the
source's comparisons of stored node references against arguments. -/
def jsEq : JsVal → JsVal → Bool
| .num a, .num b => a == b
| .str a, .str b => a == b
| .str a, .num b => jsNumOfString a == some b
| .num a, .str b => jsNumOfString b == some a

/-- JavaScript parseInt on the strings the engine feeds it: reads an optional
sign followed by a longest decimal-digit run and gives up (NaN, here `none`)
when no digit is present. -/
def parseIntJs (s : String) : Option Int :=
  match s.data with
  | [] => none
  | c :: rest =>
    if c = '-' then
      let ds := rest.takeWhile (fun d => d.isDigit)
      if ds.isEmpty then none else some (-(digitsVal ds : Int))
    else
      let ds := (c :: rest).takeWhile (fun d => d.isDigit)
      if ds.isEmpty then none else some ((digitsVal ds : Int))

/-- Reroute point record, stored as an object with pos_x and pos_y fields. -/
structure Pos where
  pos_x : Rat
  pos_y : Rat
deriving DecidableEq, Repr

/-- One stored connection endpoint record.  On an output port the source
shape is `{node, output, points?}`; on an input port it is `{node, input}`.
The counterpart port key is field `ref` here. -/
structure ConnEntry where
  node : JsVal
  ref : String
  points : Option (List Pos) := none
deriving DecidableEq, Repr

/-- Value of the node's typenode field: false (inline html), true (registered
template) or the string "vue". -/
inductive TypeNode where
| htmlContent
| registered
| vue
deriving DecidableEq, Repr

/-- Node record as stored under a module's data mapping.  The arbitrary
nested data payload is never interpreted by the engine, only stored and
copied, and is modelled by its serialized text.  The source's `class` field
is named `nodeClass` because `class` is reserved in Lean. -/
structure NodeRec where
  id : JsVal
  name : String
  data : String
  nodeClass : String
  html : String
  typenode : TypeNode
  inputs : List (String × List ConnEntry)
  outputs : List (String × List ConnEntry)
  pos_x : Rat
  pos_y : Rat
deriving DecidableEq, Repr

/-- Data mapping of one module: node id (string key) to node record. -/
abbrev ModuleData := List (String × NodeRec)

/-- The whole graph mapping, this.drawflow.drawflow: module name to module
data. -/
abbrev Graph := List (String × ModuleData)

/-- Events sent through dispatch, as observable by registered listeners. -/
inductive Event where
| nodeCreated (id : JsVal)
| nodeRemoved (id : String)
| connectionCreated (outputId inputId : JsVal) (outputClass inputClass : String)
| connectionRemoved (outputId inputId : JsVal) (outputClass inputClass : String)
| moduleCreated (name : String)
| moduleChanged (name : String)
| moduleRemoved (name : String)
| exported (g : Graph)
| imported
deriving DecidableEq, Repr

/-- Persistent editor state: the fields of the Drawflow instance that carry
the graph model (DOM handles and transient view state are not part of the
data model). -/
structure EditorState where
  drawflow : Graph
  module : String
  nodeId : Int
  useuuid : Bool
deriving DecidableEq, Repr

/-- State of a freshly constructed editor. -/
def initialEditorState : EditorState :=
  { drawflow := [("Home", [])], module := "Home", nodeId := 1, useuuid := false }

/-- Lookup in an insertion-ordered object: value at the first matching key. -/
def lookupA {α : Type} (k : String) : List (String × α) → Option α
| [] => none
| (k', v) :: t => if k' = k then some v else lookupA k t

/-- JavaScript property assignment obj[k] = v: replaces in place when the key
exists, otherwise appends a new entry. -/
def setA {α : Type} (k : String) (v : α) : List (String × α) → List (String × α)
| [] => [(k, v)]
| (k', v') :: t => if k' = k then (k', v) :: t else (k', v') :: setA k v t

/-- In-place update of the value stored at a key; no effect when absent. -/
def modifyA {α : Type} (k : String) (f : α → α) : List (String × α) → List (String × α)
| [] => []
| (k', v) :: t => if k' = k then (k', f v) :: t else (k', v) :: modifyA k f t

/-- JavaScript delete obj[k]: drops the entry, preserving the others' order. -/
def eraseA {α : Type} (k : String) : List (String × α) → List (String × α)
| [] => []
| (k', v) :: t => if k' = k then t else (k', v) :: eraseA k t

/-- Array.prototype.splice(i, 1) where i comes from findIndex: index -1
(here `none`) removes the last element. -/
def spliceOne {α : Type} (l : List α) : Option Nat → List α
| some i => l.eraseIdx i
| none => l.dropLast

/-- Side selector: the inputs mapping when the flag is true, else outputs. -/
def sideGet (isIn : Bool) (nd : NodeRec) : List (String × List ConnEntry) :=
  if isIn then nd.inputs else nd.outputs

/-- Side replacement, counterpart of sideGet. -/
def sideSet (isIn : Bool) (nd : NodeRec) (pm : List (String × List ConnEntry)) : NodeRec :=
  if isIn then { nd with inputs := pm } else { nd with outputs := pm }

/-- Port-name convention of each side. -/
def sidePre (isIn : Bool) : String := if isIn then "input_" else "output_"

/-- In-place update of one node record of one module. -/
def updateNode (st : EditorState) (m key : String) (f : NodeRec → NodeRec) : EditorState :=
  { st with drawflow := modifyA m (modifyA key f) st.drawflow }

/-- In-place replacement of one port's connection list, as performed by the
source's splice/push mutations on
drawflow[m].data[key].(inputs|outputs)[p].connections. -/
def updatePort (st : EditorState) (m key : String) (isIn : Bool) (p : String)
    (l : List ConnEntry) : EditorState :=
  updateNode st m key (fun nd => sideSet isIn nd (setA p l (sideGet isIn nd)))

/-- getModuleFromNodeId: scans every module's data keys with loose equality
and keeps the last module containing a match (the source loops over all
modules without breaking, overwriting the result). -/
def getModuleFromNodeId (st : EditorState) (id : JsVal) : Option String :=
  st.drawflow.foldl
    (fun acc mEntry =>
      mEntry.2.foldl
        (fun acc2 nEntry => if jsEq (.str nEntry.1) id then some mEntry.1 else acc2)
        acc)
    none

/-- getNodeFromId: resolves the module, then reads the record under the
string-coerced id key (the returned deep copy is the value itself in this
pure model).  A failing lookup models the source throwing. -/
def getNodeFromId (st : EditorState) (id : JsVal) : Option NodeRec := do
  let m ← getModuleFromNodeId st id
  let md ← lookupA m st.drawflow
  lookupA id.toKey md

/-- addConnection: same-module check, duplicate check over the output port's
list, then a symmetric push of `{node: idInput.toString(), output: ic}` and
`{node: idOutput.toString(), input: oc}` plus the connectionCreated event.
The drawing branch is view-only and omitted. -/
def addConnection (st : EditorState) (idOutput idInput : JsVal)
    (oc ic : String) : Option (EditorState × List Event) :=
  let m1 := getModuleFromNodeId st idOutput
  let m2 := getModuleFromNodeId st idInput
  if m1 = m2 then
    match m1 with
    | none => none
    | some m => do
      let dataNode ← getNodeFromId st idOutput
      let conns ← lookupA oc dataNode.outputs
      let exist := conns.any fun c => jsEq c.node idInput && c.ref == ic
      if exist then
        pure (st, [])
      else do
        let md ← lookupA m st.drawflow
        let outNode ← lookupA idOutput.toKey md
        let outConns ← lookupA oc outNode.outputs
        let st1 := updatePort st m idOutput.toKey false oc
          (outConns ++ [{ node := .str idInput.toKey, ref := ic }])
        let md1 ← lookupA m st1.drawflow
        let inNode ← lookupA idInput.toKey md1
        let inConns ← lookupA ic inNode.inputs
        let st2 := updatePort st1 m idInput.toKey true ic
          (inConns ++ [{ node := .str idOutput.toKey, ref := oc }])
        pure (st2, [Event.connectionCreated idOutput idInput oc ic])
  else
    pure (st, [])

/-- removeSingleConnection: same-module check, existence check on the output
side, then symmetric splices and the connectionRemoved event; the boolean
reports whether a connection was found. -/
def removeSingleConnection (st : EditorState) (idOutput idInput : JsVal)
    (oc ic : String) : Option (EditorState × List Event × Bool) :=
  let m1 := getModuleFromNodeId st idOutput
  let m2 := getModuleFromNodeId st idInput
  if m1 = m2 then
    match m1 with
    | none => none
    | some m => do
      let md ← lookupA m st.drawflow
      let outNode ← lookupA idOutput.toKey md
      let outConns ← lookupA oc outNode.outputs
      match outConns.findIdx? (fun c => jsEq c.node idInput && c.ref == ic) with
      | none => pure (st, [], false)
      | some i => do
        let st1 := updatePort st m idOutput.toKey false oc (outConns.eraseIdx i)
        let md1 ← lookupA m st1.drawflow
        let inNode ← lookupA idInput.toKey md1
        let inConns ← lookupA ic inNode.inputs
        let j := inConns.findIdx? (fun c => jsEq c.node idOutput && c.ref == oc)
        let st2 := updatePort st1 m idInput.toKey true ic (spliceOne inConns j)
        pure (st2, [Event.connectionRemoved idOutput idInput oc ic], true)
  else
    pure (st, [], false)

/-- Rewriting of one remote connection record during port renumbering, the
body of the source's final forEach: references to the renumbered node whose
port index exceeds the removed index are shifted down by one; the reroute
points are carried over (the source branches on their presence, both arms
copying the field). -/
def rewriteEntry (id : JsVal) (clsId : String) (pre : String) (c : ConnEntry) : ConnEntry :=
  if jsEq c.node id then
    match parseIntJs clsId, parseIntJs (strDrop c.ref pre.length) with
    | some a, some b =>
      if a < b then { node := c.node, ref := pre ++ intToStr (b - 1), points := c.points }
      else c
    | _, _ => c
  else c

/-- Common body of removeNodeInput (isIn = true) and removeNodeOutput
(isIn = false); the two source functions are exact mirror images of each
other under the side selectors.  Steps, in source order: snapshot the
removed port's list, detach each of its connections through
removeSingleConnection, delete the port entry, rebuild the side's mapping
with contiguous names in the existing order, deduplicate the remaining
remote endpoints, and rewrite every remote record whose referenced index
shifted.  removeNodeOutput strips the points field before deduplication;
removeNodeInput pushes the input records as they are (they carry none). -/
def removeNodePort (st : EditorState) (id : JsVal) (cls : String) (isIn : Bool) :
    Option (EditorState × List Event) := do
  let m ← getModuleFromNodeId st id
  let infoNode ← getNodeFromId st id
  let snap ← lookupA cls (sideGet isIn infoNode)
  let folded ← snap.foldlM
    (fun (acc : EditorState × List Event) c => do
      let r ← if isIn then removeSingleConnection acc.1 c.node id c.ref cls
              else removeSingleConnection acc.1 id c.node cls c.ref
      pure (r.1, acc.2 ++ r.2.1))
    (st, [])
  let st2 := updateNode folded.1 m id.toKey
    (fun nd => sideSet isIn nd (eraseA cls (sideGet isIn nd)))
  let md2 ← lookupA m st2.drawflow
  let nd2 ← lookupA id.toKey md2
  let conns := (sideGet isIn nd2).map Prod.snd
  let rebuilt := conns.enum.map fun p => (sidePre isIn ++ natToStr (p.1 + 1), p.2)
  let st3 := updateNode st2 m id.toKey (fun nd => sideSet isIn nd rebuilt)
  let clsId := strDrop cls (sidePre isIn).length
  let nodeUpdates :=
    ((conns.foldl (fun a b => a ++ b) []).map fun c =>
      if isIn then c else { node := c.node, ref := c.ref, points := none }).eraseDups
  let st4 ← nodeUpdates.foldlM
    (fun s u => do
      let md ← lookupA m s.drawflow
      let nd ← lookupA u.node.toKey md
      let lst ← lookupA u.ref (sideGet (!isIn) nd)
      pure (updatePort s m u.node.toKey (!isIn) u.ref
        (lst.map (rewriteEntry id clsId (sidePre isIn)))))
    st3
  pure (st4, folded.2)

/-- removeNodeInput, data effect (DOM input renaming omitted). -/
def removeNodeInput (st : EditorState) (id : JsVal) (inputClass : String) :
    Option (EditorState × List Event) :=
  removeNodePort st id inputClass true

/-- removeNodeOutput, data effect (DOM output renaming omitted). -/
def removeNodeOutput (st : EditorState) (id : JsVal) (outputClass : String) :
    Option (EditorState × List Event) :=
  removeNodePort st id outputClass false

/-- Rendered connection elements of the active module leaving node `key`:
for each one the source reads back (targetKey, outputClass, inputClass) from
its class list.  Derived from the module data, which the renderer mirrors. -/
def outTuples (md : ModuleData) (key : String) : List (String × String × String) :=
  match lookupA key md with
  | none => []
  | some nd => nd.outputs.foldl (fun acc pc => acc ++ pc.2.map fun c => (c.node.toKey, pc.1, c.ref)) []

/-- Rendered connection elements of the active module entering node `key`:
(sourceKey, outputClass, inputClass) triples read back from class lists. -/
def inTuples (md : ModuleData) (key : String) : List (String × String × String) :=
  match lookupA key md with
  | none => []
  | some nd => nd.inputs.foldl (fun acc pc => acc ++ pc.2.map fun c => (c.node.toKey, c.ref, pc.1)) []

/-- Index of the entry matching a class-derived reference with strict
equality, as used by the splices of removeConnectionNodeId. -/
def strictFindIdx (l : List ConnEntry) (n : String) (r : String) : Option Nat :=
  l.findIdx? fun c => c.node == JsVal.str n && c.ref == r

/-- removeConnectionNodeId: removes every connection whose rendered element
carries the node_out_node-X class, then every one carrying node_in_node-X,
splicing both data sides of each.  The element lists are DOM queries against
the active module's canvas, so a node rendered in another module (or a
missing one) contributes no elements and nothing is removed for it. -/
def removeConnectionNodeId (st : EditorState) (id : String) : Option (EditorState × List Event) := do
  let key := strDrop id 5
  let outElems := outTuples ((lookupA st.module st.drawflow).getD []) key
  let r1 ← outElems.reverse.foldlM
    (fun (acc : EditorState × List Event) t => do
      let inKey := t.1
      let oc := t.2.1
      let ic := t.2.2
      let md ← lookupA st.module acc.1.drawflow
      let ndIn ← lookupA inKey md
      let ics ← lookupA ic ndIn.inputs
      let s1 := updatePort acc.1 st.module inKey true ic (spliceOne ics (strictFindIdx ics key oc))
      let md1 ← lookupA st.module s1.drawflow
      let ndOut ← lookupA key md1
      let ocs ← lookupA oc ndOut.outputs
      let s2 := updatePort s1 st.module key false oc (spliceOne ocs (strictFindIdx ocs inKey ic))
      pure (s2, acc.2 ++ [Event.connectionRemoved (.str key) (.str inKey) oc ic]))
    (st, [])
  let inElems := inTuples ((lookupA st.module r1.1.drawflow).getD []) key
  let r2 ← inElems.reverse.foldlM
    (fun (acc : EditorState × List Event) t => do
      let outKey := t.1
      let oc := t.2.1
      let ic := t.2.2
      let md ← lookupA st.module acc.1.drawflow
      let ndOut ← lookupA outKey md
      let ocs ← lookupA oc ndOut.outputs
      let s1 := updatePort acc.1 st.module outKey false oc (spliceOne ocs (strictFindIdx ocs key ic))
      let md1 ← lookupA st.module s1.drawflow
      let ndIn ← lookupA key md1
      let ics ← lookupA ic ndIn.inputs
      let s2 := updatePort s1 st.module key true ic (spliceOne ics (strictFindIdx ics outKey oc))
      pure (s2, acc.2 ++ [Event.connectionRemoved (.str outKey) (.str key) oc ic]))
    r1
  pure r2

/-- removeNodeId: detach the rendered connections, then delete the node
record from the module getModuleFromNodeId resolves (throws, `none`, when no
module contains the id). -/
def removeNodeId (st : EditorState) (id : String) : Option (EditorState × List Event) := do
  let r1 ← removeConnectionNodeId st id
  let key := strDrop id 5
  let m ← getModuleFromNodeId r1.1 (.str key)
  let st2 := { r1.1 with drawflow := modifyA m (eraseA key) r1.1.drawflow }
  pure (st2, r1.2 ++ [Event.nodeRemoved key])

/-- Port mappings built by addNode's two construction loops; a negative
count means the loop body never runs. -/
def buildPorts (pre : String) (n : Int) : List (String × List ConnEntry) :=
  (List.range n.toNat).map fun i => (pre ++ natToStr (i + 1), [])

/-- addNode: allocates the id (the random uuid draw is supplied as an
oracle argument), builds the contiguously named ports, stores the record
under the current module and advances the sequential counter unless uuid
mode is on.  Fails only when the current module is missing from the mapping
(the source would throw on drawflow[this.module].data). -/
def addNode (st : EditorState) (name : String) (numIn numOut : Int)
    (elePosX elePosY : Rat) (classoverride : String) (data : String)
    (html : String) (typenode : TypeNode) (uuid : String) :
    Option (JsVal × EditorState × List Event) :=
  match lookupA st.module st.drawflow with
  | none => none
  | some _ =>
    let newNodeId : JsVal := if st.useuuid then .str uuid else .num st.nodeId
    let json : NodeRec :=
      { id := newNodeId, name := name, data := data, nodeClass := classoverride,
        html := html, typenode := typenode,
        inputs := buildPorts "input_" numIn, outputs := buildPorts "output_" numOut,
        pos_x := elePosX, pos_y := elePosY }
    some (newNodeId,
      { st with
        drawflow := modifyA st.module (setA newNodeId.toKey json) st.drawflow,
        nodeId := if st.useuuid then st.nodeId else st.nodeId + 1 },
      [Event.nodeCreated newNodeId])

/-- addModule: inserts (or silently overwrites) an empty module. -/
def addModule (st : EditorState) (name : String) : EditorState × List Event :=
  ({ st with drawflow := setA name [] st.drawflow }, [Event.moduleCreated name])

/-- Counter re-derivation at the end of load(): one more than the largest
parseInt of any node key found across all modules, starting from 1. -/
def deriveNodeId (g : Graph) : Int :=
  g.foldl
    (fun n mEntry =>
      mEntry.2.foldl
        (fun n2 nEntry =>
          match parseIntJs nEntry.1 with
          | some v => if n2 ≤ v then v + 1 else n2
          | none => n2)
        n)
    1

/-- clear(): resets the mapping to a single empty Home module. -/
def clearEditor (st : EditorState) : EditorState :=
  { st with drawflow := [("Home", [])] }

/-- export(): returns a deep copy of the mapping (the value itself in this
pure model) and dispatches the export event. -/
def exportData (st : EditorState) : Graph × List Event :=
  (st.drawflow, [Event.exported st.drawflow])

/-- import(data, notifi): clear, replace the mapping with a deep copy of the
argument, then load(), whose only data effect is re-deriving the counter;
load throws (`none`) when the current module is absent from the imported
mapping. -/
def importData (st : EditorState) (g : Graph) (notifi : Bool) : Option (EditorState × List Event) :=
  let st1 := clearEditor st
  let st2 := { st1 with drawflow := g }
  match lookupA st2.module g with
  | none => none
  | some _ =>
    some ({ st2 with nodeId := deriveNodeId g },
      if notifi then [Event.imported] else [])

/-- changeModule: dispatches moduleChanged, repoints the active module,
resets the transient view state (not part of this model) and re-imports the
existing mapping without the import notification. -/
def changeModule (st : EditorState) (name : String) : Option (EditorState × List Event) := do
  let st1 := { st with module := name }
  let r ← importData st1 st.drawflow false
  pure (r.1, Event.moduleChanged name :: r.2)

/-- removeModule: when the removed module is active, first changeModule to
Home, then delete the entry unconditionally and dispatch moduleRemoved. -/
def removeModule (st : EditorState) (name : String) : Option (EditorState × List Event) :=
  if st.module = name then do
    let r ← changeModule st "Home"
    pure ({ r.1 with drawflow := eraseA name r.1.drawflow }, r.2 ++ [Event.moduleRemoved name])
  else
    pure ({ st with drawflow := eraseA name st.drawflow }, [Event.moduleRemoved name])

/-- One cubic segment of an SVG path string
M sx sy C hx1 hy1 hx2 hy2 ex ey, modelled by its numeric fields. -/
structure PathSeg where
  sx : Rat
  sy : Rat
  hx1 : Rat
  hy1 : Rat
  hx2 : Rat
  hy2 : Rat
  ex : Rat
  ey : Rat
deriving DecidableEq, Repr

/-- createCurvature: control-point computation for one segment.  The type
switch distinguishes open, close and other (each flipping the offset sign on
one or both ends for leftward edges) from the default branch (openclose and
anything else), which applies the curvature symmetrically with no flip. -/
def createCurvature (startPosX startPosY endPosX endPosY curvatureValue : Rat)
    (type : String) : PathSeg :=
  let lineX := startPosX
  let lineY := startPosY
  let x := endPosX
  let y := endPosY
  let curvature := curvatureValue
  if type = "open" then
    if startPosX ≥ endPosX then
      ⟨lineX, lineY, lineX + |x - lineX| * curvature, lineY,
        x - |x - lineX| * (curvature * (-1)), y, x, y⟩
    else
      ⟨lineX, lineY, lineX + |x - lineX| * curvature, lineY,
        x - |x - lineX| * curvature, y, x, y⟩
  else if type = "close" then
    if startPosX ≥ endPosX then
      ⟨lineX, lineY, lineX + |x - lineX| * (curvature * (-1)), lineY,
        x - |x - lineX| * curvature, y, x, y⟩
    else
      ⟨lineX, lineY, lineX + |x - lineX| * curvature, lineY,
        x - |x - lineX| * curvature, y, x, y⟩
  else if type = "other" then
    if startPosX ≥ endPosX then
      ⟨lineX, lineY, lineX + |x - lineX| * (curvature * (-1)), lineY,
        x - |x - lineX| * (curvature * (-1)), y, x, y⟩
    else
      ⟨lineX, lineY, lineX + |x - lineX| * curvature, lineY,
        x - |x - lineX| * curvature, y, x, y⟩
  else
    ⟨lineX, lineY, lineX + |x - lineX| * curvature, lineY,
      x - |x - lineX| * curvature, y, x, y⟩

/-- Connection list of one port, empty when any level of the lookup chain is
missing; the observer used to state properties about stored connections. -/
def connList (st : EditorState) (m key : String) (isIn : Bool) (p : String) : List ConnEntry :=
  match lookupA m st.drawflow with
  | none => []
  | some md =>
    match lookupA key md with
    | none => []
    | some nd => (lookupA p (sideGet isIn nd)).getD []

/-- Connection list on the counterpart side that an entry's reference points
at, within the entry's module. -/
def refTarget (md : ModuleData) (oppIn : Bool) (c : ConnEntry) : Option (List ConnEntry) :=
  match lookupA c.node.toKey md with
  | none => none
  | some nd => lookupA c.ref (sideGet oppIn nd)

/-- Number of reciprocal records of an entry held by the referenced node: the
entries on its counterpart-side port pointing back at port p of node X. -/
def partnerCount (md : ModuleData) (oppIn : Bool) (X p : String) (c : ConnEntry) : Nat :=
  match refTarget md oppIn c with
  | none => 0
  | some lst => lst.countP fun e => e.node == JsVal.str X && e.ref == p

/-- Two entries of one list describing the same counterpart endpoint. -/
def sameRef (c e : ConnEntry) : Bool := e.node == c.node && e.ref == c.ref

/-- Symmetry of one side of one module's store: every stored entry is a
string reference to a node of the same module holding exactly one reciprocal
record on the counterpart port, and is itself not duplicated in its list. -/
def WFside (b : Bool) (md : ModuleData) : Prop :=
  ∀ nk ∈ md, ∀ pc ∈ sideGet b nk.2, ∀ c ∈ pc.2,
    c.node = JsVal.str c.node.toKey ∧
    partnerCount md (!b) nk.1 pc.1 c = 1 ∧
    pc.2.countP (sameRef c) = 1

/-- Connection symmetry invariant: for every connection record, on either
side, in any module, the referenced node exists in the same module, carries
the referenced counterpart port, that port holds exactly one reciprocal
entry, and the record itself is not duplicated. -/
def ConnSymmetric (st : EditorState) : Prop :=
  ∀ mE ∈ st.drawflow, WFside true mE.2 ∧ WFside false mE.2

/-- Resolution property: the remote-side reference of every stored
connection record leads to an existing port of an existing node. -/
def RefsResolve (st : EditorState) : Prop :=
  ∀ mE ∈ st.drawflow, ∀ nk ∈ mE.2, ∀ b : Bool, ∀ pc ∈ sideGet b nk.2, ∀ c ∈ pc.2,
    (refTarget mE.2 (!b) c).isSome = true

/-- Contiguous 1-based port naming of one side, the convention the engine
establishes at creation and restores after every removal. -/
def contiguousPorts (b : Bool) (nd : NodeRec) : Prop :=
  (sideGet b nd).map Prod.fst =
    (List.range (sideGet b nd).length).map fun i => sidePre b ++ natToStr (i + 1)

/-- Input-side records never carry a reroute points array; the array lives on
the output-side record only. -/
def inputPointsFree (md : ModuleData) : Prop :=
  ∀ nk ∈ md, ∀ pc ∈ nk.2.inputs, ∀ c ∈ pc.2, c.points = none

/-- Store well-formedness: unique module names, globally unique node keys,
two-sided symmetry, points only on output records, contiguous port names. -/
def WF (st : EditorState) : Prop :=
  (st.drawflow.map Prod.fst).Nodup ∧
  (st.drawflow.map fun mE => mE.2.map Prod.fst).flatten.Nodup ∧
  ∀ mE ∈ st.drawflow,
    WFside true mE.2 ∧ WFside false mE.2 ∧ inputPointsFree mE.2 ∧
    ∀ nk ∈ mE.2, contiguousPorts true nk.2 ∧ contiguousPorts false nk.2

instance (b : Bool) (md : ModuleData) : Decidable (WFside b md) :=
  inferInstanceAs (Decidable (∀ nk ∈ md, ∀ pc ∈ sideGet b nk.2, ∀ c ∈ pc.2,
    c.node = JsVal.str c.node.toKey ∧
    partnerCount md (!b) nk.1 pc.1 c = 1 ∧
    pc.2.countP (sameRef c) = 1))

instance (st : EditorState) : Decidable (ConnSymmetric st) :=
  inferInstanceAs (Decidable (∀ mE ∈ st.drawflow, WFside true mE.2 ∧ WFside false mE.2))

instance (st : EditorState) : Decidable (RefsResolve st) :=
  inferInstanceAs (Decidable (∀ mE ∈ st.drawflow, ∀ nk ∈ mE.2, ∀ b : Bool,
    ∀ pc ∈ sideGet b nk.2, ∀ c ∈ pc.2, (refTarget mE.2 (!b) c).isSome = true))

instance (b : Bool) (nd : NodeRec) : Decidable (contiguousPorts b nd) :=
  inferInstanceAs (Decidable ((sideGet b nd).map Prod.fst =
    (List.range (sideGet b nd).length).map fun i => sidePre b ++ natToStr (i + 1)))

instance (md : ModuleData) : Decidable (inputPointsFree md) :=
  inferInstanceAs (Decidable (∀ nk ∈ md, ∀ pc ∈ nk.2.inputs, ∀ c ∈ pc.2, c.points = none))

instance (st : EditorState) : Decidable (WF st) :=
  inferInstanceAs (Decidable ((st.drawflow.map Prod.fst).Nodup ∧
    (st.drawflow.map fun mE : String × ModuleData => mE.2.map Prod.fst).flatten.Nodup ∧
    ∀ mE ∈ st.drawflow,
      WFside true mE.2 ∧ WFside false mE.2 ∧ inputPointsFree mE.2 ∧
      ∀ nk ∈ mE.2, contiguousPorts true nk.2 ∧ contiguousPorts false nk.2))

/-- Number of output-side connection records of one node. -/
def outSum (nd : NodeRec) : Nat := (nd.outputs.map fun pc => pc.2.length).sum

/-- Total number of connections in the store, counted on the output side
where each edge is stored exactly once. -/
def connCount (st : EditorState) : Nat :=
  (st.drawflow.map fun mE => (mE.2.map fun nk => outSum nk.2).sum).sum

/-- Error taxonomy named by the specification; the source has no such
channel, the type exists to state what the specification promises. -/
inductive DfError where
| crossModuleEdge
| invalidArity
| cannotRemoveDefaultModule
deriving DecidableEq, Repr

/-- Modelled from the spec: addConnection reports CrossModuleEdge to the
caller when the two nodes resolve to different modules.  Kept separate from
the source translation above, whose addConnection has no error output, to
compare the promised behavior with the actual one. -/
def addConnectionSpecReport (st : EditorState) (idOutput idInput : JsVal) : Option DfError :=
  if getModuleFromNodeId st idOutput ≠ getModuleFromNodeId st idInput then
    some .crossModuleEdge
  else none

/-- Minimal node record used by the concrete instances below. -/
def mkNode (idv : JsVal) (nm : String) (ins outs : List (String × List ConnEntry)) : NodeRec :=
  { id := idv, name := nm, data := "", nodeClass := "", html := "", typenode := .htmlContent,
    inputs := ins, outputs := outs, pos_x := 0, pos_y := 0 }

/-- Two connected nodes living in module Other while Home is the active
module. -/
def c1Before : EditorState :=
  { drawflow :=
      [("Home", []),
       ("Other",
         [("1", mkNode (.num 1) "a" [] [("output_1", [{ node := .str "2", ref := "input_1" }])]),
          ("2", mkNode (.num 2) "b" [("input_1", [{ node := .str "1", ref := "output_1" }])] [])])],
    module := "Home", nodeId := 3, useuuid := false }

/-- The store c1Before is left in by removeNodeId on node 1: the record is
gone while node 2 still references it. -/
def c1After : EditorState :=
  { drawflow :=
      [("Home", []),
       ("Other",
         [("2", mkNode (.num 2) "b" [("input_1", [{ node := .str "1", ref := "output_1" }])] [])])],
    module := "Home", nodeId := 3, useuuid := false }

/-- One node in Home and one in Other, for the cross-module connection
attempt. -/
def c4State : EditorState :=
  { drawflow :=
      [("Home", [("1", mkNode (.num 1) "a" [] [("output_1", [])])]),
       ("Other", [("2", mkNode (.num 2) "b" [("input_1", [])] [])])],
    module := "Home", nodeId := 3, useuuid := false }

/-- Two unconnected nodes in Home with one output and one input port. -/
def twoNodeHome : EditorState :=
  { drawflow :=
      [("Home",
        [("1", mkNode (.num 1) "a" [] [("output_1", [])]),
         ("2", mkNode (.num 2) "b" [("input_1", [])] [])])],
    module := "Home", nodeId := 3, useuuid := false }

/-- Node record stored at a key of a module, when both exist. -/
def nodeAt (st : EditorState) (m key : String) : Option NodeRec :=
  (lookupA m st.drawflow).bind (lookupA key)

/-- Contiguous renaming of a side's remaining ports in their existing
relative order, the mapping the rebuild loop of removeNodeInput and
removeNodeOutput produces. -/
def renumberPorts (b : Bool) (pm : List (String × List ConnEntry)) :
    List (String × List ConnEntry) :=
  pm.enum.map fun p => (sidePre b ++ natToStr (p.1 + 1), p.2.2)

/-- Repeated addNode calls with fixed innocuous arguments, collecting the
returned ids in call order. -/
def addNodesIter (st : EditorState) : Nat → Option (List JsVal × EditorState)
| 0 => some ([], st)
| n + 1 => do
  let r ← addNode st "n" 0 0 0 0 "" "" "" TypeNode.htmlContent ""
  let rest ← addNodesIter r.2.1 n
  pure (r.1 :: rest.1, rest.2)

/-- Every node key of the mapping, across all modules. -/
def graphKeys (g : Graph) : List String :=
  (g.map fun mE => mE.2.map Prod.fst).flatten

/-- Modelled from the spec: the largest numeric id occurring in the mapping
(0 when none), whose successor the spec promises as the re-derived counter
after a bulk import.  Numeric reading follows the source's parseInt. -/
def maxNumericId (g : Graph) : Int :=
  g.foldl
    (fun a mE =>
      mE.2.foldl
        (fun b nk =>
          match parseIntJs nk.1 with
          | some v => max b v
          | none => b)
        a)
    0

/-- Key-level view of the module scan getModuleFromNodeId performs: the scan
reads nothing but module names and node keys. -/
def moduleKeyFold (l : List (String × List String)) (id : JsVal) : Option String :=
  l.foldl
    (fun acc p => p.2.foldl (fun acc2 k => if jsEq (.str k) id then some p.1 else acc2) acc)
    none

/-- Boolean test applied by the source's searches for a stored connection
record matching a counterpart endpoint: loose equality on the node id,
strict equality on the port name. -/
def entryPred (v : JsVal) (r : String) (e : ConnEntry) : Bool :=
  jsEq e.node v && e.ref == r

/-- Connection list stored at one port of one node of a module, the
two-level lookup the mutation paths perform. -/
def listAt (b : Bool) (Y r : String) (md : ModuleData) : Option (List ConnEntry) :=
  (lookupA Y md).bind fun nd => lookupA r (sideGet b nd)

/-- In-place transformation of one port's connection list within a module's
data, the module-level form of the source's splice and rewrite mutations. -/
def modPort (b : Bool) (Y r : String) (f : List ConnEntry → List ConnEntry)
    (md : ModuleData) : ModuleData :=
  modifyA Y (fun nd => sideSet b nd (modifyA r f (sideGet b nd))) md

/-- One port transformation per listed connection record, each applied at
the port the record references; the accumulated effect of the source's
per-connection loops. -/
def portFold (b : Bool) (g : List ConnEntry → List ConnEntry)
    (U : List ConnEntry) (md : ModuleData) : ModuleData :=
  U.foldl (fun acc c => modPort b c.node.toKey c.ref g acc) md

/-- Output-side connection records of a whole module. -/
def mOutSum (md : ModuleData) : Nat := (md.map fun nk => outSum nk.2).sum

/-- Port-name skeleton of one side of a module's data: every node key paired
with the side's port names, the shape the lookup guards depend on. -/
def skView (b : Bool) (md : ModuleData) : List (String × List String) :=
  md.map fun nk => (nk.1, (sideGet b nk.2).map Prod.fst)

/-- The record shape pushed into nodeUpdates: removeNodeOutput keeps only
the node and port fields, removeNodeInput pushes the record as it is. -/
def stripEntry (b : Bool) (c : ConnEntry) : ConnEntry :=
  if b then c else { node := c.node, ref := c.ref, points := none }

/-- Module data during the connection-detachment loop of removeNodeInput or
removeNodeOutput: the trimmed port holds the still-unprocessed suffix S,
and the reciprocal record of every processed connection in P has been
spliced out of the counterpart port it lived on. -/
def detachedMd (b : Bool) (X cls : String) (S P : List ConnEntry)
    (md : ModuleData) : ModuleData :=
  modPort b X cls (fun _ => S)
    (portFold (!b) (List.eraseP (entryPred (.str X) cls)) P md)

/-- The deduplicated list of remote endpoints the rewrite loop of a port
removal visits: every record of the node's remaining ports on the trimmed
side, stripped of its points field on the output side. -/
def strippedU (b : Bool) (cls : String) (nx : NodeRec) : List ConnEntry :=
  (((eraseA cls (sideGet b nx)).map Prod.snd).flatten.map (stripEntry b)).eraseDups

/-- The contiguously renamed remaining ports of the trimmed side. -/
def rebuiltPorts (b : Bool) (cls : String) (nx : NodeRec) :
    List (String × List ConnEntry) :=
  renumberPorts b (eraseA cls (sideGet b nx))

/-- Closed form of the module data removeNodeInput (b true) or
removeNodeOutput (b false) leaves behind: every connection of the removed
port cls detached from both sides, the side's ports renamed contiguously,
and every remote record pointing above the removed index shifted down. -/
def finalMd (b : Bool) (X cls : String) (nx : NodeRec) (md : ModuleData) : ModuleData :=
  portFold (!b)
    (List.map (rewriteEntry (.str X) (strDrop cls (sidePre b).length) (sidePre b)))
    (strippedU b cls nx)
    (modifyA X (fun nd => sideSet b nd (rebuiltPorts b cls nx))
      (portFold (!b) (List.eraseP (entryPred (.str X) cls))
        ((lookupA cls (sideGet b nx)).getD []) md))

/-- Two nodes in Home: node 1 with two output ports carrying three
connections into the three input ports of node 2. -/
def c3State : EditorState :=
  { drawflow := [("Home",
      [("1", mkNode (.num 1) "s" []
        [("output_1", [{ node := .str "2", ref := "input_1" }, { node := .str "2", ref := "input_3" }]),
         ("output_2", [{ node := .str "2", ref := "input_2" }])]),
       ("2", mkNode (.num 2) "t"
        [("input_1", [{ node := .str "1", ref := "output_1" }]),
         ("input_2", [{ node := .str "1", ref := "output_2" }]),
         ("input_3", [{ node := .str "1", ref := "output_1" }])] [])])],
    module := "Home", nodeId := 3, useuuid := false }

/-- Data mapping of module Home in c3State. -/
def c3Md : ModuleData :=
  [("1", mkNode (.num 1) "s" []
    [("output_1", [{ node := .str "2", ref := "input_1" }, { node := .str "2", ref := "input_3" }]),
     ("output_2", [{ node := .str "2", ref := "input_2" }])]),
   ("2", mkNode (.num 2) "t"
    [("input_1", [{ node := .str "1", ref := "output_1" }]),
     ("input_2", [{ node := .str "1", ref := "output_2" }]),
     ("input_3", [{ node := .str "1", ref := "output_1" }])] [])]

/-- Node 1 of c3State. -/
def c3Nx : NodeRec := mkNode (.num 1) "s" []
  [("output_1", [{ node := .str "2", ref := "input_1" }, { node := .str "2", ref := "input_3" }]),
   ("output_2", [{ node := .str "2", ref := "input_2" }])]

/-- Connection list of port output_1 of node 1 of c3State. -/
def c3L : List ConnEntry :=
  [{ node := .str "2", ref := "input_1" }, { node := .str "2", ref := "input_3" }]

/-! Groundwork: decimal printing and parsing round-trips. -/

theorem decDigit_isDigit {d : Nat} (h : d < 10) : (decDigit d).isDigit = true := by
  interval_cases d <;> decide

theorem decDigit_toNat {d : Nat} (h : d < 10) : (decDigit d).toNat - 48 = d := by
  interval_cases d <;> decide

theorem digitsVal_append (l : List Char) (c : Char) :
    digitsVal (l ++ [c]) = digitsVal l * 10 + (c.toNat - 48) := by
  simp [digitsVal, List.foldl_append]

theorem natDigitsF_spec : ∀ f n, n ≤ f →
    digitsVal (natDigitsF f n) = n ∧ (natDigitsF f n).all (fun c => c.isDigit) = true ∧
      natDigitsF f n ≠ [] := by
  intro f
  induction f with
  | zero =>
    intro n hn
    have h0 : n = 0 := Nat.le_zero.mp hn
    subst h0
    refine ⟨by decide, by decide, by decide⟩
  | succ f ih =>
    intro n hn
    by_cases h10 : n < 10
    · refine ⟨?_, ?_, ?_⟩
      · simpa [natDigitsF, h10, digitsVal] using decDigit_toNat h10
      · simp [natDigitsF, h10, decDigit_isDigit h10]
      · simp [natDigitsF, h10]
    · have hpos : 0 < n := by omega
      have hlt : n / 10 < n := Nat.div_lt_self hpos (by omega)
      have hle : n / 10 ≤ f := by omega
      obtain ⟨h1, h2, h3⟩ := ih (n / 10) hle
      have hm : n % 10 < 10 := Nat.mod_lt _ (by omega)
      refine ⟨?_, ?_, ?_⟩
      · simp only [natDigitsF, if_neg h10]
        rw [digitsVal_append, h1, decDigit_toNat hm]
        omega
      · simp only [natDigitsF, if_neg h10, List.all_append, h2, Bool.true_and]
        simp [decDigit_isDigit hm]
      · simp [natDigitsF, h10]

theorem takeWhile_of_all {α : Type} {p : α → Bool} :
    ∀ {l : List α}, l.all p = true → l.takeWhile p = l := by
  intro l
  induction l with
  | nil => intro _; rfl
  | cons c t ih =>
    intro h
    rw [List.all_cons, Bool.and_eq_true] at h
    simp [List.takeWhile, h.1, ih h.2]

theorem jsNumOfString_cons (c : Char) (t : List Char) :
    jsNumOfString (String.mk (c :: t)) =
      if c = '-' then
        (if t ≠ [] ∧ (t.all fun d => d.isDigit) = true then some (-(digitsVal t : Int)) else none)
      else
        (if ((c :: t).all fun d => d.isDigit) = true then some ((digitsVal (c :: t) : Int))
         else none) := rfl

theorem parseIntJs_cons (c : Char) (t : List Char) :
    parseIntJs (String.mk (c :: t)) =
      if c = '-' then
        (if (t.takeWhile fun d => d.isDigit).isEmpty = true then none
         else some (-(digitsVal (t.takeWhile fun d => d.isDigit) : Int)))
      else
        (if ((c :: t).takeWhile fun d => d.isDigit).isEmpty = true then none
         else some ((digitsVal ((c :: t).takeWhile fun d => d.isDigit) : Int))) := rfl

theorem jsNumOfString_digits {l : List Char} (h2 : l.all (fun c => c.isDigit) = true)
    (h3 : l ≠ []) : jsNumOfString (String.mk l) = some (digitsVal l : Int) := by
  cases l with
  | nil => exact absurd rfl h3
  | cons c t =>
    have hc : c.isDigit = true := by
      rw [List.all_cons, Bool.and_eq_true] at h2
      exact h2.1
    have hcne : ¬ (c = '-') := by
      intro he
      subst he
      exact absurd hc (by decide)
    rw [jsNumOfString_cons, if_neg hcne, if_pos h2]

theorem parseIntJs_digits {l : List Char} (h2 : l.all (fun c => c.isDigit) = true)
    (h3 : l ≠ []) : parseIntJs (String.mk l) = some (digitsVal l : Int) := by
  cases l with
  | nil => exact absurd rfl h3
  | cons c t =>
    have hc : c.isDigit = true := by
      rw [List.all_cons, Bool.and_eq_true] at h2
      exact h2.1
    have hcne : ¬ (c = '-') := by
      intro he
      subst he
      exact absurd hc (by decide)
    rw [parseIntJs_cons, if_neg hcne]
    have ht : (c :: t).takeWhile (fun d => d.isDigit) = c :: t := takeWhile_of_all h2
    simp only [ht]
    rw [if_neg (by simp)]

theorem jsNumOfString_natToStr (n : Nat) : jsNumOfString (natToStr n) = some (n : Int) := by
  obtain ⟨h1, h2, h3⟩ := natDigitsF_spec n n le_rfl
  rw [natToStr, jsNumOfString_digits h2 h3, h1]

theorem parseIntJs_natToStr (n : Nat) : parseIntJs (natToStr n) = some (n : Int) := by
  obtain ⟨h1, h2, h3⟩ := natDigitsF_spec n n le_rfl
  rw [natToStr, parseIntJs_digits h2 h3, h1]

theorem jsNumOfString_intToStr (v : Int) : jsNumOfString (intToStr v) = some v := by
  cases v with
  | ofNat m => exact jsNumOfString_natToStr m
  | negSucc m =>
    obtain ⟨h1, h2, h3⟩ := natDigitsF_spec (m + 1) (m + 1) le_rfl
    show jsNumOfString (String.mk ('-' :: natDigitsF (m + 1) (m + 1))) = _
    rw [jsNumOfString_cons, if_pos rfl, if_pos ⟨h3, h2⟩, h1]
    congr 1

theorem parseIntJs_intToStr (v : Int) : parseIntJs (intToStr v) = some v := by
  cases v with
  | ofNat m => exact parseIntJs_natToStr m
  | negSucc m =>
    obtain ⟨h1, h2, h3⟩ := natDigitsF_spec (m + 1) (m + 1) le_rfl
    show parseIntJs (String.mk ('-' :: natDigitsF (m + 1) (m + 1))) = _
    rw [parseIntJs_cons, if_pos rfl]
    simp only [takeWhile_of_all h2]
    rw [if_neg (by simpa using h3), h1]
    congr 1

theorem jsEq_str_toKey (v : JsVal) : jsEq (JsVal.str v.toKey) v = true := by
  cases v with
  | str s => simp [jsEq, JsVal.toKey]
  | num n => simp [jsEq, JsVal.toKey, jsNumOfString_intToStr]

theorem natToStr_inj {a b : Nat} (h : natToStr a = natToStr b) : a = b := by
  have h2 := congrArg jsNumOfString h
  rw [jsNumOfString_natToStr, jsNumOfString_natToStr] at h2
  exact_mod_cast Option.some.inj h2

theorem strDrop_append (p s : String) : strDrop (p ++ s) p.length = s := by
  cases p with
  | mk a =>
    cases s with
    | mk b =>
      show String.mk (((String.mk a ++ String.mk b).data).drop (String.mk a).length) = String.mk b
      have hd : (String.mk a ++ String.mk b).data = a ++ b := rfl
      have hl : (String.mk a).length = a.length := rfl
      rw [hd, hl, List.drop_left]

/-! Groundwork: association-list lemmas. -/

section AssocList

variable {α : Type}

theorem lookupA_mem {k : String} {v : α} :
    ∀ {l : List (String × α)}, lookupA k l = some v → (k, v) ∈ l := by
  intro l
  induction l with
  | nil => intro h; exact absurd h (by simp [lookupA])
  | cons p t ih =>
    obtain ⟨k', v'⟩ := p
    intro h
    rw [lookupA] at h
    by_cases hk : k' = k
    · rw [if_pos hk] at h
      injection h with h2
      subst hk
      subst h2
      exact List.mem_cons_self _ _
    · rw [if_neg hk] at h
      exact List.mem_cons_of_mem _ (ih h)

theorem lookupA_isSome_iff {k : String} :
    ∀ {l : List (String × α)}, (lookupA k l).isSome = true ↔ k ∈ l.map Prod.fst := by
  intro l
  induction l with
  | nil => simp [lookupA]
  | cons p t ih =>
    obtain ⟨k', v'⟩ := p
    by_cases hk : k' = k
    · subst hk
      simp [lookupA]
    · rw [lookupA, if_neg hk]
      simp only [List.map_cons, List.mem_cons]
      rw [ih]
      constructor
      · exact fun h => Or.inr h
      · rintro (h | h)
        · exact absurd h.symm hk
        · exact h

theorem lookupA_eq_none_iff {k : String} {l : List (String × α)} :
    lookupA k l = none ↔ k ∉ l.map Prod.fst := by
  rw [← lookupA_isSome_iff]
  cases lookupA k l <;> simp

theorem lookupA_setA_self (k : String) (v : α) :
    ∀ l : List (String × α), lookupA k (setA k v l) = some v := by
  intro l
  induction l with
  | nil => simp [setA, lookupA]
  | cons p t ih =>
    obtain ⟨k', v'⟩ := p
    by_cases hk : k' = k
    · rw [setA, if_pos hk, lookupA, if_pos hk]
    · rw [setA, if_neg hk, lookupA, if_neg hk]
      exact ih

theorem lookupA_setA_ne {k k' : String} (h : k' ≠ k) (v : α) :
    ∀ l : List (String × α), lookupA k (setA k' v l) = lookupA k l := by
  intro l
  induction l with
  | nil => simp [setA, lookupA, h]
  | cons p t ih =>
    obtain ⟨k'', v''⟩ := p
    by_cases hk : k'' = k'
    · rw [setA, if_pos hk, lookupA, lookupA, if_neg (hk ▸ h), if_neg (by rw [hk]; exact h)]
    · rw [setA, if_neg hk, lookupA, lookupA]
      by_cases hk2 : k'' = k
      · rw [if_pos hk2, if_pos hk2]
      · rw [if_neg hk2, if_neg hk2]
        exact ih

theorem keys_setA {k : String} (v : α) :
    ∀ {l : List (String × α)}, k ∈ l.map Prod.fst →
      (setA k v l).map Prod.fst = l.map Prod.fst := by
  intro l
  induction l with
  | nil => simp
  | cons p t ih =>
    obtain ⟨k', v'⟩ := p
    intro hmem
    by_cases hk : k' = k
    · subst hk
      rw [setA, if_pos rfl]
      simp
    · rw [setA, if_neg hk]
      simp only [List.map_cons, List.cons.injEq, true_and]
      apply ih
      simp only [List.map_cons, List.mem_cons] at hmem
      rcases hmem with h | h
      · exact absurd h.symm hk
      · exact h

theorem lookupA_modifyA_self (k : String) (f : α → α) :
    ∀ l : List (String × α), lookupA k (modifyA k f l) = (lookupA k l).map f := by
  intro l
  induction l with
  | nil => simp [modifyA, lookupA]
  | cons p t ih =>
    obtain ⟨k', v'⟩ := p
    by_cases hk : k' = k
    · rw [modifyA, if_pos hk, lookupA, if_pos hk, lookupA, if_pos hk, Option.map_some']
    · rw [modifyA, if_neg hk, lookupA, if_neg hk, lookupA, if_neg hk]
      exact ih

theorem lookupA_modifyA_ne {k k' : String} (h : k' ≠ k) (f : α → α) :
    ∀ l : List (String × α), lookupA k (modifyA k' f l) = lookupA k l := by
  intro l
  induction l with
  | nil => simp [modifyA, lookupA]
  | cons p t ih =>
    obtain ⟨k'', v''⟩ := p
    by_cases hk : k'' = k'
    · rw [modifyA, if_pos hk, lookupA, lookupA, if_neg (by rw [hk]; exact h), if_neg (by rw [hk]; exact h)]
    · rw [modifyA, if_neg hk, lookupA, lookupA]
      by_cases hk2 : k'' = k
      · rw [if_pos hk2, if_pos hk2]
      · rw [if_neg hk2, if_neg hk2]
        exact ih

theorem keys_modifyA (k : String) (f : α → α) :
    ∀ l : List (String × α), (modifyA k f l).map Prod.fst = l.map Prod.fst := by
  intro l
  induction l with
  | nil => rfl
  | cons p t ih =>
    obtain ⟨k', v'⟩ := p
    by_cases hk : k' = k
    · rw [modifyA, if_pos hk]
      simp
    · rw [modifyA, if_neg hk]
      simp only [List.map_cons, List.cons.injEq, true_and]
      exact ih

theorem modifyA_comm {k k' : String} (h : k ≠ k') (f g : α → α) :
    ∀ l : List (String × α), modifyA k f (modifyA k' g l) = modifyA k' g (modifyA k f l) := by
  intro l
  induction l with
  | nil => rfl
  | cons p t ih =>
    obtain ⟨k'', v''⟩ := p
    by_cases h1 : k'' = k
    · rw [modifyA, if_neg (by rw [h1]; exact h), modifyA, if_pos h1, modifyA, if_pos h1,
        modifyA, if_neg (by rw [h1]; exact h)]
    · by_cases h2 : k'' = k'
      · rw [modifyA, if_pos h2, modifyA, if_neg (by rw [h2]; exact fun he => h he.symm),
          modifyA, if_neg h1, modifyA, if_pos h2]
      · rw [modifyA, if_neg h2, modifyA, if_neg h1, modifyA, if_neg h1, modifyA, if_neg h2, ih]

theorem modifyA_modifyA (k : String) (f g : α → α) :
    ∀ l : List (String × α), modifyA k f (modifyA k g l) = modifyA k (fun x => f (g x)) l := by
  intro l
  induction l with
  | nil => rfl
  | cons p t ih =>
    obtain ⟨k', v'⟩ := p
    by_cases hk : k' = k
    · rw [modifyA, if_pos hk, modifyA, if_pos hk, modifyA, if_pos hk]
    · rw [modifyA, if_neg hk, modifyA, if_neg hk, modifyA, if_neg hk, ih]

theorem eraseA_modifyA_self (k : String) (f : α → α) :
    ∀ l : List (String × α), eraseA k (modifyA k f l) = eraseA k l := by
  intro l
  induction l with
  | nil => rfl
  | cons p t ih =>
    obtain ⟨k', v'⟩ := p
    by_cases hk : k' = k
    · rw [modifyA, if_pos hk, eraseA, if_pos hk, eraseA, if_pos hk]
    · rw [modifyA, if_neg hk, eraseA, if_neg hk, eraseA, if_neg hk, ih]

theorem lookupA_eraseA_ne {k k' : String} (h : k' ≠ k) :
    ∀ l : List (String × α), lookupA k (eraseA k' l) = lookupA k l := by
  intro l
  induction l with
  | nil => rfl
  | cons p t ih =>
    obtain ⟨k'', v''⟩ := p
    by_cases h1 : k'' = k'
    · rw [eraseA, if_pos h1, lookupA, if_neg (by rw [h1]; exact h)]
    · rw [eraseA, if_neg h1, lookupA, lookupA]
      by_cases h2 : k'' = k
      · rw [if_pos h2, if_pos h2]
      · rw [if_neg h2, if_neg h2, ih]

theorem lookupA_eraseA_self (k : String) :
    ∀ {l : List (String × α)}, (l.map Prod.fst).Nodup → lookupA k (eraseA k l) = none := by
  intro l
  induction l with
  | nil => intro _; rfl
  | cons p t ih =>
    obtain ⟨k', v'⟩ := p
    intro hnd
    simp only [List.map_cons, List.nodup_cons] at hnd
    by_cases hk : k' = k
    · subst hk
      rw [eraseA, if_pos rfl, lookupA_eq_none_iff]
      exact hnd.1
    · rw [eraseA, if_neg hk, lookupA, if_neg hk]
      exact ih hnd.2

theorem setA_eq_modifyA {k : String} (v : α) :
    ∀ {l : List (String × α)}, k ∈ l.map Prod.fst →
      setA k v l = modifyA k (fun _ => v) l := by
  intro l
  induction l with
  | nil => intro h; simp at h
  | cons p t ih =>
    obtain ⟨k', v'⟩ := p
    intro hmem
    by_cases hk : k' = k
    · subst hk
      rw [setA, if_pos rfl, modifyA, if_pos rfl]
    · rw [setA, if_neg hk, modifyA, if_neg hk]
      congr 1
      apply ih
      simp only [List.map_cons, List.mem_cons] at hmem
      rcases hmem with h | h
      · exact absurd h.symm hk
      · exact h

theorem sumMap_modifyA {k : String} {v : α} (f : α → α) (g : α → Nat) :
    ∀ {l : List (String × α)}, lookupA k l = some v →
      ((modifyA k f l).map fun p => g p.2).sum + g v =
        (l.map fun p => g p.2).sum + g (f v) := by
  intro l
  induction l with
  | nil => intro h; exact absurd h (by simp [lookupA])
  | cons p t ih =>
    obtain ⟨k', v'⟩ := p
    intro h
    by_cases hk : k' = k
    · rw [lookupA, if_pos hk] at h
      injection h with h2
      subst h2
      rw [modifyA, if_pos hk]
      simp only [List.map_cons, List.sum_cons]
      omega
    · rw [lookupA, if_neg hk] at h
      rw [modifyA, if_neg hk]
      simp only [List.map_cons, List.sum_cons]
      have h3 := ih h
      omega

theorem map_modifyA_congr {α β : Type} (k : String) (g : α → α) (h : α → β)
    (hcong : ∀ v, h (g v) = h v) :
    ∀ l : List (String × α),
      (modifyA k g l).map (fun p => (p.1, h p.2)) = l.map (fun p => (p.1, h p.2)) := by
  intro l
  induction l with
  | nil => rfl
  | cons p t ih =>
    obtain ⟨k', v'⟩ := p
    by_cases hk : k' = k
    · rw [modifyA, if_pos hk]
      simp [hcong]
    · rw [modifyA, if_neg hk]
      simp only [List.map_cons, List.cons.injEq, true_and]
      exact ih

end AssocList

/-! Groundwork: side selectors and state updates. -/

theorem sideGet_sideSet (b : Bool) (nd : NodeRec) (pm : List (String × List ConnEntry)) :
    sideGet b (sideSet b nd pm) = pm := by cases b <;> rfl

theorem sideGet_sideSet_neg (b : Bool) (nd : NodeRec) (pm : List (String × List ConnEntry)) :
    sideGet (!b) (sideSet b nd pm) = sideGet (!b) nd := by cases b <;> rfl

theorem sideGet_neg_sideSet (b : Bool) (nd : NodeRec) (pm : List (String × List ConnEntry)) :
    sideGet b (sideSet (!b) nd pm) = sideGet b nd := by cases b <;> rfl

theorem sideSet_sideSet (b : Bool) (nd : NodeRec) (pm pm' : List (String × List ConnEntry)) :
    sideSet b (sideSet b nd pm) pm' = sideSet b nd pm' := by cases b <;> rfl

theorem sideSet_sideGet (b : Bool) (nd : NodeRec) :
    sideSet b nd (sideGet b nd) = nd := by cases b <;> rfl

theorem outSum_sideSet_true (nd : NodeRec) (pm : List (String × List ConnEntry)) :
    outSum (sideSet true nd pm) = outSum nd := rfl

theorem outSum_sideSet_false (nd : NodeRec) (pm : List (String × List ConnEntry)) :
    outSum (sideSet false nd pm) = (pm.map fun pc => pc.2.length).sum := rfl

theorem updateNode_drawflow (st : EditorState) (m key : String) (f : NodeRec → NodeRec) :
    (updateNode st m key f).drawflow = modifyA m (modifyA key f) st.drawflow := rfl

theorem updateNode_module (st : EditorState) (m key : String) (f : NodeRec → NodeRec) :
    (updateNode st m key f).module = st.module := rfl

theorem updateNode_nodeId (st : EditorState) (m key : String) (f : NodeRec → NodeRec) :
    (updateNode st m key f).nodeId = st.nodeId := rfl

theorem lookupA_modifyA_of_eq {α : Type} {k : String} (f : α → α) {l : List (String × α)}
    {v : α} (h : lookupA k l = some v) : lookupA k (modifyA k f l) = some (f v) := by
  rw [lookupA_modifyA_self, h, Option.map_some']

theorem getModuleFromNodeId_eq_keyFold (st : EditorState) (id : JsVal) :
    getModuleFromNodeId st id =
      moduleKeyFold (st.drawflow.map fun mE => (mE.1, mE.2.map Prod.fst)) id := by
  unfold getModuleFromNodeId moduleKeyFold
  rw [List.foldl_map]
  congr 1
  funext acc p
  rw [List.foldl_map]

theorem moduleKeyFold_inner (m : String) (id : JsVal) :
    ∀ (ks : List String) (acc : Option String),
      ks.foldl (fun acc2 k => if jsEq (.str k) id then some m else acc2) acc =
        if ks.any (fun k => jsEq (.str k) id) then some m else acc := by
  intro ks
  induction ks with
  | nil => intro acc; simp
  | cons c t ih =>
    intro acc
    rw [List.foldl_cons, ih, List.any_cons]
    by_cases h : jsEq (.str c) id = true <;>
      cases ht : t.any (fun k => jsEq (.str k) id) <;>
      simp [h, ht]

theorem moduleKeyFold_unique {X : String} :
    ∀ {l : List (String × List String)} {m : String} {ks : List String},
      (l.map Prod.snd).flatten.Nodup → (m, ks) ∈ l → X ∈ ks →
      moduleKeyFold l (.str X) = some m := by
  intro l
  induction l with
  | nil => intro m ks _ hm; simp at hm
  | cons p t ih =>
    intro m ks hnd hm hX
    obtain ⟨m', ks'⟩ := p
    simp only [List.map_cons, List.flatten_cons, List.nodup_append] at hnd
    obtain ⟨hnd1, hnd2, hdisj⟩ := hnd
    rw [List.mem_cons] at hm
    unfold moduleKeyFold
    rw [List.foldl_cons, moduleKeyFold_inner]
    rcases hm with h | h
    · injection h with h1 h2
      subst h1
      subst h2
      rw [if_pos ?side1]
      case side1 =>
        rw [List.any_eq_true]
        exact ⟨X, hX, by simp [jsEq]⟩
      · -- the remaining modules contain no key equal to X
        have hrest : ∀ q ∈ t, ∀ k ∈ q.2, jsEq (.str k) (.str X) = false := by
          intro q hq k hk
          have hkX : k ≠ X := by
            intro he
            subst he
            exact hdisj hX (by
              rw [List.mem_flatten]
              exact ⟨q.2, List.mem_map_of_mem Prod.snd hq, hk⟩)
          simp [jsEq, hkX]
        clear ih hX hnd1 hnd2 hdisj
        induction t with
        | nil => rfl
        | cons q t2 ih2 =>
          rw [List.foldl_cons, moduleKeyFold_inner, if_neg ?side2]
          case side2 =>
            rw [List.any_eq_true]
            rintro ⟨k, hk, hjs⟩
            rw [hrest q (List.mem_cons_self _ _) k hk] at hjs
            exact absurd hjs (by simp)
          exact ih2 (fun q2 hq2 k hk => hrest q2 (List.mem_cons_of_mem _ hq2) k hk)
    · have hXin : X ∈ (t.map Prod.snd).flatten := by
        rw [List.mem_flatten]
        exact ⟨ks, List.mem_map_of_mem Prod.snd h, hX⟩
      rw [if_neg ?side3]
      case side3 =>
        rw [List.any_eq_true]
        rintro ⟨k, hk, hjs⟩
        have hkX : k = X := by
          have : (k == X) = true := by simpa [jsEq] using hjs
          exact beq_iff_eq.mp this
        subst hkX
        exact hdisj hk hXin
      exact ih hnd2 h hX

theorem getModuleFromNodeId_of_mem {st : EditorState}
    (hnd : (st.drawflow.map fun mE : String × ModuleData => mE.2.map Prod.fst).flatten.Nodup)
    {m X : String} {md : ModuleData} {nd : NodeRec}
    (hm : lookupA m st.drawflow = some md) (hX : lookupA X md = some nd) :
    getModuleFromNodeId st (.str X) = some m := by
  rw [getModuleFromNodeId_eq_keyFold]
  apply @moduleKeyFold_unique X _ m (md.map Prod.fst)
  · simpa [List.map_map, Function.comp] using hnd
  · exact List.mem_map_of_mem _ (lookupA_mem hm)
  · rw [← lookupA_isSome_iff, hX]
    rfl

theorem getModuleFromNodeId_updateNode (st : EditorState) (m key : String)
    (f : NodeRec → NodeRec) (id : JsVal) :
    getModuleFromNodeId (updateNode st m key f) id = getModuleFromNodeId st id := by
  rw [getModuleFromNodeId_eq_keyFold, getModuleFromNodeId_eq_keyFold]
  congr 1
  rw [updateNode_drawflow]
  exact map_modifyA_congr m (modifyA key f) (fun md => md.map Prod.fst)
    (fun v => keys_modifyA key f v) st.drawflow

theorem getModuleFromNodeId_updatePort (st : EditorState) (m key : String) (b : Bool)
    (p : String) (l : List ConnEntry) (id : JsVal) :
    getModuleFromNodeId (updatePort st m key b p l) id = getModuleFromNodeId st id :=
  getModuleFromNodeId_updateNode st m key _ id

/-! Claim theorems. -/

/-- C8: for the horizontal edge from (0,0) to (100,0) with curvature 0.5 and
the default mode (the openclose type the renderer uses when no reroute
points exist), the synthesizer produces the single cubic segment whose two
control points are (50,0) and (50,0), from 100 times 0.5 applied at both
ends. -/
theorem C8_curvature_example :
    createCurvature 0 0 100 0 (1/2) "openclose" =
      { sx := 0, sy := 0, hx1 := 50, hy1 := 0, hx2 := 50, hy2 := 0, ex := 100, ey := 0 } := by
  unfold createCurvature
  norm_num

/-- C1 (code bug exhibit): the symmetry invariant does not survive every
mutation.  Removing a node that lives in a module other than the active one
deletes its record but leaves the neighbour's connection entries dangling,
because the connection cleanup scans the active module's rendered elements
only: c1Before satisfies the invariant, removeNodeId succeeds, and the
resulting c1After violates it (node 2 still holds an input entry referencing
the deleted node 1). -/
theorem C1_code_bug_removeNodeId_dangling :
    ConnSymmetric c1Before ∧
    removeNodeId c1Before "node-1" = some (c1After, [Event.nodeRemoved "1"]) ∧
    ¬ ConnSymmetric c1After := by
  refine ⟨by decide, by decide, by decide⟩

/-- C4 (counterexample): at a concrete cross-module pair, the spec-modelled
behavior reports CrossModuleEdge, but the source's addConnection returns
with no error, no event and no state change — an outcome indistinguishable
from a silent no-op, refuting the claimed error report (the store-unchanged
half of the claim does hold). -/
theorem C4_counterexample :
    addConnectionSpecReport c4State (.num 1) (.num 2) = some DfError.crossModuleEdge ∧
    addConnection c4State (.num 1) (.num 2) "output_1" "input_1" = some (c4State, []) := by
  refine ⟨by decide, by decide⟩

/-- C4 (amended): for every pair of node ids resolving to different modules,
addConnection creates no connection entry on either node and leaves the
store unchanged, but reports no error to the caller: the call returns
silently, with no event, because the module guard skips the whole body and
the function has no error output. -/
theorem C4_cross_module_silent_noop (st : EditorState) (a b : JsVal) (oc ic : String)
    (h : getModuleFromNodeId st a ≠ getModuleFromNodeId st b) :
    addConnection st a b oc ic = some (st, []) := by
  unfold addConnection
  rw [if_neg h]
  rfl

/-- C4 (witness). -/
theorem C4_witness :
    addConnection c4State (.str "1") (.str "2") "output_1" "input_1" = some (c4State, []) :=
  C4_cross_module_silent_noop c4State (.str "1") (.str "2") "output_1" "input_1" (by decide)

/-- C6 (counterexample): removeModule "Home" on a fresh editor is not
rejected with CannotRemoveDefaultModule: it succeeds, dispatches
moduleChanged then moduleRemoved, and deletes Home, leaving a mapping that
contains no Home module at all. -/
theorem C6_counterexample :
    removeModule initialEditorState "Home" =
      some ({ drawflow := [], module := "Home", nodeId := 1, useuuid := false },
        [Event.moduleChanged "Home", Event.moduleRemoved "Home"]) ∧
    (removeModule initialEditorState "Home").map (fun r => lookupA "Home" r.1.drawflow) =
      some none := by
  refine ⟨by decide, by decide⟩

/-- C6 (amended): removeModule never rejects and protects no module: the
named entry is deleted unconditionally, Home included.  When the removed
module is the currently active one, the editor first switches the active
module to Home (keeping the graph mapping and re-deriving the counter from
it) and then deletes the named module, which is the half of the claim the
code does satisfy. -/
theorem C6_removeModule_behavior (st : EditorState) (name : String) :
    (st.module ≠ name →
      removeModule st name =
        some ({ st with drawflow := eraseA name st.drawflow }, [Event.moduleRemoved name])) ∧
    (st.module = name → (lookupA "Home" st.drawflow).isSome = true →
      removeModule st name =
        some ({ st with module := "Home", nodeId := deriveNodeId st.drawflow,
                        drawflow := eraseA name st.drawflow },
          [Event.moduleChanged "Home", Event.moduleRemoved name])) := by
  constructor
  · intro h
    unfold removeModule
    rw [if_neg h]
    rfl
  · intro h hh
    obtain ⟨md, hmd⟩ := Option.isSome_iff_exists.mp hh
    unfold removeModule changeModule importData clearEditor
    rw [if_pos h]
    simp only [hmd]
    rfl

/-- C6 (witness). -/
theorem C6_witness :
    removeModule c4State "Other" =
      some ({ c4State with drawflow := eraseA "Other" c4State.drawflow },
        [Event.moduleRemoved "Other"]) ∧
    removeModule initialEditorState "Home" =
      some ({ initialEditorState with
                module := "Home",
                nodeId := deriveNodeId initialEditorState.drawflow,
                drawflow := eraseA "Home" initialEditorState.drawflow },
        [Event.moduleChanged "Home", Event.moduleRemoved "Home"]) :=
  ⟨(C6_removeModule_behavior c4State "Other").1 (by decide),
   (C6_removeModule_behavior initialEditorState "Home").2 rfl (by decide)⟩

/-- C7 (counterexample): addNode with a negative input count does not fail
with InvalidArity and does add a record: on a fresh editor it stores node 1
with no input ports and the one requested output port, returns the id and
dispatches nodeCreated. -/
theorem C7_counterexample :
    addNode initialEditorState "a" (-1) 1 0 0 "" "" "" TypeNode.htmlContent "" =
      some (.num 1,
        { drawflow := [("Home", [("1",
            { id := .num 1, name := "a", data := "", nodeClass := "", html := "",
              typenode := TypeNode.htmlContent, inputs := [],
              outputs := [("output_1", [])], pos_x := 0, pos_y := 0 })])],
          module := "Home", nodeId := 2, useuuid := false },
        [Event.nodeCreated (.num 1)]) := by decide

/-- C7 (amended): a negative input count does not produce an InvalidArity
failure; the port-building loop simply never runs, so addNode stores a node
record with zero input ports (the output side is the same construction) and
returns its id as usual. -/
theorem C7_negative_arity_creates_node (st : EditorState) (name : String)
    (numIn numOut : Int) (x y : Rat) (co d h : String) (tn : TypeNode) (u : String)
    (hneg : numIn < 0) {md : ModuleData} (hm : lookupA st.module st.drawflow = some md) :
    ∃ newId st' ev, addNode st name numIn numOut x y co d h tn u = some (newId, st', ev) ∧
      nodeAt st' st.module newId.toKey =
        some { id := newId, name := name, data := d, nodeClass := co, html := h,
               typenode := tn, inputs := [], outputs := buildPorts "output_" numOut,
               pos_x := x, pos_y := y } := by
  have hin : buildPorts "input_" numIn = [] := by
    unfold buildPorts
    rw [Int.toNat_of_nonpos (le_of_lt hneg)]
    rfl
  unfold addNode
  rw [hm]
  refine ⟨_, _, _, rfl, ?_⟩
  unfold nodeAt
  have hdf : lookupA st.module
      (modifyA st.module
        (setA (JsVal.toKey (if st.useuuid then .str u else .num st.nodeId))
          { id := (if st.useuuid then JsVal.str u else JsVal.num st.nodeId), name := name,
            data := d, nodeClass := co, html := h, typenode := tn,
            inputs := buildPorts "input_" numIn, outputs := buildPorts "output_" numOut,
            pos_x := x, pos_y := y }) st.drawflow) =
      some (setA (JsVal.toKey (if st.useuuid then .str u else .num st.nodeId))
          { id := (if st.useuuid then JsVal.str u else JsVal.num st.nodeId), name := name,
            data := d, nodeClass := co, html := h, typenode := tn,
            inputs := buildPorts "input_" numIn, outputs := buildPorts "output_" numOut,
            pos_x := x, pos_y := y } md) :=
    lookupA_modifyA_of_eq _ hm
  rw [show (({ st with
        drawflow := modifyA st.module
          (setA (JsVal.toKey (if st.useuuid then .str u else .num st.nodeId))
            { id := (if st.useuuid then JsVal.str u else JsVal.num st.nodeId), name := name,
              data := d, nodeClass := co, html := h, typenode := tn,
              inputs := buildPorts "input_" numIn, outputs := buildPorts "output_" numOut,
              pos_x := x, pos_y := y }) st.drawflow,
        nodeId := if st.useuuid then st.nodeId else st.nodeId + 1 } : EditorState)).drawflow =
      modifyA st.module
        (setA (JsVal.toKey (if st.useuuid then .str u else .num st.nodeId))
          { id := (if st.useuuid then JsVal.str u else JsVal.num st.nodeId), name := name,
            data := d, nodeClass := co, html := h, typenode := tn,
            inputs := buildPorts "input_" numIn, outputs := buildPorts "output_" numOut,
            pos_x := x, pos_y := y }) st.drawflow from rfl, hdf]
  rw [Option.some_bind']
  rw [lookupA_setA_self, hin]

/-- C7 (witness). -/
theorem C7_witness :
    ∃ newId st' ev,
      addNode twoNodeHome "c" (-2) 1 0 0 "" "" "" TypeNode.htmlContent "" =
        some (newId, st', ev) ∧
      nodeAt st' twoNodeHome.module newId.toKey =
        some { id := newId, name := "c", data := "", nodeClass := "", html := "",
               typenode := TypeNode.htmlContent, inputs := [],
               outputs := buildPorts "output_" 1, pos_x := 0, pos_y := 0 } :=
  C7_negative_arity_creates_node twoNodeHome "c" (-2) 1 0 0 "" "" "" TypeNode.htmlContent ""
    (by decide) rfl

/-- C2: importing the exported mapping reproduces the graph exactly: the
result carries structurally the same mapping (same module names, node ids
and records, port names, connection lists and reroute point lists) and the
same active module; only the id counter is re-derived by load.  The
hypothesis that the active module exists in the mapping rules out the state
in which the source's load would throw. -/
theorem C2_export_import_roundtrip (st : EditorState) {md : ModuleData}
    (h : lookupA st.module st.drawflow = some md) :
    importData st (exportData st).1 true =
      some ({ st with nodeId := deriveNodeId st.drawflow }, [Event.imported]) ∧
    ({ st with nodeId := deriveNodeId st.drawflow }).drawflow = st.drawflow := by
  constructor
  · unfold importData exportData clearEditor
    simp only [h]
    rfl
  · rfl

theorem updatePort_drawflow (st : EditorState) (m key : String) (b : Bool) (p : String)
    (l : List ConnEntry) :
    (updatePort st m key b p l).drawflow =
      modifyA m (modifyA key (fun nd => sideSet b nd (setA p l (sideGet b nd)))) st.drawflow :=
  rfl

theorem getNodeFromId_eq {st : EditorState} {a : JsVal} {m : String} {md : ModuleData}
    {nd : NodeRec} (hm : getModuleFromNodeId st a = some m)
    (hmd : lookupA m st.drawflow = some md) (hda : lookupA a.toKey md = some nd) :
    getNodeFromId st a = some nd := by
  unfold getNodeFromId
  rw [hm]
  simp only [Option.bind_eq_bind, Option.some_bind, hmd, hda]

theorem inputs_sideSet_false (nd : NodeRec) (pm : List (String × List ConnEntry)) :
    sideGet true (sideSet false nd pm) = sideGet true nd := rfl

theorem inputs_sideSet_false' (nd : NodeRec) (pm : List (String × List ConnEntry)) :
    (sideSet false nd pm).inputs = nd.inputs := rfl

theorem outputs_sideSet_true' (nd : NodeRec) (pm : List (String × List ConnEntry)) :
    (sideSet true nd pm).outputs = nd.outputs := rfl

theorem outputs_sideSet_true (nd : NodeRec) (pm : List (String × List ConnEntry)) :
    sideGet false (sideSet true nd pm) = sideGet false nd := rfl

theorem addConnection_success (st : EditorState) (a b : JsVal) (oc ic : String)
    {m : String} {md : ModuleData} {nda ndb : NodeRec} {cs bs : List ConnEntry}
    (hm1 : getModuleFromNodeId st a = some m)
    (hm2 : getModuleFromNodeId st b = some m)
    (hmd : lookupA m st.drawflow = some md)
    (hda : lookupA a.toKey md = some nda)
    (hcs : lookupA oc nda.outputs = some cs)
    (hex : (cs.any fun c => jsEq c.node b && c.ref == ic) = false)
    (hdb : lookupA b.toKey md = some ndb)
    (hbs : lookupA ic ndb.inputs = some bs) :
    addConnection st a b oc ic =
      some (updatePort (updatePort st m a.toKey false oc
              (cs ++ [{ node := .str b.toKey, ref := ic }]))
            m b.toKey true ic (bs ++ [{ node := .str a.toKey, ref := oc }]),
        [Event.connectionCreated a b oc ic]) := by
  have hnode := getNodeFromId_eq hm1 hmd hda
  have hexn : ¬ ((cs.any fun c => jsEq c.node b && c.ref == ic) = true) := by
    rw [hex]
    exact Bool.false_ne_true
  have hmd1 : lookupA m (updatePort st m a.toKey false oc
      (cs ++ [{ node := .str b.toKey, ref := ic }])).drawflow =
      some (modifyA a.toKey
        (fun nd => sideSet false nd
          (setA oc (cs ++ [{ node := .str b.toKey, ref := ic }]) (sideGet false nd))) md) := by
    rw [updatePort_drawflow]
    exact lookupA_modifyA_of_eq _ hmd
  unfold addConnection
  rw [hm1, hm2, if_pos rfl]
  simp only [Option.bind_eq_bind, Option.some_bind, hnode, hcs]
  rw [if_neg hexn]
  simp only [Option.bind_eq_bind, Option.some_bind, hmd, hda, hcs, hmd1]
  by_cases hab : a.toKey = b.toKey
  · have hnn : ndb = nda := by
      rw [← hab, hda] at hdb
      exact (Option.some.inj hdb).symm
    subst hnn
    rw [← hab]
    simp only [Option.bind_eq_bind, Option.some_bind, lookupA_modifyA_of_eq _ hda,
      inputs_sideSet_false', hbs]
    rfl
  · have hdb1 : lookupA b.toKey
        (modifyA a.toKey
          (fun nd => sideSet false nd
            (setA oc (cs ++ [{ node := .str b.toKey, ref := ic }]) (sideGet false nd))) md) =
        some ndb := by
      rw [lookupA_modifyA_ne hab]
      exact hdb
    simp only [Option.bind_eq_bind, Option.some_bind, hdb1, hbs]
    rfl

theorem connList_eq {st : EditorState} {m key : String} (b : Bool) (p : String)
    {md : ModuleData} {nd : NodeRec} (h1 : lookupA m st.drawflow = some md)
    (h2 : lookupA key md = some nd) :
    connList st m key b p = (lookupA p (sideGet b nd)).getD [] := by
  unfold connList
  simp only [h1, h2]

theorem addConnection_post_lists (st : EditorState) (a b : JsVal) (oc ic : String)
    (cs bs : List ConnEntry) {m : String} {md : ModuleData} {nda ndb : NodeRec}
    (hmd : lookupA m st.drawflow = some md)
    (hda : lookupA a.toKey md = some nda)
    (hdb : lookupA b.toKey md = some ndb) :
    connList (updatePort (updatePort st m a.toKey false oc
        (cs ++ [{ node := .str b.toKey, ref := ic }]))
        m b.toKey true ic (bs ++ [{ node := .str a.toKey, ref := oc }]))
      m a.toKey false oc = cs ++ [{ node := .str b.toKey, ref := ic }] ∧
    connList (updatePort (updatePort st m a.toKey false oc
        (cs ++ [{ node := .str b.toKey, ref := ic }]))
        m b.toKey true ic (bs ++ [{ node := .str a.toKey, ref := oc }]))
      m b.toKey true ic = bs ++ [{ node := .str a.toKey, ref := oc }] := by
  have hmd2 : lookupA m (updatePort (updatePort st m a.toKey false oc
      (cs ++ [{ node := .str b.toKey, ref := ic }]))
      m b.toKey true ic (bs ++ [{ node := .str a.toKey, ref := oc }])).drawflow =
      some (modifyA b.toKey
        (fun nd => sideSet true nd
          (setA ic (bs ++ [{ node := .str a.toKey, ref := oc }]) (sideGet true nd)))
        (modifyA a.toKey
          (fun nd => sideSet false nd
            (setA oc (cs ++ [{ node := .str b.toKey, ref := ic }]) (sideGet false nd))) md)) := by
    rw [updatePort_drawflow, updatePort_drawflow]
    rw [lookupA_modifyA_self, lookupA_modifyA_self, hmd]
    rfl
  by_cases hab : a.toKey = b.toKey
  · have hnn : ndb = nda := by
      rw [← hab, hda] at hdb
      exact (Option.some.inj hdb).symm
    subst hnn
    rw [← hab] at hmd2 ⊢
    have hv1 := lookupA_modifyA_of_eq
      (fun nd => sideSet true nd
        (setA ic (bs ++ [{ node := .str a.toKey, ref := oc }]) (sideGet true nd)))
      (lookupA_modifyA_of_eq
        (fun nd => sideSet false nd
          (setA oc (cs ++ [{ node := .str a.toKey, ref := ic }]) (sideGet false nd))) hda)
    constructor
    · rw [connList_eq false oc hmd2 hv1]
      rw [show sideGet false (sideSet true
          (sideSet false ndb
            (setA oc (cs ++ [{ node := .str a.toKey, ref := ic }]) (sideGet false ndb)))
          (setA ic (bs ++ [{ node := .str a.toKey, ref := oc }])
            (sideGet true (sideSet false ndb
              (setA oc (cs ++ [{ node := .str a.toKey, ref := ic }]) (sideGet false ndb)))))) =
        setA oc (cs ++ [{ node := .str a.toKey, ref := ic }]) (sideGet false ndb) from rfl]
      rw [lookupA_setA_self]
      rfl
    · rw [connList_eq true ic hmd2 hv1]
      rw [show sideGet true (sideSet true
          (sideSet false ndb
            (setA oc (cs ++ [{ node := .str a.toKey, ref := ic }]) (sideGet false ndb)))
          (setA ic (bs ++ [{ node := .str a.toKey, ref := oc }])
            (sideGet true (sideSet false ndb
              (setA oc (cs ++ [{ node := .str a.toKey, ref := ic }]) (sideGet false ndb)))))) =
        setA ic (bs ++ [{ node := .str a.toKey, ref := oc }])
          (sideGet true (sideSet false ndb
            (setA oc (cs ++ [{ node := .str a.toKey, ref := ic }]) (sideGet false ndb))))
        from rfl]
      rw [show sideGet true (sideSet false ndb
          (setA oc (cs ++ [{ node := .str a.toKey, ref := ic }]) (sideGet false ndb))) =
        sideGet true ndb from rfl]
      rw [lookupA_setA_self]
      rfl
  · have hba : ¬ (b.toKey = a.toKey) := fun he => hab he.symm
    have hva : lookupA a.toKey
        (modifyA b.toKey
          (fun nd => sideSet true nd
            (setA ic (bs ++ [{ node := .str a.toKey, ref := oc }]) (sideGet true nd)))
          (modifyA a.toKey
            (fun nd => sideSet false nd
              (setA oc (cs ++ [{ node := .str b.toKey, ref := ic }]) (sideGet false nd))) md)) =
        some (sideSet false nda
          (setA oc (cs ++ [{ node := .str b.toKey, ref := ic }]) (sideGet false nda))) := by
      rw [lookupA_modifyA_ne hba]
      exact lookupA_modifyA_of_eq _ hda
    have hvb : lookupA b.toKey
        (modifyA b.toKey
          (fun nd => sideSet true nd
            (setA ic (bs ++ [{ node := .str a.toKey, ref := oc }]) (sideGet true nd)))
          (modifyA a.toKey
            (fun nd => sideSet false nd
              (setA oc (cs ++ [{ node := .str b.toKey, ref := ic }]) (sideGet false nd))) md)) =
        some (sideSet true ndb
          (setA ic (bs ++ [{ node := .str a.toKey, ref := oc }]) (sideGet true ndb))) := by
      have hstep : lookupA b.toKey
          (modifyA a.toKey
            (fun nd => sideSet false nd
              (setA oc (cs ++ [{ node := .str b.toKey, ref := ic }]) (sideGet false nd))) md) =
          some ndb := by
        rw [lookupA_modifyA_ne hab]
        exact hdb
      exact lookupA_modifyA_of_eq _ hstep
    constructor
    · rw [connList_eq false oc hmd2 hva]
      rw [show sideGet false (sideSet false nda
          (setA oc (cs ++ [{ node := .str b.toKey, ref := ic }]) (sideGet false nda))) =
        setA oc (cs ++ [{ node := .str b.toKey, ref := ic }]) (sideGet false nda) from rfl]
      rw [lookupA_setA_self]
      rfl
    · rw [connList_eq true ic hmd2 hvb]
      rw [show sideGet true (sideSet true ndb
          (setA ic (bs ++ [{ node := .str a.toKey, ref := oc }]) (sideGet true ndb))) =
        setA ic (bs ++ [{ node := .str a.toKey, ref := oc }]) (sideGet true ndb) from rfl]
      rw [lookupA_setA_self]
      rfl

/-- C5: duplicate connection creation is a silent no-op.  First half: in any
state already holding an identical (source, outputPort, target, inputPort)
edge, addConnection returns the state unchanged with no event and no error.
Second half: from a state without the edge, a successful first call followed
by an identical second call yields the first call's state unchanged, an
empty trace for the second call, and exactly one stored edge matching the
4-tuple. -/
theorem C5_idempotent_addConnection :
    (∀ (st : EditorState) (a b : JsVal) (oc ic : String) (m : String) (nd : NodeRec)
        (cs : List ConnEntry),
      getModuleFromNodeId st a = some m →
      getModuleFromNodeId st b = some m →
      getNodeFromId st a = some nd →
      lookupA oc nd.outputs = some cs →
      (cs.any fun c => jsEq c.node b && c.ref == ic) = true →
      addConnection st a b oc ic = some (st, [])) ∧
    (∀ (st : EditorState) (a b : JsVal) (oc ic : String) (m : String) (md : ModuleData)
        (nda ndb : NodeRec) (cs bs : List ConnEntry),
      getModuleFromNodeId st a = some m →
      getModuleFromNodeId st b = some m →
      lookupA m st.drawflow = some md →
      lookupA a.toKey md = some nda →
      lookupA oc nda.outputs = some cs →
      (cs.any fun c => jsEq c.node b && c.ref == ic) = false →
      lookupA b.toKey md = some ndb →
      lookupA ic ndb.inputs = some bs →
      ∃ st1, addConnection st a b oc ic = some (st1, [Event.connectionCreated a b oc ic]) ∧
        addConnection st1 a b oc ic = some (st1, []) ∧
        (connList st1 m a.toKey false oc).countP
          (fun c => jsEq c.node b && c.ref == ic) = 1) := by
  have partA : ∀ (st : EditorState) (a b : JsVal) (oc ic : String) (m : String)
      (nd : NodeRec) (cs : List ConnEntry),
      getModuleFromNodeId st a = some m →
      getModuleFromNodeId st b = some m →
      getNodeFromId st a = some nd →
      lookupA oc nd.outputs = some cs →
      (cs.any fun c => jsEq c.node b && c.ref == ic) = true →
      addConnection st a b oc ic = some (st, []) := by
    intro st a b oc ic m nd cs hm1 hm2 hnode hcs hex
    unfold addConnection
    rw [hm1, hm2, if_pos rfl]
    simp only [Option.bind_eq_bind, Option.some_bind, hnode, hcs]
    rw [if_pos hex]
    rfl
  refine ⟨partA, ?_⟩
  intro st a b oc ic m md nda ndb cs bs hm1 hm2 hmd hda hcs hex hdb hbs
  refine ⟨_, addConnection_success st a b oc ic hm1 hm2 hmd hda hcs hex hdb hbs, ?_, ?_⟩
  · -- the second call hits the duplicate check and does nothing
    have hm1' : getModuleFromNodeId (updatePort (updatePort st m a.toKey false oc
        (cs ++ [{ node := .str b.toKey, ref := ic }]))
        m b.toKey true ic (bs ++ [{ node := .str a.toKey, ref := oc }])) a = some m := by
      rw [getModuleFromNodeId_updatePort, getModuleFromNodeId_updatePort]
      exact hm1
    have hm2' : getModuleFromNodeId (updatePort (updatePort st m a.toKey false oc
        (cs ++ [{ node := .str b.toKey, ref := ic }]))
        m b.toKey true ic (bs ++ [{ node := .str a.toKey, ref := oc }])) b = some m := by
      rw [getModuleFromNodeId_updatePort, getModuleFromNodeId_updatePort]
      exact hm2
    have hmd2 : lookupA m (updatePort (updatePort st m a.toKey false oc
        (cs ++ [{ node := .str b.toKey, ref := ic }]))
        m b.toKey true ic (bs ++ [{ node := .str a.toKey, ref := oc }])).drawflow =
        some (modifyA b.toKey
          (fun nd => sideSet true nd
            (setA ic (bs ++ [{ node := .str a.toKey, ref := oc }]) (sideGet true nd)))
          (modifyA a.toKey
            (fun nd => sideSet false nd
              (setA oc (cs ++ [{ node := .str b.toKey, ref := ic }]) (sideGet false nd))) md)) := by
      rw [updatePort_drawflow, updatePort_drawflow]
      rw [lookupA_modifyA_self, lookupA_modifyA_self, hmd]
      rfl
    have hout1 : ∃ nd1, lookupA a.toKey
        (modifyA b.toKey
          (fun nd => sideSet true nd
            (setA ic (bs ++ [{ node := .str a.toKey, ref := oc }]) (sideGet true nd)))
          (modifyA a.toKey
            (fun nd => sideSet false nd
              (setA oc (cs ++ [{ node := .str b.toKey, ref := ic }]) (sideGet false nd))) md)) =
          some nd1 ∧
        lookupA oc nd1.outputs = some (cs ++ [{ node := .str b.toKey, ref := ic }]) := by
      by_cases hab : a.toKey = b.toKey
      · have hnn : ndb = nda := by
          rw [← hab, hda] at hdb
          exact (Option.some.inj hdb).symm
        subst hnn
        rw [← hab]
        have hv1 := lookupA_modifyA_of_eq
          (fun nd => sideSet true nd
            (setA ic (bs ++ [{ node := .str a.toKey, ref := oc }]) (sideGet true nd)))
          (lookupA_modifyA_of_eq
            (fun nd => sideSet false nd
              (setA oc (cs ++ [{ node := .str a.toKey, ref := ic }]) (sideGet false nd))) hda)
        refine ⟨_, hv1, ?_⟩
        rw [show (sideSet true
            (sideSet false ndb
              (setA oc (cs ++ [{ node := .str a.toKey, ref := ic }]) (sideGet false ndb)))
            (setA ic (bs ++ [{ node := .str a.toKey, ref := oc }])
              (sideGet true (sideSet false ndb
                (setA oc (cs ++ [{ node := .str a.toKey, ref := ic }])
                  (sideGet false ndb)))))).outputs =
          setA oc (cs ++ [{ node := .str a.toKey, ref := ic }]) (sideGet false ndb) from rfl]
        exact lookupA_setA_self _ _ _
      · have hba : ¬ (b.toKey = a.toKey) := fun he => hab he.symm
        have hv1 : lookupA a.toKey
            (modifyA b.toKey
              (fun nd => sideSet true nd
                (setA ic (bs ++ [{ node := .str a.toKey, ref := oc }]) (sideGet true nd)))
              (modifyA a.toKey
                (fun nd => sideSet false nd
                  (setA oc (cs ++ [{ node := .str b.toKey, ref := ic }])
                    (sideGet false nd))) md)) =
            some (sideSet false nda
              (setA oc (cs ++ [{ node := .str b.toKey, ref := ic }]) (sideGet false nda))) := by
          rw [lookupA_modifyA_ne hba]
          exact lookupA_modifyA_of_eq _ hda
        refine ⟨_, hv1, ?_⟩
        rw [show (sideSet false nda
            (setA oc (cs ++ [{ node := .str b.toKey, ref := ic }])
              (sideGet false nda))).outputs =
          setA oc (cs ++ [{ node := .str b.toKey, ref := ic }]) (sideGet false nda) from rfl]
        exact lookupA_setA_self _ _ _
    obtain ⟨nd1, hnd1, hout⟩ := hout1
    have hany : ((cs ++ [({ node := .str b.toKey, ref := ic } : ConnEntry)]).any
        fun c => jsEq c.node b && c.ref == ic) = true := by
      rw [List.any_append]
      simp [jsEq_str_toKey b]
    exact partA _ a b oc ic m nd1 _ hm1' hm2' (getNodeFromId_eq hm1' hmd2 hnd1) hout hany
  · -- exactly one stored matching edge after the first call
    have hpost := (addConnection_post_lists st a b oc ic cs bs hmd hda hdb).1
    rw [hpost, List.countP_append]
    have hz : cs.countP (fun c => jsEq c.node b && c.ref == ic) = 0 := by
      rw [List.countP_eq_zero]
      intro c hc
      have := List.any_eq_false.mp hex c hc
      simpa using this
    rw [hz]
    simp [List.countP_cons, jsEq_str_toKey b]

/-- C5 (witness). -/
theorem C5_witness :
    addConnection c1Before (.str "1") (.str "2") "output_1" "input_1" = some (c1Before, []) ∧
    (∃ st1, addConnection twoNodeHome (.num 1) (.num 2) "output_1" "input_1" =
        some (st1, [Event.connectionCreated (.num 1) (.num 2) "output_1" "input_1"]) ∧
      addConnection st1 (.num 1) (.num 2) "output_1" "input_1" = some (st1, []) ∧
      (connList st1 "Home" (JsVal.num 1).toKey false "output_1").countP
        (fun c => jsEq c.node (.num 2) && c.ref == "input_1") = 1) :=
  ⟨C5_idempotent_addConnection.1 c1Before (.str "1") (.str "2") "output_1" "input_1"
      "Other" _ _ rfl rfl rfl rfl rfl,
   C5_idempotent_addConnection.2 twoNodeHome (.num 1) (.num 2) "output_1" "input_1"
      "Home" _ _ _ _ _ rfl rfl rfl rfl rfl rfl rfl rfl⟩

/-- C10: addConnection coerces the counterpart node id to a string before
storing it: with numeric id arguments (whose decimal strings are the node
mapping's keys), the entry appended to the source's output port references
the target as the string form of its id, and the entry appended to the
target's input port references the source as the string form of its id —
stored references are strings, never numbers. -/
theorem C10_stored_refs_are_strings (st : EditorState) (n1 n2 : Int) (oc ic : String)
    (cs bs : List ConnEntry) (m : String) {md : ModuleData} {nda ndb : NodeRec}
    (hm1 : getModuleFromNodeId st (.num n1) = some m)
    (hm2 : getModuleFromNodeId st (.num n2) = some m)
    (hmd : lookupA m st.drawflow = some md)
    (hda : lookupA (intToStr n1) md = some nda)
    (hcs : lookupA oc nda.outputs = some cs)
    (hex : (cs.any fun c => jsEq c.node (.num n2) && c.ref == ic) = false)
    (hdb : lookupA (intToStr n2) md = some ndb)
    (hbs : lookupA ic ndb.inputs = some bs) :
    ∃ st1, addConnection st (.num n1) (.num n2) oc ic =
        some (st1, [Event.connectionCreated (.num n1) (.num n2) oc ic]) ∧
      connList st1 m (intToStr n1) false oc =
        cs ++ [{ node := .str (intToStr n2), ref := ic }] ∧
      connList st1 m (intToStr n2) true ic =
        bs ++ [{ node := .str (intToStr n1), ref := oc }] := by
  refine ⟨_, addConnection_success st (.num n1) (.num n2) oc ic hm1 hm2 hmd hda hcs hex
      hdb hbs, ?_, ?_⟩
  · exact (addConnection_post_lists st (.num n1) (.num n2) oc ic cs bs hmd hda hdb).1
  · exact (addConnection_post_lists st (.num n1) (.num n2) oc ic cs bs hmd hda hdb).2

/-- C10 (witness). -/
theorem C10_witness :
    ∃ st1, addConnection twoNodeHome (.num 1) (.num 2) "output_1" "input_1" =
        some (st1, [Event.connectionCreated (.num 1) (.num 2) "output_1" "input_1"]) ∧
      connList st1 "Home" (intToStr 1) false "output_1" =
        [] ++ [{ node := .str (intToStr 2), ref := "input_1" }] ∧
      connList st1 "Home" (intToStr 2) true "input_1" =
        [] ++ [{ node := .str (intToStr 1), ref := "output_1" }] :=
  C10_stored_refs_are_strings twoNodeHome 1 2 "output_1" "input_1" [] [] "Home"
    rfl rfl rfl rfl rfl rfl rfl rfl

/-- C2 (witness). -/
theorem C2_witness :
    importData twoNodeHome (exportData twoNodeHome).1 true =
      some ({ twoNodeHome with nodeId := deriveNodeId twoNodeHome.drawflow },
        [Event.imported]) :=
  (C2_export_import_roundtrip twoNodeHome rfl).1

theorem deriveNodeId_eq_max (g : Graph) : deriveNodeId g = maxNumericId g + 1 := by
  have inner : ∀ (md : ModuleData) (a : Int),
      md.foldl (fun n2 nEntry =>
        match parseIntJs nEntry.1 with
        | some v => if n2 ≤ v then v + 1 else n2
        | none => n2) (a + 1) =
      (md.foldl (fun b nk =>
        match parseIntJs nk.1 with
        | some v => max b v
        | none => b) a) + 1 := by
    intro md
    induction md with
    | nil => intro a; rfl
    | cons p t ih =>
      intro a
      rw [List.foldl_cons, List.foldl_cons]
      cases hp : parseIntJs p.1 with
      | none =>
        simp only [hp]
        exact ih a
      | some v =>
        simp only [hp]
        have hstep : (if a + 1 ≤ v then v + 1 else a + 1) = max a v + 1 := by
          by_cases hcmp : a + 1 ≤ v
          · rw [if_pos hcmp, max_eq_right (by omega)]
          · rw [if_neg hcmp, max_eq_left (by omega)]
        rw [hstep]
        exact ih (max a v)
  have main : ∀ (l : Graph) (a : Int),
      l.foldl (fun n mEntry =>
        mEntry.2.foldl (fun n2 nEntry =>
          match parseIntJs nEntry.1 with
          | some v => if n2 ≤ v then v + 1 else n2
          | none => n2) n) (a + 1) =
      (l.foldl (fun acc mE =>
        mE.2.foldl (fun b nk =>
          match parseIntJs nk.1 with
          | some v => max b v
          | none => b) acc) a) + 1 := by
    intro l
    induction l with
    | nil => intro a; rfl
    | cons p t ih =>
      intro a
      rw [List.foldl_cons, List.foldl_cons, inner p.2 a]
      exact ih _
  have h := main g 0
  rw [show ((0 : Int) + 1) = 1 from rfl] at h
  exact h

/-- C9: the sequential id allocator starts at 1; with useuuid off every
addNode call returns the current counter as the new id and advances the
counter by one; iterating n addNode calls therefore returns the ids
counter, counter+1, ..., counter+n-1, a strictly increasing and hence
distinct sequence; and the counter a bulk import re-derives (the loop at the
end of load) is exactly one more than the largest numeric id in the imported
mapping. -/
theorem C9_sequential_ids :
    initialEditorState.nodeId = 1 ∧
    (∀ (st : EditorState) (name : String) (nIn nOut : Int) (x y : Rat)
        (co d h : String) (tn : TypeNode) (u : String) (md : ModuleData),
      st.useuuid = false → lookupA st.module st.drawflow = some md →
      ∃ st' ev, addNode st name nIn nOut x y co d h tn u =
          some (JsVal.num st.nodeId, st', ev) ∧ st'.nodeId = st.nodeId + 1 ∧
          st'.module = st.module ∧ st'.useuuid = false ∧
          (lookupA st'.module st'.drawflow).isSome = true) ∧
    (∀ (st : EditorState) (n : Nat),
      st.useuuid = false → (lookupA st.module st.drawflow).isSome = true →
      ∃ st', addNodesIter st n =
        some ((List.range n).map (fun i => JsVal.num (st.nodeId + Int.ofNat i)), st')) ∧
    (∀ (base : Int) (n : Nat),
      ((List.range n).map fun i => base + Int.ofNat i).Pairwise (fun a b => a < b)) ∧
    (∀ g : Graph, deriveNodeId g = maxNumericId g + 1) := by
  have part2 : ∀ (st : EditorState) (name : String) (nIn nOut : Int) (x y : Rat)
      (co d h : String) (tn : TypeNode) (u : String) (md : ModuleData),
      st.useuuid = false → lookupA st.module st.drawflow = some md →
      ∃ st' ev, addNode st name nIn nOut x y co d h tn u =
          some (JsVal.num st.nodeId, st', ev) ∧ st'.nodeId = st.nodeId + 1 ∧
          st'.module = st.module ∧ st'.useuuid = false ∧
          (lookupA st'.module st'.drawflow).isSome = true := by
    intro st name nIn nOut x y co d h tn u md hu hm
    unfold addNode
    rw [hm]
    simp only [hu, Bool.false_eq_true, if_false]
    refine ⟨_, _, rfl, rfl, rfl, rfl, ?_⟩
    show (lookupA st.module (modifyA st.module _ st.drawflow)).isSome = true
    rw [lookupA_modifyA_self, hm]
    rfl
  have hlist : ∀ (base : Int) (n : Nat),
      (List.range (n + 1)).map (fun i => JsVal.num (base + Int.ofNat i)) =
        JsVal.num base :: (List.range n).map (fun i => JsVal.num (base + 1 + Int.ofNat i)) := by
    intro base n
    rw [List.range_succ_eq_map, List.map_cons, List.map_map]
    congr 1
    · norm_num
    · congr 1
      funext i
      show JsVal.num (base + Int.ofNat (i + 1)) = JsVal.num (base + 1 + Int.ofNat i)
      congr 1
      simp only [Int.ofNat_eq_natCast]
      omega
  refine ⟨rfl, part2, ?_, ?_, deriveNodeId_eq_max⟩
  · intro st n hu hm
    induction n generalizing st with
    | zero => exact ⟨st, rfl⟩
    | succ n ih =>
      obtain ⟨md, hmd⟩ := Option.isSome_iff_exists.mp hm
      obtain ⟨st1, ev, h1, hnid, hmod, huu, hsome⟩ :=
        part2 st "n" 0 0 0 0 "" "" "" TypeNode.htmlContent "" md hu hmd
      obtain ⟨st2, h2⟩ := ih st1 huu hsome
      rw [hnid] at h2
      refine ⟨st2, ?_⟩
      show (do
        let r ← addNode st "n" 0 0 0 0 "" "" "" TypeNode.htmlContent ""
        let rest ← addNodesIter r.2.1 n
        pure (r.1 :: rest.1, rest.2)) = _
      rw [h1]
      simp only [Option.bind_eq_bind, Option.some_bind]
      rw [h2]
      simp only [Option.bind_eq_bind, Option.some_bind]
      rw [hlist st.nodeId n]
      rfl
  · intro base n
    refine List.Pairwise.map _ ?_ (List.pairwise_lt_range n)
    intro a b hab
    simp only [Int.ofNat_eq_natCast]
    omega

/-- C9 (witness). -/
theorem C9_witness :
    initialEditorState.nodeId = 1 ∧
    (∃ st' ev, addNode twoNodeHome "w" 1 1 0 0 "" "" "" TypeNode.htmlContent "" =
        some (JsVal.num twoNodeHome.nodeId, st', ev) ∧
        st'.nodeId = twoNodeHome.nodeId + 1 ∧ st'.module = twoNodeHome.module ∧
        st'.useuuid = false ∧ (lookupA st'.module st'.drawflow).isSome = true) ∧
    (∃ st', addNodesIter initialEditorState 3 =
        some ((List.range 3).map (fun i => JsVal.num (initialEditorState.nodeId + Int.ofNat i)),
          st')) ∧
    ((List.range 5).map fun i => (7 : Int) + Int.ofNat i).Pairwise (fun a b => a < b) ∧
    deriveNodeId c3State.drawflow = maxNumericId c3State.drawflow + 1 :=
  ⟨C9_sequential_ids.1,
   C9_sequential_ids.2.1 twoNodeHome "w" 1 1 0 0 "" "" "" TypeNode.htmlContent ""
     _ rfl rfl,
   C9_sequential_ids.2.2.1 initialEditorState 3 rfl rfl,
   C9_sequential_ids.2.2.2.1 7 5,
   C9_sequential_ids.2.2.2.2 c3State.drawflow⟩

/-! Groundwork for C3: generic list facts. -/

theorem findIdx_head {α : Type} {p : α → Bool} {a : α} (t : List α) (h : p a = true) :
    (a :: t).findIdx? p = some 0 := by
  simp [List.findIdx?_cons, h]

theorem findIdx_eraseIdx_eraseP {α : Type} {p : α → Bool} :
    ∀ {l : List α} {i : Nat}, l.findIdx? p = some i → l.eraseIdx i = l.eraseP p := by
  intro l
  induction l with
  | nil => intro i h; simp [List.findIdx?] at h
  | cons a t ih =>
    intro i h
    by_cases hp : p a = true
    · rw [findIdx_head t hp] at h
      injection h with h2
      subst h2
      rw [List.eraseIdx_cons_zero, List.eraseP_cons_of_pos hp]
    · rw [List.findIdx?_cons, if_neg hp, List.findIdx?_succ] at h
      rw [Option.map_eq_some'] at h
      obtain ⟨j, hj, hij⟩ := h
      subst hij
      rw [List.eraseIdx_cons_succ, List.eraseP_cons_of_neg hp, ih hj]

theorem findIdx_isSome_of_mem {α : Type} {p : α → Bool} :
    ∀ {l : List α} {a : α}, a ∈ l → p a = true → ∃ i, l.findIdx? p = some i := by
  intro l
  induction l with
  | nil => intro a h; simp at h
  | cons x t ih =>
    intro a hmem hp
    by_cases hx : p x = true
    · exact ⟨0, findIdx_head t hx⟩
    · rw [List.mem_cons] at hmem
      rcases hmem with h | h
      · subst h; exact absurd hp hx
      · obtain ⟨j, hj⟩ := ih h hp
        refine ⟨j + 1, ?_⟩
        rw [List.findIdx?_cons, if_neg hx, List.findIdx?_succ, hj, Option.map_some']

theorem countP_eraseP_self {α : Type} {p : α → Bool} :
    ∀ {l : List α}, (∃ a ∈ l, p a = true) →
      (l.eraseP p).countP p + 1 = l.countP p := by
  intro l
  induction l with
  | nil => intro h; simp at h
  | cons x t ih =>
    intro hex
    by_cases hx : p x = true
    · rw [List.eraseP_cons_of_pos hx, List.countP_cons_of_pos _ _ hx]
    · rw [List.eraseP_cons_of_neg hx, List.countP_cons_of_neg _ _ hx,
        List.countP_cons_of_neg _ _ hx]
      apply ih
      obtain ⟨a, hmem, hp⟩ := hex
      rw [List.mem_cons] at hmem
      rcases hmem with h | h
      · subst h; exact absurd hp hx
      · exact ⟨a, h, hp⟩

theorem eraseDups_loop_mem {α : Type} [DecidableEq α] :
    ∀ (as bs : List α) (x : α),
      x ∈ List.eraseDups.loop as bs ↔ x ∈ bs ∨ x ∈ as := by
  intro as
  induction as with
  | nil => intro bs x; simp [List.eraseDups.loop]
  | cons a t ih =>
    intro bs x
    rw [List.eraseDups.loop]
    by_cases hmem : a ∈ bs
    · have : bs.elem a = true := List.elem_eq_true_of_mem hmem
      rw [this]
      rw [ih]
      simp only [List.mem_cons]
      constructor
      · rintro (h | h)
        · exact Or.inl h
        · exact Or.inr (Or.inr h)
      · rintro (h | h | h)
        · exact Or.inl h
        · exact Or.inl (h ▸ hmem)
        · exact Or.inr h
    · have : bs.elem a = false := by
        rw [← Bool.not_eq_true]
        intro hc
        exact hmem (List.mem_of_elem_eq_true hc)
      rw [this]
      rw [ih]
      simp only [List.mem_cons]
      tauto

theorem eraseDups_loop_nodup {α : Type} [DecidableEq α] :
    ∀ (as bs : List α), bs.Nodup → (List.eraseDups.loop as bs).Nodup := by
  intro as
  induction as with
  | nil => intro bs h; rw [List.eraseDups.loop]; exact List.nodup_reverse.mpr h
  | cons a t ih =>
    intro bs hnd
    rw [List.eraseDups.loop]
    by_cases hmem : a ∈ bs
    · rw [List.elem_eq_true_of_mem hmem]
      exact ih bs hnd
    · have : bs.elem a = false := by
        rw [← Bool.not_eq_true]
        intro hc
        exact hmem (List.mem_of_elem_eq_true hc)
      rw [this]
      exact ih (a :: bs) (List.nodup_cons.mpr ⟨hmem, hnd⟩)

theorem mem_eraseDups_iff {α : Type} [DecidableEq α] (l : List α) (x : α) :
    x ∈ l.eraseDups ↔ x ∈ l := by
  rw [List.eraseDups, eraseDups_loop_mem]
  simp

theorem nodup_eraseDups {α : Type} [DecidableEq α] (l : List α) :
    l.eraseDups.Nodup := by
  rw [List.eraseDups]
  exact eraseDups_loop_nodup l [] List.nodup_nil

theorem nodup_of_mem_flatten {α : Type} :
    ∀ {ll : List (List α)}, ll.flatten.Nodup → ∀ {s : List α}, s ∈ ll → s.Nodup := by
  intro ll
  induction ll with
  | nil => intro _ s h; simp at h
  | cons a t ih =>
    intro hnd s hmem
    rw [List.flatten_cons, List.nodup_append] at hnd
    rw [List.mem_cons] at hmem
    rcases hmem with h | h
    · exact h ▸ hnd.1
    · exact ih hnd.2.1 h

theorem foldl_append_flatten {α : Type} :
    ∀ (l : List (List α)) (acc : List α),
      l.foldl (fun a b => a ++ b) acc = acc ++ l.flatten := by
  intro l
  induction l with
  | nil => intro acc; simp
  | cons a t ih =>
    intro acc
    rw [List.foldl_cons, ih, List.flatten_cons, List.append_assoc]

theorem sameRef_self (c : ConnEntry) : sameRef c c = true := by
  simp [sameRef]

theorem sameRef_false_pairs {c e : ConnEntry} (h : sameRef c e = false) :
    (e.node, e.ref) ≠ (c.node, c.ref) := by
  simp only [sameRef, Bool.and_eq_false_iff, beq_eq_false_iff_ne, ne_eq] at h
  intro hc
  rw [Prod.ext_iff] at hc
  rcases h with h | h
  · exact h hc.1
  · exact h hc.2

theorem pairs_nodup_of_countP :
    ∀ {L : List ConnEntry}, (∀ c ∈ L, L.countP (sameRef c) = 1) →
      (L.map fun e => (e.node, e.ref)).Nodup := by
  intro L
  induction L with
  | nil => intro _; exact List.nodup_nil
  | cons c t ih =>
    intro h
    rw [List.map_cons, List.nodup_cons]
    have hc := h c (List.mem_cons_self _ _)
    rw [List.countP_cons_of_pos _ _ (sameRef_self c)] at hc
    have hzero : t.countP (sameRef c) = 0 := by omega
    constructor
    · intro hmem
      obtain ⟨e, he, hee⟩ := List.mem_map.mp hmem
      have := List.countP_eq_zero.mp hzero e he
      exact sameRef_false_pairs (Bool.not_eq_true _ ▸ this) hee
    · apply ih
      intro c' hc'
      have hfull := h c' (List.mem_cons_of_mem _ hc')
      by_cases hcc : sameRef c' c = true
      · rw [List.countP_cons_of_pos _ _ hcc] at hfull
        have : t.countP (sameRef c') = 0 := by omega
        have hself := List.countP_eq_zero.mp this c' hc'
        exact absurd (sameRef_self c') hself
      · rw [List.countP_cons_of_neg _ _ hcc] at hfull
        exact hfull

/-! Groundwork for C3: more association-list facts. -/

theorem modifyA_absent {α : Type} {k : String} (f : α → α) :
    ∀ {l : List (String × α)}, lookupA k l = none → modifyA k f l = l := by
  intro l
  induction l with
  | nil => intro _; rfl
  | cons p t ih =>
    obtain ⟨k', v'⟩ := p
    intro h
    rw [lookupA] at h
    by_cases hk : k' = k
    · rw [if_pos hk] at h; exact absurd h (by simp)
    · rw [if_neg hk] at h
      rw [modifyA, if_neg hk, ih h]

theorem modifyA_congr_value {α : Type} {k : String} {f g : α → α} {v : α} :
    ∀ {l : List (String × α)}, lookupA k l = some v → f v = g v →
      modifyA k f l = modifyA k g l := by
  intro l
  induction l with
  | nil => intro h; exact absurd h (by simp [lookupA])
  | cons p t ih =>
    obtain ⟨k', v'⟩ := p
    intro h hfg
    rw [lookupA] at h
    by_cases hk : k' = k
    · rw [if_pos hk] at h
      injection h with h2
      subst h2
      rw [modifyA, if_pos hk, modifyA, if_pos hk, hfg]
    · rw [if_neg hk] at h
      rw [modifyA, if_neg hk, modifyA, if_neg hk, ih h hfg]

theorem modifyA_value_id {α : Type} {k : String} {f : α → α} {v : α} :
    ∀ {l : List (String × α)}, lookupA k l = some v → f v = v →
      modifyA k f l = l := by
  intro l
  induction l with
  | nil => intro h; exact absurd h (by simp [lookupA])
  | cons p t ih =>
    obtain ⟨k', v'⟩ := p
    intro h hfv
    rw [lookupA] at h
    by_cases hk : k' = k
    · rw [if_pos hk] at h
      injection h with h2
      subst h2
      rw [modifyA, if_pos hk, hfv]
    · rw [if_neg hk] at h
      rw [modifyA, if_neg hk, ih h hfv]

theorem mem_lookupA_of_nodup {α : Type} {k : String} {v : α} :
    ∀ {l : List (String × α)}, (l.map Prod.fst).Nodup → (k, v) ∈ l →
      lookupA k l = some v := by
  intro l
  induction l with
  | nil => intro _ h; simp at h
  | cons p t ih =>
    obtain ⟨k', v'⟩ := p
    intro hnd hmem
    rw [List.map_cons, List.nodup_cons] at hnd
    rw [List.mem_cons] at hmem
    rcases hmem with h | h
    · injection h with h1 h2
      subst h1; subst h2
      rw [lookupA, if_pos rfl]
    · have hk : k' ≠ k := by
        intro he
        subst he
        exact hnd.1 (List.mem_map.mpr ⟨(k', v), h, rfl⟩)
      rw [lookupA, if_neg hk]
      exact ih hnd.2 h

theorem mem_modifyA_nodup {α : Type} {k : String} (f : α → α) {x : String × α} :
    ∀ {l : List (String × α)}, (l.map Prod.fst).Nodup → x ∈ modifyA k f l →
      (x.1 ≠ k ∧ x ∈ l) ∨ (x.1 = k ∧ ∃ v, lookupA k l = some v ∧ x = (k, f v)) := by
  intro l
  induction l with
  | nil => intro _ h; simp [modifyA] at h
  | cons p t ih =>
    obtain ⟨k', v'⟩ := p
    intro hnd hmem
    rw [List.map_cons, List.nodup_cons] at hnd
    by_cases hk : k' = k
    · subst hk
      rw [modifyA, if_pos rfl] at hmem
      rw [List.mem_cons] at hmem
      rcases hmem with h | h
      · exact Or.inr ⟨by rw [h], v', by rw [lookupA, if_pos rfl], h⟩
      · have hx : x.1 ≠ k' := by
          intro he
          apply hnd.1
          rw [← he]
          exact List.mem_map.mpr ⟨x, h, rfl⟩
        exact Or.inl ⟨hx, List.mem_cons_of_mem _ h⟩
    · rw [modifyA, if_neg hk] at hmem
      rw [List.mem_cons] at hmem
      rcases hmem with h | h
      · left
        constructor
        · rw [h]; exact fun he => hk he
        · exact h ▸ List.mem_cons_self _ _
      · rcases ih hnd.2 h with h2 | h2
        · exact Or.inl ⟨h2.1, List.mem_cons_of_mem _ h2.2⟩
        · obtain ⟨hx1, v, hv1, hv2⟩ := h2
          exact Or.inr ⟨hx1, v, by rw [lookupA, if_neg hk]; exact hv1, hv2⟩

theorem mem_eraseA_sub {α : Type} {k : String} {x : String × α} :
    ∀ {l : List (String × α)}, x ∈ eraseA k l → x ∈ l := by
  intro l
  induction l with
  | nil => intro h; simp [eraseA] at h
  | cons p t ih =>
    obtain ⟨k', v'⟩ := p
    intro h
    rw [eraseA] at h
    by_cases hk : k' = k
    · rw [if_pos hk] at h
      exact List.mem_cons_of_mem _ h
    · rw [if_neg hk] at h
      rw [List.mem_cons] at h
      rcases h with h | h
      · exact h ▸ List.mem_cons_self _ _
      · exact List.mem_cons_of_mem _ (ih h)

theorem length_eraseA {α : Type} {k : String} {v : α} :
    ∀ {l : List (String × α)}, lookupA k l = some v →
      (eraseA k l).length + 1 = l.length := by
  intro l
  induction l with
  | nil => intro h; exact absurd h (by simp [lookupA])
  | cons p t ih =>
    obtain ⟨k', v'⟩ := p
    intro h
    rw [lookupA] at h
    by_cases hk : k' = k
    · rw [eraseA, if_pos hk, List.length_cons]
    · rw [if_neg hk] at h
      rw [eraseA, if_neg hk, List.length_cons, List.length_cons, ih h]

theorem sumMap_eraseA {α : Type} {k : String} {v : α} (g : α → Nat) :
    ∀ {l : List (String × α)}, lookupA k l = some v →
      ((eraseA k l).map fun p => g p.2).sum + g v = (l.map fun p => g p.2).sum := by
  intro l
  induction l with
  | nil => intro h; exact absurd h (by simp [lookupA])
  | cons p t ih =>
    obtain ⟨k', v'⟩ := p
    intro h
    rw [lookupA] at h
    by_cases hk : k' = k
    · rw [if_pos hk] at h
      injection h with h2
      subst h2
      rw [eraseA, if_pos hk, List.map_cons, List.sum_cons, Nat.add_comm]
    · rw [if_neg hk] at h
      rw [eraseA, if_neg hk, List.map_cons, List.map_cons, List.sum_cons, List.sum_cons,
        Nat.add_assoc, ih h]

/-! Groundwork for C3: the port-update algebra. -/

theorem lookupA_map_val {α β : Type} (h : α → β) (k : String) :
    ∀ l : List (String × α),
      lookupA k (l.map fun p => (p.1, h p.2)) = (lookupA k l).map h := by
  intro l
  induction l with
  | nil => rfl
  | cons p t ih =>
    obtain ⟨k', v'⟩ := p
    by_cases hk : k' = k
    · rw [List.map_cons, lookupA, lookupA, if_pos hk, if_pos hk, Option.map_some']
    · rw [List.map_cons, lookupA, lookupA, if_neg hk, if_neg hk, ih]

theorem listAt_eq_some {b : Bool} {Y r : String} {md : ModuleData} {l : List ConnEntry} :
    listAt b Y r md = some l ↔
      ∃ nd, lookupA Y md = some nd ∧ lookupA r (sideGet b nd) = some l := by
  unfold listAt
  cases lookupA Y md <;> simp

theorem modPort_keys (b : Bool) (Y r : String) (f : List ConnEntry → List ConnEntry)
    (md : ModuleData) : (modPort b Y r f md).map Prod.fst = md.map Prod.fst :=
  keys_modifyA Y _ md

theorem sideGet_keys_modPortFn (b b' : Bool) (r : String)
    (f : List ConnEntry → List ConnEntry) (nd : NodeRec) :
    (sideGet b' (sideSet b nd (modifyA r f (sideGet b nd)))).map Prod.fst =
      (sideGet b' nd).map Prod.fst := by
  cases b <;> cases b' <;>
    simp only [sideGet, sideSet, if_true, if_false, Bool.true_eq_false, Bool.false_eq_true,
      keys_modifyA]

theorem skView_modPort (b' b : Bool) (Y r : String) (f : List ConnEntry → List ConnEntry)
    (md : ModuleData) : skView b' (modPort b Y r f md) = skView b' md :=
  map_modifyA_congr Y _ (fun nd => (sideGet b' nd).map Prod.fst)
    (fun nd => sideGet_keys_modPortFn b b' r f nd) md

theorem keys_skView (b : Bool) (md : ModuleData) :
    (skView b md).map Prod.fst = md.map Prod.fst := by
  unfold skView
  rw [List.map_map]
  rfl

theorem lookupA_skView (b : Bool) (Y : String) (md : ModuleData) :
    lookupA Y (skView b md) = (lookupA Y md).map fun nd => (sideGet b nd).map Prod.fst := by
  unfold skView
  exact lookupA_map_val (fun nd => (sideGet b nd).map Prod.fst) Y md

theorem listAt_isSome_congr {b : Bool} {md md' : ModuleData}
    (h : skView b md' = skView b md) (Y r : String) :
    (listAt b Y r md').isSome = (listAt b Y r md).isSome := by
  have h2 := congrArg (lookupA Y) h
  rw [lookupA_skView, lookupA_skView] at h2
  unfold listAt
  cases h3 : lookupA Y md' with
  | none =>
    rw [h3] at h2
    cases h4 : lookupA Y md with
    | none => rfl
    | some nd => rw [h4] at h2; exact absurd h2 (by simp)
  | some nd' =>
    rw [h3] at h2
    cases h4 : lookupA Y md with
    | none => rw [h4] at h2; exact absurd h2 (by simp)
    | some nd =>
      rw [h4] at h2
      rw [Option.map_some', Option.map_some'] at h2
      injection h2 with h5
      simp only [Option.some_bind]
      cases h6 : lookupA r (sideGet b nd) with
      | none =>
        rw [lookupA_eq_none_iff] at h6
        rw [lookupA_eq_none_iff.mpr (by rw [h5]; exact h6)]
      | some l =>
        have : (lookupA r (sideGet b nd')).isSome = true := by
          rw [lookupA_isSome_iff, h5, ← lookupA_isSome_iff, h6]
          rfl
        rw [Option.isSome_iff_exists] at this
        obtain ⟨l', hl'⟩ := this
        rw [hl']
        rfl

theorem listAt_modPort_self (b : Bool) (Y r : String)
    (f : List ConnEntry → List ConnEntry) (md : ModuleData) :
    listAt b Y r (modPort b Y r f md) = (listAt b Y r md).map f := by
  unfold listAt modPort
  cases h : lookupA Y md with
  | none => rw [modifyA_absent _ h, h]; rfl
  | some nd =>
    rw [lookupA_modifyA_of_eq _ h]
    simp only [Option.some_bind]
    rw [sideGet_sideSet, lookupA_modifyA_self]

theorem listAt_modPort_ne_node {Y Y' : String} (h : Y ≠ Y') (b b' : Bool) (r r' : String)
    (f : List ConnEntry → List ConnEntry) (md : ModuleData) :
    listAt b' Y' r' (modPort b Y r f md) = listAt b' Y' r' md := by
  unfold listAt modPort
  rw [lookupA_modifyA_ne h]

theorem listAt_modPort_ne_side {b b' : Bool} (h : b' ≠ b) (Y Y' r r' : String)
    (f : List ConnEntry → List ConnEntry) (md : ModuleData) :
    listAt b' Y' r' (modPort b Y r f md) = listAt b' Y' r' md := by
  by_cases hy : Y = Y'
  · subst hy
    unfold listAt modPort
    cases h2 : lookupA Y md with
    | none => rw [modifyA_absent _ h2, h2]
    | some nd =>
      rw [lookupA_modifyA_of_eq _ h2]
      simp only [Option.some_bind]
      have hb : b' = !b := by
        cases b <;> cases b' <;> simp_all
      rw [hb, sideGet_sideSet_neg]
  · exact listAt_modPort_ne_node hy b b' r r' f md

theorem listAt_modPort_ne_port {r r' : String} (h : r ≠ r') (b : Bool) (Y Y' : String)
    (f : List ConnEntry → List ConnEntry) (md : ModuleData) :
    listAt b Y' r' (modPort b Y r f md) = listAt b Y' r' md := by
  by_cases hy : Y = Y'
  · subst hy
    unfold listAt modPort
    cases h2 : lookupA Y md with
    | none => rw [modifyA_absent _ h2, h2]
    | some nd =>
      rw [lookupA_modifyA_of_eq _ h2]
      simp only [Option.some_bind]
      rw [sideGet_sideSet, lookupA_modifyA_ne h]
  · exact listAt_modPort_ne_node hy b b r r' f md

theorem modPort_absent {b : Bool} {Y r : String} {md : ModuleData}
    (h : listAt b Y r md = none) (f : List ConnEntry → List ConnEntry) :
    modPort b Y r f md = md := by
  unfold modPort
  cases h2 : lookupA Y md with
  | none => exact modifyA_absent _ h2
  | some nd =>
    unfold listAt at h
    rw [h2] at h
    simp only [Option.some_bind] at h
    apply modifyA_value_id h2
    rw [modifyA_absent _ h, sideSet_sideGet]

theorem modPort_congr_value {b : Bool} {Y r : String} {md : ModuleData}
    {f g : List ConnEntry → List ConnEntry} {l : List ConnEntry}
    (h : listAt b Y r md = some l) (hfg : f l = g l) :
    modPort b Y r f md = modPort b Y r g md := by
  obtain ⟨nd, h1, h2⟩ := listAt_eq_some.mp h
  exact modifyA_congr_value h1 (by rw [modifyA_congr_value h2 hfg])

theorem modPort_value_id {b : Bool} {Y r : String} {md : ModuleData}
    {f : List ConnEntry → List ConnEntry} {l : List ConnEntry}
    (h : listAt b Y r md = some l) (hf : f l = l) :
    modPort b Y r f md = md := by
  obtain ⟨nd, h1, h2⟩ := listAt_eq_some.mp h
  apply modifyA_value_id h1
  rw [modifyA_value_id h2 hf, sideSet_sideGet]

theorem modPort_modPort_same (b : Bool) (Y r : String)
    (f g : List ConnEntry → List ConnEntry) (md : ModuleData) :
    modPort b Y r f (modPort b Y r g md) = modPort b Y r (fun l => f (g l)) md := by
  unfold modPort
  rw [modifyA_modifyA]
  congr 1
  funext nd
  rw [sideGet_sideSet, sideSet_sideSet, modifyA_modifyA]

theorem sideSet_comm_neg (b : Bool) (nd : NodeRec)
    (pm1 pm2 : List (String × List ConnEntry)) :
    sideSet b (sideSet (!b) nd pm1) pm2 = sideSet (!b) (sideSet b nd pm2) pm1 := by
  cases b <;> rfl

theorem modPort_comm_node {Y Y' : String} (h : Y ≠ Y') (b b' : Bool) (r r' : String)
    (f g : List ConnEntry → List ConnEntry) (md : ModuleData) :
    modPort b Y r f (modPort b' Y' r' g md) = modPort b' Y' r' g (modPort b Y r f md) :=
  modifyA_comm h _ _ md

theorem modPort_comm_side (b : Bool) (Y Y' r r' : String)
    (f g : List ConnEntry → List ConnEntry) (md : ModuleData) :
    modPort b Y r f (modPort (!b) Y' r' g md) =
      modPort (!b) Y' r' g (modPort b Y r f md) := by
  by_cases hy : Y = Y'
  · subst hy
    unfold modPort
    rw [modifyA_modifyA, modifyA_modifyA]
    congr 1
    funext nd
    rw [sideGet_neg_sideSet, sideSet_comm_neg, sideGet_sideSet_neg]
  · exact modPort_comm_node hy b (!b) r r' f g md

theorem modPort_comm_port {r r' : String} (h : r ≠ r') (b : Bool) (Y Y' : String)
    (f g : List ConnEntry → List ConnEntry) (md : ModuleData) :
    modPort b Y r f (modPort b Y' r' g md) = modPort b Y' r' g (modPort b Y r f md) := by
  by_cases hy : Y = Y'
  · subst hy
    unfold modPort
    rw [modifyA_modifyA, modifyA_modifyA]
    congr 1
    funext nd
    rw [sideGet_sideSet, sideSet_sideSet, sideGet_sideSet, sideSet_sideSet,
      modifyA_comm h]
  · exact modPort_comm_node hy b b r r' f g md

theorem modPort_comm_tf (Y Y' r r' : String) (f g : List ConnEntry → List ConnEntry)
    (md : ModuleData) :
    modPort true Y r f (modPort false Y' r' g md) =
      modPort false Y' r' g (modPort true Y r f md) := by
  have h := modPort_comm_side false Y' Y r' r g f md
  simp only [Bool.not_false] at h
  exact h.symm

theorem mOutSum_modPort_true (Y r : String) (f : List ConnEntry → List ConnEntry)
    (md : ModuleData) : mOutSum (modPort true Y r f md) = mOutSum md := by
  unfold modPort mOutSum
  cases h : lookupA Y md with
  | none => rw [modifyA_absent _ h]
  | some nd =>
    have h2 := sumMap_modifyA (v := nd)
      (fun nd => sideSet true nd (modifyA r f (sideGet true nd))) outSum h
    simp only [outSum_sideSet_true] at h2
    omega

theorem mOutSum_modPort_false {Y r : String} {md : ModuleData} {l : List ConnEntry}
    (h : listAt false Y r md = some l) (f : List ConnEntry → List ConnEntry) :
    mOutSum (modPort false Y r f md) + l.length = mOutSum md + (f l).length := by
  obtain ⟨nd, h1, h2⟩ := listAt_eq_some.mp h
  unfold modPort mOutSum
  have h3 := sumMap_modifyA (v := nd)
    (fun nd => sideSet false nd (modifyA r f (sideGet false nd))) outSum h1
  simp only [outSum_sideSet_false] at h3
  have h4 := sumMap_modifyA (v := l) f List.length h2
  have h5 : outSum nd = ((sideGet false nd).map fun pc => pc.2.length).sum := rfl
  omega

theorem portFold_nil (b : Bool) (g : List ConnEntry → List ConnEntry) (md : ModuleData) :
    portFold b g [] md = md := rfl

theorem portFold_cons (b : Bool) (g : List ConnEntry → List ConnEntry) (c : ConnEntry)
    (U : List ConnEntry) (md : ModuleData) :
    portFold b g (c :: U) md = portFold b g U (modPort b c.node.toKey c.ref g md) := rfl

theorem portFold_append (b : Bool) (g : List ConnEntry → List ConnEntry)
    (U1 U2 : List ConnEntry) (md : ModuleData) :
    portFold b g (U1 ++ U2) md = portFold b g U2 (portFold b g U1 md) :=
  List.foldl_append _ _ U1 U2

theorem skView_portFold (b' b : Bool) (g : List ConnEntry → List ConnEntry) :
    ∀ (U : List ConnEntry) (md : ModuleData),
      skView b' (portFold b g U md) = skView b' md := by
  intro U
  induction U with
  | nil => intro md; rfl
  | cons c t ih =>
    intro md
    rw [portFold_cons, ih, skView_modPort]

theorem keys_portFold (b : Bool) (g : List ConnEntry → List ConnEntry)
    (U : List ConnEntry) (md : ModuleData) :
    (portFold b g U md).map Prod.fst = md.map Prod.fst := by
  rw [← keys_skView b, skView_portFold, keys_skView]

theorem listAt_portFold_other_side {b b' : Bool} (h : b' ≠ b)
    (g : List ConnEntry → List ConnEntry) :
    ∀ (U : List ConnEntry) (Y r : String) (md : ModuleData),
      listAt b' Y r (portFold b g U md) = listAt b' Y r md := by
  intro U
  induction U with
  | nil => intro Y r md; rfl
  | cons c t ih =>
    intro Y r md
    rw [portFold_cons, ih, listAt_modPort_ne_side h]

theorem listAt_portFold_untouched {b : Bool} {g : List ConnEntry → List ConnEntry}
    {Y r : String} :
    ∀ {U : List ConnEntry}, (∀ c ∈ U, ¬(c.node.toKey = Y ∧ c.ref = r)) →
      ∀ {md : ModuleData}, listAt b Y r (portFold b g U md) = listAt b Y r md := by
  intro U
  induction U with
  | nil => intro _ md; rfl
  | cons c t ih =>
    intro h md
    rw [portFold_cons, ih (fun e he => h e (List.mem_cons_of_mem _ he))]
    by_cases h1 : c.node.toKey = Y
    · have h2 : c.ref ≠ r := fun h2 => h c (List.mem_cons_self _ _) ⟨h1, h2⟩
      rw [h1, listAt_modPort_ne_port h2]
    · rw [listAt_modPort_ne_node h1]

theorem listAt_portFold_touched {b : Bool} {g : List ConnEntry → List ConnEntry}
    {U U1 U2 : List ConnEntry} {c : ConnEntry} (hU : U = U1 ++ c :: U2)
    (h1 : ∀ e ∈ U1, ¬(e.node.toKey = c.node.toKey ∧ e.ref = c.ref))
    (h2 : ∀ e ∈ U2, ¬(e.node.toKey = c.node.toKey ∧ e.ref = c.ref))
    (md : ModuleData) :
    listAt b c.node.toKey c.ref (portFold b g U md) =
      (listAt b c.node.toKey c.ref md).map g := by
  subst hU
  rw [portFold_append, portFold_cons, listAt_portFold_untouched h2,
    listAt_modPort_self, listAt_portFold_untouched h1]

theorem mOutSum_portFold_true (g : List ConnEntry → List ConnEntry) :
    ∀ (U : List ConnEntry) (md : ModuleData),
      mOutSum (portFold true g U md) = mOutSum md := by
  intro U
  induction U with
  | nil => intro md; rfl
  | cons c t ih =>
    intro md
    rw [portFold_cons, ih, mOutSum_modPort_true]

theorem mOutSum_portFold_lenpres {g : List ConnEntry → List ConnEntry}
    (hg : ∀ l, (g l).length = l.length) (b : Bool) :
    ∀ (U : List ConnEntry) (md : ModuleData),
      mOutSum (portFold b g U md) = mOutSum md := by
  intro U
  induction U with
  | nil => intro md; rfl
  | cons c t ih =>
    intro md
    rw [portFold_cons, ih]
    cases b with
    | true => rw [mOutSum_modPort_true]
    | false =>
      cases h : listAt false c.node.toKey c.ref md with
      | none => rw [modPort_absent h]
      | some l =>
        have h2 := mOutSum_modPort_false h g
        rw [hg l] at h2
        omega

/-! Groundwork for C3: invariant extraction, port names, renumbering. -/

theorem jsEq_str_iff {a b : String} : jsEq (.str a) (.str b) = true ↔ a = b := by
  simp [jsEq]

theorem wfside_at {b : Bool} {md : ModuleData} (h : WFside b md) {Y : String}
    {nd : NodeRec} (h1 : lookupA Y md = some nd) {p : String} {l : List ConnEntry}
    (h2 : lookupA p (sideGet b nd) = some l) {c : ConnEntry} (hc : c ∈ l) :
    c.node = JsVal.str c.node.toKey ∧ partnerCount md (!b) Y p c = 1 ∧
      l.countP (sameRef c) = 1 :=
  h (Y, nd) (lookupA_mem h1) (p, l) (lookupA_mem h2) c hc

theorem partner_unpack {md : ModuleData} {ob : Bool} {Y p : String} {c : ConnEntry}
    (h : partnerCount md ob Y p c = 1) :
    ∃ rn lR, lookupA c.node.toKey md = some rn ∧
      lookupA c.ref (sideGet ob rn) = some lR ∧
      lR.countP (fun e => e.node == JsVal.str Y && e.ref == p) = 1 := by
  unfold partnerCount refTarget at h
  cases h1 : lookupA c.node.toKey md with
  | none => simp only [h1] at h; exact absurd h (by decide)
  | some rn =>
    simp only [h1] at h
    cases h2 : lookupA c.ref (sideGet ob rn) with
    | none => simp only [h2] at h; exact absurd h (by decide)
    | some lR =>
      simp only [h2] at h
      exact ⟨rn, lR, rfl, h2, h⟩

theorem refTarget_listAt (md : ModuleData) (ob : Bool) (c : ConnEntry) :
    refTarget md ob c = listAt ob c.node.toKey c.ref md := by
  unfold refTarget listAt
  cases lookupA c.node.toKey md <;> rfl

theorem wfside_refTarget_isSome {b : Bool} {md : ModuleData} (h : WFside b md)
    {Y : String} {nd : NodeRec} (h1 : lookupA Y md = some nd) {p : String}
    {l : List ConnEntry} (h2 : lookupA p (sideGet b nd) = some l) {c : ConnEntry}
    (hc : c ∈ l) : (refTarget md (!b) c).isSome = true := by
  have h3 := (wfside_at h h1 h2 hc).2.1
  unfold partnerCount at h3
  cases h4 : refTarget md (!b) c with
  | none => simp only [h4] at h3; exact absurd h3 (by decide)
  | some lst => rfl

theorem countP_entryPred_bridge {X cls : String} :
    ∀ {l : List ConnEntry}, (∀ e ∈ l, e.node = JsVal.str e.node.toKey) →
      l.countP (entryPred (.str X) cls) =
        l.countP (fun e => e.node == JsVal.str X && e.ref == cls) := by
  intro l h
  apply List.countP_congr
  intro e he
  have h2 := h e he
  unfold entryPred
  rw [h2]
  simp [jsEq]

theorem strApp_cancel : ∀ {p a b : String}, p ++ a = p ++ b → a = b := by
  intro p a b h
  cases p with | mk x =>
  cases a with | mk y =>
  cases b with | mk z =>
  have h2 : x ++ y = x ++ z := congrArg String.data h
  have h3 := List.append_cancel_left h2
  rw [h3]

theorem portName_inj {b : Bool} {i j : Nat}
    (h : sidePre b ++ natToStr i = sidePre b ++ natToStr j) : i = j :=
  natToStr_inj (strApp_cancel h)

theorem contiguous_lookup_name {b : Bool} {nd : NodeRec} (hc : contiguousPorts b nd)
    {p : String} {l : List ConnEntry} (h : lookupA p (sideGet b nd) = some l) :
    ∃ j, 1 ≤ j ∧ j ≤ (sideGet b nd).length ∧ p = sidePre b ++ natToStr j := by
  have hmem : p ∈ (sideGet b nd).map Prod.fst := by
    rw [← lookupA_isSome_iff, h]
    rfl
  rw [hc] at hmem
  obtain ⟨i, hi, hpi⟩ := List.mem_map.mp hmem
  rw [List.mem_range] at hi
  exact ⟨i + 1, by omega, by omega, hpi.symm⟩

theorem intToStr_natCast_sub_one {j : Nat} (h : 1 ≤ j) :
    intToStr ((j : Int) - 1) = natToStr (j - 1) := by
  have h2 : ((j : Int) - 1) = ((j - 1 : Nat) : Int) := by omega
  rw [h2]
  rfl

theorem keys_renumberPorts (b : Bool) (pm : List (String × List ConnEntry)) :
    (renumberPorts b pm).map Prod.fst =
      (List.range pm.length).map fun i => sidePre b ++ natToStr (i + 1) := by
  unfold renumberPorts
  rw [List.map_map]
  rw [show (Prod.fst ∘ fun p : Nat × (String × List ConnEntry) =>
      (sidePre b ++ natToStr (p.1 + 1), p.2.2)) =
    (fun i => sidePre b ++ natToStr (i + 1)) ∘ Prod.fst from rfl]
  rw [← List.map_map, List.enum_map_fst]

theorem lookup_renumber_isSome {b : Bool} {pm : List (String × List ConnEntry)}
    {t : Nat} (h1 : 1 ≤ t) (h2 : t ≤ pm.length) :
    (lookupA (sidePre b ++ natToStr t) (renumberPorts b pm)).isSome = true := by
  rw [lookupA_isSome_iff, keys_renumberPorts]
  refine List.mem_map.mpr ⟨t - 1, List.mem_range.mpr (by omega), ?_⟩
  rw [Nat.sub_add_cancel h1]

theorem mem_renumber_snd {b : Bool} {pm : List (String × List ConnEntry)}
    {x : String × List ConnEntry} (h : x ∈ renumberPorts b pm) :
    ∃ p0, (p0, x.2) ∈ pm := by
  unfold renumberPorts at h
  obtain ⟨pr, hpr, hx⟩ := List.mem_map.mp h
  have hm := List.snd_mem_of_mem_enum hpr
  refine ⟨pr.2.1, ?_⟩
  rw [← hx]
  exact Prod.mk.eta ▸ hm

theorem sums_renumber (b : Bool) (pm : List (String × List ConnEntry)) :
    ((renumberPorts b pm).map fun pc => pc.2.length).sum =
      (pm.map fun pc => pc.2.length).sum := by
  unfold renumberPorts
  rw [List.map_map]
  rw [show ((fun pc : String × List ConnEntry => pc.2.length) ∘
      fun p : Nat × (String × List ConnEntry) =>
        (sidePre b ++ natToStr (p.1 + 1), p.2.2)) =
    (fun pc : String × List ConnEntry => pc.2.length) ∘ Prod.snd from rfl]
  rw [← List.map_map, List.enum_map_snd]

theorem nodup_keys_renumber (b : Bool) (pm : List (String × List ConnEntry)) :
    ((renumberPorts b pm).map Prod.fst).Nodup := by
  rw [keys_renumberPorts]
  refine List.Nodup.map ?_ (List.nodup_range _)
  intro i j hij
  have := portName_inj hij
  omega

/-! Groundwork for C3: whole-state views of the module-level algebra. -/

theorem updatePort_eq_modPort {st : EditorState} {m Y : String} {b : Bool} {p : String}
    {md0 : ModuleData} {l0 : List ConnEntry}
    (hm : lookupA m st.drawflow = some md0) (hl : listAt b Y p md0 = some l0)
    (l : List ConnEntry) :
    updatePort st m Y b p l =
      { st with drawflow := modifyA m (modPort b Y p fun _ => l) st.drawflow } := by
  obtain ⟨nd0, h1, h2⟩ := listAt_eq_some.mp hl
  unfold updatePort updateNode modPort
  congr 1
  apply modifyA_congr_value hm
  apply modifyA_congr_value h1
  rw [setA_eq_modifyA l (by rw [← lookupA_isSome_iff, h2]; rfl)]

theorem connCount_modifyA {st : EditorState} {m : String} {md0 : ModuleData}
    (hm : lookupA m st.drawflow = some md0) (f : ModuleData → ModuleData) :
    connCount { st with drawflow := modifyA m f st.drawflow } + mOutSum md0 =
      connCount st + mOutSum (f md0) := by
  unfold connCount mOutSum
  exact sumMap_modifyA f (fun md => (md.map fun nk => outSum nk.2).sum) hm

theorem getModuleFromNodeId_modifyA (st : EditorState) (m : String)
    (f : ModuleData → ModuleData) (hf : ∀ v, (f v).map Prod.fst = v.map Prod.fst)
    (id : JsVal) :
    getModuleFromNodeId { st with drawflow := modifyA m f st.drawflow } id =
      getModuleFromNodeId st id := by
  rw [getModuleFromNodeId_eq_keyFold, getModuleFromNodeId_eq_keyFold]
  congr 1
  exact map_modifyA_congr m f (fun md => md.map Prod.fst) hf st.drawflow

/-! C3 groundwork: the connection-detachment loop. -/

theorem keyPair_notin {L P S : List ConnEntry} {c : ConnEntry}
    (hwf : ∀ e ∈ L, e.node = JsVal.str e.node.toKey)
    (hnd : (L.map fun e => (e.node, e.ref)).Nodup) (hsplit : L = P ++ c :: S) :
    (∀ e ∈ P, ¬(e.node.toKey = c.node.toKey ∧ e.ref = c.ref)) ∧
    (∀ e ∈ S, ¬(e.node.toKey = c.node.toKey ∧ e.ref = c.ref)) := by
  subst hsplit
  rw [List.map_append, List.nodup_append] at hnd
  obtain ⟨h1, h2, h3⟩ := hnd
  have hpair : ∀ e ∈ P ++ c :: S, e.node.toKey = c.node.toKey → e.ref = c.ref →
      (e.node, e.ref) = (c.node, c.ref) := by
    intro e he hk hr
    have he1 := hwf e he
    have hc1 := hwf c (List.mem_append_right _ (List.mem_cons_self _ _))
    rw [Prod.ext_iff]
    refine ⟨?_, hr⟩
    rw [he1, hc1, hk]
  constructor
  · rintro e heP ⟨hk, hr⟩
    refine h3 (List.mem_map.mpr ⟨e, heP, rfl⟩) ?_
    rw [hpair e (List.mem_append_left _ heP) hk hr]
    rw [List.map_cons]
    exact List.mem_cons_self _ _
  · rintro e heS ⟨hk, hr⟩
    rw [List.map_cons, List.nodup_cons] at h2
    apply h2.1
    rw [← hpair e (List.mem_append_right _ (List.mem_cons_of_mem _ heS)) hk hr]
    exact List.mem_map.mpr ⟨e, heS, rfl⟩

theorem phaseA_step_out {st : EditorState} {m X cls : String} {md : ModuleData}
    {nx : NodeRec} {L : List ConnEntry}
    (hnd : (st.drawflow.map fun mE : String × ModuleData => mE.2.map Prod.fst).flatten.Nodup)
    (hsymT : WFside true md) (hsymF : WFside false md)
    (hm : lookupA m st.drawflow = some md) (hX : lookupA X md = some nx)
    (hcls : lookupA cls nx.outputs = some L)
    {P S : List ConnEntry} {c : ConnEntry} (hsplit : L = P ++ c :: S) :
    removeSingleConnection
        { st with drawflow := modifyA m (detachedMd false X cls (c :: S) P) st.drawflow }
        (.str X) c.node cls c.ref =
      some ({ st with drawflow := modifyA m (detachedMd false X cls S (P ++ [c])) st.drawflow },
        [Event.connectionRemoved (.str X) c.node cls c.ref], true) := by
  have hcL : c ∈ L := by
    rw [hsplit]
    exact List.mem_append_right _ (List.mem_cons_self _ _)
  have hwf := wfside_at hsymF hX (show lookupA cls (sideGet false nx) = some L from hcls) hcL
  have hcstr : c.node = JsVal.str c.node.toKey := hwf.1
  obtain ⟨rn, lR, hrn, hlR, hcnt⟩ := partner_unpack hwf.2.1
  have hwfR : ∀ e ∈ lR, e.node = JsVal.str e.node.toKey := fun e he =>
    (wfside_at hsymT hrn hlR he).1
  have hcntJ : lR.countP (entryPred (.str X) cls) = 1 :=
    (countP_entryPred_bridge hwfR).trans hcnt
  obtain ⟨i0, hfind⟩ : ∃ i0,
      lR.findIdx? (fun e => jsEq e.node (JsVal.str X) && e.ref == cls) = some i0 := by
    have hex : ∃ e ∈ lR, entryPred (.str X) cls e = true := by
      rw [← List.countP_pos]
      omega
    obtain ⟨e, he, hpe⟩ := hex
    exact findIdx_isSome_of_mem he hpe
  have herase : lR.eraseIdx i0 = lR.eraseP (entryPred (.str X) cls) :=
    findIdx_eraseIdx_eraseP hfind
  have hpairs : (L.map fun e => (e.node, e.ref)).Nodup :=
    pairs_nodup_of_countP fun c' hc' =>
      (wfside_at hsymF hX (show lookupA cls (sideGet false nx) = some L from hcls) hc').2.2
  have hwfL : ∀ e ∈ L, e.node = JsVal.str e.node.toKey := fun e he =>
    (wfside_at hsymF hX (show lookupA cls (sideGet false nx) = some L from hcls) he).1
  obtain ⟨hPnot, _⟩ := keyPair_notin hwfL hpairs hsplit
  have hmodX : getModuleFromNodeId st (.str X) = some m :=
    getModuleFromNodeId_of_mem hnd hm hX
  have hmodR : getModuleFromNodeId st c.node = some m := by
    rw [hcstr]
    exact getModuleFromNodeId_of_mem hnd hm hrn
  have hkeys1 : ∀ v : ModuleData,
      (detachedMd false X cls (c :: S) P v).map Prod.fst = v.map Prod.fst := by
    intro v
    unfold detachedMd
    rw [modPort_keys, keys_portFold]
  have hmodX' : getModuleFromNodeId
      { st with drawflow := modifyA m (detachedMd false X cls (c :: S) P) st.drawflow }
      (.str X) = some m := by
    rw [getModuleFromNodeId_modifyA st m _ hkeys1]
    exact hmodX
  have hmodR' : getModuleFromNodeId
      { st with drawflow := modifyA m (detachedMd false X cls (c :: S) P) st.drawflow }
      c.node = some m := by
    rw [getModuleFromNodeId_modifyA st m _ hkeys1]
    exact hmodR
  have hMPX : listAt false X cls
      (portFold true (List.eraseP (entryPred (.str X) cls)) P md) = some L := by
    rw [listAt_portFold_other_side (by decide)]
    exact listAt_eq_some.mpr ⟨nx, hX, hcls⟩
  have hD0X : listAt false X cls (detachedMd false X cls (c :: S) P md) = some (c :: S) := by
    unfold detachedMd
    simp only [Bool.not_false]
    rw [listAt_modPort_self, hMPX]
    rfl
  have hMPR : listAt true c.node.toKey c.ref
      (portFold true (List.eraseP (entryPred (.str X) cls)) P md) = some lR := by
    rw [listAt_portFold_untouched hPnot]
    exact listAt_eq_some.mpr ⟨rn, hrn, hlR⟩
  have hD0R : listAt true c.node.toKey c.ref
      (detachedMd false X cls (c :: S) P md) = some lR := by
    unfold detachedMd
    simp only [Bool.not_false]
    rw [listAt_modPort_ne_side (by decide), hMPR]
  have hmA : lookupA m (modifyA m (detachedMd false X cls (c :: S) P) st.drawflow) =
      some (detachedMd false X cls (c :: S) P md) := lookupA_modifyA_of_eq _ hm
  obtain ⟨ndX, hndX, hndXc⟩ := listAt_eq_some.mp hD0X
  -- first update: trim the removed port's list to the tail
  have hmA2 : lookupA m (EditorState.drawflow
      { st with drawflow := modifyA m (detachedMd false X cls (c :: S) P) st.drawflow }) =
      some (detachedMd false X cls (c :: S) P md) := lookupA_modifyA_of_eq _ hm
  have hup1 := updatePort_eq_modPort hmA2 hD0X S
  -- projections of the intermediate state
  have hD1R : listAt true c.node.toKey c.ref
      (modPort false X cls (fun _ => S) (detachedMd false X cls (c :: S) P md)) =
        some lR := by
    rw [listAt_modPort_ne_side (by decide)]
    exact hD0R
  have hm1 : lookupA m (modifyA m
      (fun v => modPort false X cls (fun _ => S) (detachedMd false X cls (c :: S) P v))
      st.drawflow) = some
      (modPort false X cls (fun _ => S) (detachedMd false X cls (c :: S) P md)) :=
    lookupA_modifyA_of_eq _ hm
  obtain ⟨ndR, hndR, hndRc⟩ := listAt_eq_some.mp hD1R
  -- head of the trimmed list matches the searched pair
  have hhead : (fun e => jsEq e.node c.node && e.ref == c.ref) c = true := by
    rw [Bool.and_eq_true]
    constructor
    · rw [hcstr]
      exact jsEq_str_iff.mpr rfl
    · exact beq_self_eq_true c.ref
  -- final-state value equality
  have hfinal : modPort true c.node.toKey c.ref (fun _ => lR.eraseP (entryPred (.str X) cls))
      (modPort false X cls (fun _ => S) (detachedMd false X cls (c :: S) P md)) =
      detachedMd false X cls S (P ++ [c]) md := by
    unfold detachedMd
    simp only [Bool.not_false]
    rw [modPort_modPort_same, portFold_append, portFold_cons, portFold_nil]
    rw [modPort_comm_tf]
    have hcg : modPort true c.node.toKey c.ref
        (fun _ => lR.eraseP (entryPred (JsVal.str X) cls))
        (portFold true (List.eraseP (entryPred (JsVal.str X) cls)) P md) =
      modPort true c.node.toKey c.ref (List.eraseP (entryPred (JsVal.str X) cls))
        (portFold true (List.eraseP (entryPred (JsVal.str X) cls)) P md) :=
      modPort_congr_value hMPR rfl
    rw [hcg]
  -- assemble the run of removeSingleConnection
  unfold removeSingleConnection
  rw [hmodX', hmodR', if_pos rfl]
  simp only [Option.bind_eq_bind, Option.some_bind, hmA]
  have htoKey : (JsVal.str X).toKey = X := rfl
  rw [htoKey, hndX]
  simp only [Option.some_bind]
  rw [show lookupA cls ndX.outputs = some (c :: S) from hndXc]
  simp only [Option.some_bind]
  rw [findIdx_head S hhead]
  simp only [List.eraseIdx_cons_zero]
  rw [hup1]
  simp only [Option.bind_eq_bind, Option.some_bind]
  rw [show (modifyA m (modPort false X cls fun _ => S)
      (modifyA m (detachedMd false X cls (c :: S) P) st.drawflow)) =
    (modifyA m
      (fun v => modPort false X cls (fun _ => S) (detachedMd false X cls (c :: S) P v))
      st.drawflow) from modifyA_modifyA m _ _ st.drawflow]
  rw [hm1]
  simp only [Option.some_bind]
  rw [hndR]
  simp only [Option.some_bind]
  rw [show lookupA c.ref ndR.inputs = some lR from hndRc]
  simp only [Option.some_bind]
  rw [show (lR.findIdx? fun e => jsEq e.node (JsVal.str X) && e.ref == cls) = some i0 from
    hfind]
  have hm12 : lookupA m (EditorState.drawflow { st with drawflow := modifyA m (fun v => modPort false X cls (fun _ => S) (detachedMd false X cls (c :: S) P v)) st.drawflow }) = some (modPort false X cls (fun _ => S) (detachedMd false X cls (c :: S) P md)) :=
    lookupA_modifyA_of_eq _ hm
  have hup2 := updatePort_eq_modPort hm12 hD1R (spliceOne lR (some i0))
  rw [show spliceOne lR (some i0) = lR.eraseP (entryPred (.str X) cls) from herase] at hup2 ⊢
  rw [hup2]
  rw [show (modifyA m (modPort true c.node.toKey c.ref fun _ =>
        lR.eraseP (entryPred (JsVal.str X) cls))
      (modifyA m
        (fun v => modPort false X cls (fun _ => S) (detachedMd false X cls (c :: S) P v))
        st.drawflow)) =
    (modifyA m (fun v => modPort true c.node.toKey c.ref
        (fun _ => lR.eraseP (entryPred (JsVal.str X) cls))
        (modPort false X cls (fun _ => S) (detachedMd false X cls (c :: S) P v)))
      st.drawflow) from modifyA_modifyA m _ _ st.drawflow]
  rw [show (modifyA m (fun v => modPort true c.node.toKey c.ref
        (fun _ => lR.eraseP (entryPred (JsVal.str X) cls))
        (modPort false X cls (fun _ => S) (detachedMd false X cls (c :: S) P v)))
      st.drawflow) =
    (modifyA m (detachedMd false X cls S (P ++ [c])) st.drawflow) from
    modifyA_congr_value hm hfinal]
  rfl

theorem phaseA_step_in {st : EditorState} {m X cls : String} {md : ModuleData}
    {nx : NodeRec} {L : List ConnEntry}
    (hnd : (st.drawflow.map fun mE : String × ModuleData => mE.2.map Prod.fst).flatten.Nodup)
    (hsymT : WFside true md) (hsymF : WFside false md)
    (hm : lookupA m st.drawflow = some md) (hX : lookupA X md = some nx)
    (hcls : lookupA cls nx.inputs = some L)
    {P S : List ConnEntry} {c : ConnEntry} (hsplit : L = P ++ c :: S) :
    removeSingleConnection
        { st with drawflow := modifyA m (detachedMd true X cls (c :: S) P) st.drawflow }
        c.node (.str X) c.ref cls =
      some ({ st with drawflow := modifyA m (detachedMd true X cls S (P ++ [c])) st.drawflow },
        [Event.connectionRemoved c.node (.str X) c.ref cls], true) := by
  have hcL : c ∈ L := by
    rw [hsplit]
    exact List.mem_append_right _ (List.mem_cons_self _ _)
  have hwf := wfside_at hsymT hX (show lookupA cls (sideGet true nx) = some L from hcls) hcL
  have hcstr : c.node = JsVal.str c.node.toKey := hwf.1
  obtain ⟨rn, lR, hrn, hlR, hcnt⟩ := partner_unpack hwf.2.1
  have hwfR : ∀ e ∈ lR, e.node = JsVal.str e.node.toKey := fun e he =>
    (wfside_at hsymF hrn hlR he).1
  have hcntJ : lR.countP (entryPred (.str X) cls) = 1 :=
    (countP_entryPred_bridge hwfR).trans hcnt
  obtain ⟨i0, hfind⟩ : ∃ i0,
      lR.findIdx? (fun e => jsEq e.node (JsVal.str X) && e.ref == cls) = some i0 := by
    have hex : ∃ e ∈ lR, entryPred (.str X) cls e = true := by
      rw [← List.countP_pos]
      omega
    obtain ⟨e, he, hpe⟩ := hex
    exact findIdx_isSome_of_mem he hpe
  have herase : lR.eraseIdx i0 = lR.eraseP (entryPred (.str X) cls) :=
    findIdx_eraseIdx_eraseP hfind
  have hpairs : (L.map fun e => (e.node, e.ref)).Nodup :=
    pairs_nodup_of_countP fun c' hc' =>
      (wfside_at hsymT hX (show lookupA cls (sideGet true nx) = some L from hcls) hc').2.2
  have hwfL : ∀ e ∈ L, e.node = JsVal.str e.node.toKey := fun e he =>
    (wfside_at hsymT hX (show lookupA cls (sideGet true nx) = some L from hcls) he).1
  obtain ⟨hPnot, _⟩ := keyPair_notin hwfL hpairs hsplit
  have hmodX : getModuleFromNodeId st (.str X) = some m :=
    getModuleFromNodeId_of_mem hnd hm hX
  have hmodR : getModuleFromNodeId st c.node = some m := by
    rw [hcstr]
    exact getModuleFromNodeId_of_mem hnd hm hrn
  have hkeys1 : ∀ v : ModuleData,
      (detachedMd true X cls (c :: S) P v).map Prod.fst = v.map Prod.fst := by
    intro v
    unfold detachedMd
    rw [modPort_keys, keys_portFold]
  have hmodX' : getModuleFromNodeId
      { st with drawflow := modifyA m (detachedMd true X cls (c :: S) P) st.drawflow }
      (.str X) = some m := by
    rw [getModuleFromNodeId_modifyA st m _ hkeys1]
    exact hmodX
  have hmodR' : getModuleFromNodeId
      { st with drawflow := modifyA m (detachedMd true X cls (c :: S) P) st.drawflow }
      c.node = some m := by
    rw [getModuleFromNodeId_modifyA st m _ hkeys1]
    exact hmodR
  have hMPX : listAt true X cls
      (portFold false (List.eraseP (entryPred (.str X) cls)) P md) = some L := by
    rw [listAt_portFold_other_side (by decide)]
    exact listAt_eq_some.mpr ⟨nx, hX, hcls⟩
  have hMPR : listAt false c.node.toKey c.ref
      (portFold false (List.eraseP (entryPred (.str X) cls)) P md) = some lR := by
    rw [listAt_portFold_untouched hPnot]
    exact listAt_eq_some.mpr ⟨rn, hrn, hlR⟩
  have hD0R : listAt false c.node.toKey c.ref
      (detachedMd true X cls (c :: S) P md) = some lR := by
    unfold detachedMd
    simp only [Bool.not_true]
    rw [listAt_modPort_ne_side (by decide), hMPR]
  have hmA : lookupA m (modifyA m (detachedMd true X cls (c :: S) P) st.drawflow) =
      some (detachedMd true X cls (c :: S) P md) := lookupA_modifyA_of_eq _ hm
  obtain ⟨ndR, hndR, hndRc⟩ := listAt_eq_some.mp hD0R
  have hmA2 : lookupA m (EditorState.drawflow
      { st with drawflow := modifyA m (detachedMd true X cls (c :: S) P) st.drawflow }) =
      some (detachedMd true X cls (c :: S) P md) := lookupA_modifyA_of_eq _ hm
  have hup1 := updatePort_eq_modPort hmA2 hD0R (lR.eraseP (entryPred (.str X) cls))
  have hD1X : listAt true X cls
      (modPort false c.node.toKey c.ref (fun _ => lR.eraseP (entryPred (.str X) cls))
        (detachedMd true X cls (c :: S) P md)) = some (c :: S) := by
    rw [listAt_modPort_ne_side (by decide)]
    unfold detachedMd
    simp only [Bool.not_true]
    rw [listAt_modPort_self, hMPX]
    rfl
  have hm1 : lookupA m (modifyA m
      (fun v => modPort false c.node.toKey c.ref
        (fun _ => lR.eraseP (entryPred (.str X) cls)) (detachedMd true X cls (c :: S) P v))
      st.drawflow) = some
      (modPort false c.node.toKey c.ref (fun _ => lR.eraseP (entryPred (.str X) cls))
        (detachedMd true X cls (c :: S) P md)) :=
    lookupA_modifyA_of_eq _ hm
  obtain ⟨ndX, hndX, hndXc⟩ := listAt_eq_some.mp hD1X
  have hhead : (fun e => jsEq e.node c.node && e.ref == c.ref) c = true := by
    rw [Bool.and_eq_true]
    constructor
    · rw [hcstr]
      exact jsEq_str_iff.mpr rfl
    · exact beq_self_eq_true c.ref
  have hfinal : modPort true X cls (fun _ => S)
      (modPort false c.node.toKey c.ref (fun _ => lR.eraseP (entryPred (.str X) cls))
        (detachedMd true X cls (c :: S) P md)) =
      detachedMd true X cls S (P ++ [c]) md := by
    unfold detachedMd
    simp only [Bool.not_true]
    rw [portFold_append, portFold_cons, portFold_nil]
    rw [← modPort_comm_tf]
    rw [modPort_modPort_same]
    have hcg : modPort false c.node.toKey c.ref
        (fun _ => lR.eraseP (entryPred (JsVal.str X) cls))
        (portFold false (List.eraseP (entryPred (JsVal.str X) cls)) P md) =
      modPort false c.node.toKey c.ref (List.eraseP (entryPred (JsVal.str X) cls))
        (portFold false (List.eraseP (entryPred (JsVal.str X) cls)) P md) :=
      modPort_congr_value hMPR rfl
    rw [hcg]
  unfold removeSingleConnection
  rw [hmodR', hmodX', if_pos rfl]
  simp only [Option.bind_eq_bind, Option.some_bind, hmA]
  rw [hndR]
  simp only [Option.some_bind]
  rw [show lookupA c.ref ndR.outputs = some lR from hndRc]
  simp only [Option.some_bind]
  rw [show (lR.findIdx? fun e => jsEq e.node (JsVal.str X) && e.ref == cls) = some i0 from
    hfind]
  simp only [herase]
  rw [hup1]
  simp only [Option.bind_eq_bind, Option.some_bind]
  rw [show (modifyA m (modPort false c.node.toKey c.ref fun _ =>
        lR.eraseP (entryPred (JsVal.str X) cls))
      (modifyA m (detachedMd true X cls (c :: S) P) st.drawflow)) =
    (modifyA m
      (fun v => modPort false c.node.toKey c.ref
        (fun _ => lR.eraseP (entryPred (JsVal.str X) cls))
        (detachedMd true X cls (c :: S) P v))
      st.drawflow) from modifyA_modifyA m _ _ st.drawflow]
  rw [hm1]
  simp only [Option.some_bind]
  have htoKey : (JsVal.str X).toKey = X := rfl
  rw [htoKey, hndX]
  simp only [Option.some_bind]
  rw [show lookupA cls ndX.inputs = some (c :: S) from hndXc]
  simp only [Option.some_bind]
  rw [findIdx_head S hhead]
  rw [show spliceOne (c :: S) (some 0) = S from rfl]
  have hm12 : lookupA m (EditorState.drawflow { st with drawflow := modifyA m (fun v => modPort false c.node.toKey c.ref (fun _ => lR.eraseP (entryPred (JsVal.str X) cls)) (detachedMd true X cls (c :: S) P v)) st.drawflow }) = some (modPort false c.node.toKey c.ref (fun _ => lR.eraseP (entryPred (JsVal.str X) cls)) (detachedMd true X cls (c :: S) P md)) :=
    lookupA_modifyA_of_eq _ hm
  have hup2 := updatePort_eq_modPort hm12 hD1X S
  rw [hup2]
  rw [show (modifyA m (modPort true X cls fun _ => S)
      (modifyA m
        (fun v => modPort false c.node.toKey c.ref
          (fun _ => lR.eraseP (entryPred (JsVal.str X) cls))
          (detachedMd true X cls (c :: S) P v))
        st.drawflow)) =
    (modifyA m (fun v => modPort true X cls (fun _ => S)
        (modPort false c.node.toKey c.ref
          (fun _ => lR.eraseP (entryPred (JsVal.str X) cls))
          (detachedMd true X cls (c :: S) P v)))
      st.drawflow) from modifyA_modifyA m _ _ st.drawflow]
  rw [show (modifyA m (fun v => modPort true X cls (fun _ => S)
        (modPort false c.node.toKey c.ref
          (fun _ => lR.eraseP (entryPred (JsVal.str X) cls))
          (detachedMd true X cls (c :: S) P v)))
      st.drawflow) =
    (modifyA m (detachedMd true X cls S (P ++ [c])) st.drawflow) from
    modifyA_congr_value hm hfinal]
  rfl

theorem phaseA_run_out {st : EditorState} {m X cls : String} {md : ModuleData}
    {nx : NodeRec} {L : List ConnEntry}
    (hnd : (st.drawflow.map fun mE : String × ModuleData => mE.2.map Prod.fst).flatten.Nodup)
    (hsymT : WFside true md) (hsymF : WFside false md)
    (hm : lookupA m st.drawflow = some md) (hX : lookupA X md = some nx)
    (hcls : lookupA cls nx.outputs = some L) :
    ∀ (S P : List ConnEntry), L = P ++ S → ∀ ev0 : List Event,
      ∃ ev1 : List Event,
        S.foldlM
          (fun (acc : EditorState × List Event) c => do
            let r ← if false = true then
                removeSingleConnection acc.1 c.node (JsVal.str X) c.ref cls
              else removeSingleConnection acc.1 (JsVal.str X) c.node cls c.ref
            pure (r.1, acc.2 ++ r.2.1))
          ({ st with drawflow := modifyA m (detachedMd false X cls S P) st.drawflow }, ev0) =
        some ({ st with drawflow := modifyA m (detachedMd false X cls [] L) st.drawflow },
          ev1) := by
  intro S
  induction S with
  | nil =>
    intro P hsplit ev0
    have h1 : P = L := by rw [hsplit, List.append_nil]
    subst h1
    exact ⟨ev0, rfl⟩
  | cons c S' ih =>
    intro P hsplit ev0
    rw [List.foldlM_cons]
    simp only [Bool.false_eq_true, if_false]
    rw [phaseA_step_out hnd hsymT hsymF hm hX hcls hsplit]
    simp only [Option.bind_eq_bind, Option.some_bind]
    have hsplit2 : L = (P ++ [c]) ++ S' := by
      rw [hsplit, List.append_assoc]
      rfl
    obtain ⟨ev1, hev⟩ := ih (P ++ [c]) hsplit2
      (ev0 ++ [Event.connectionRemoved (.str X) c.node cls c.ref])
    exact ⟨ev1, hev⟩

theorem phaseA_run_in {st : EditorState} {m X cls : String} {md : ModuleData}
    {nx : NodeRec} {L : List ConnEntry}
    (hnd : (st.drawflow.map fun mE : String × ModuleData => mE.2.map Prod.fst).flatten.Nodup)
    (hsymT : WFside true md) (hsymF : WFside false md)
    (hm : lookupA m st.drawflow = some md) (hX : lookupA X md = some nx)
    (hcls : lookupA cls nx.inputs = some L) :
    ∀ (S P : List ConnEntry), L = P ++ S → ∀ ev0 : List Event,
      ∃ ev1 : List Event,
        S.foldlM
          (fun (acc : EditorState × List Event) c => do
            let r ← if true = true then
                removeSingleConnection acc.1 c.node (JsVal.str X) c.ref cls
              else removeSingleConnection acc.1 (JsVal.str X) c.node cls c.ref
            pure (r.1, acc.2 ++ r.2.1))
          ({ st with drawflow := modifyA m (detachedMd true X cls S P) st.drawflow }, ev0) =
        some ({ st with drawflow := modifyA m (detachedMd true X cls [] L) st.drawflow },
          ev1) := by
  intro S
  induction S with
  | nil =>
    intro P hsplit ev0
    have h1 : P = L := by rw [hsplit, List.append_nil]
    subst h1
    exact ⟨ev0, rfl⟩
  | cons c S' ih =>
    intro P hsplit ev0
    rw [List.foldlM_cons]
    simp only [if_true]
    rw [phaseA_step_in hnd hsymT hsymF hm hX hcls hsplit]
    simp only [Option.bind_eq_bind, Option.some_bind]
    have hsplit2 : L = (P ++ [c]) ++ S' := by
      rw [hsplit, List.append_assoc]
      rfl
    obtain ⟨ev1, hev⟩ := ih (P ++ [c]) hsplit2
      (ev0 ++ [Event.connectionRemoved c.node (.str X) c.ref cls])
    exact ⟨ev1, hev⟩

theorem mOutSum_detached_out {st : EditorState} {m X cls : String} {md : ModuleData}
    {nx : NodeRec} {L : List ConnEntry}
    (hm : lookupA m st.drawflow = some md) (hX : lookupA X md = some nx)
    (hcls : lookupA cls nx.outputs = some L) :
    mOutSum (detachedMd false X cls [] L md) + L.length = mOutSum md := by
  unfold detachedMd
  simp only [Bool.not_false]
  have hMPX : listAt false X cls
      (portFold true (List.eraseP (entryPred (.str X) cls)) L md) = some L := by
    rw [listAt_portFold_other_side (by decide)]
    exact listAt_eq_some.mpr ⟨nx, hX, hcls⟩
  have h1 := mOutSum_modPort_false hMPX (fun _ => ([] : List ConnEntry))
  have h2 := mOutSum_portFold_true (List.eraseP (entryPred (.str X) cls)) L md
  simp only [List.length_nil] at h1
  omega

theorem mOutSum_stripFold_in {st : EditorState} {m X cls : String} {md : ModuleData}
    {nx : NodeRec} {L : List ConnEntry}
    (hsymT : WFside true md) (hsymF : WFside false md)
    (hm : lookupA m st.drawflow = some md) (hX : lookupA X md = some nx)
    (hcls : lookupA cls nx.inputs = some L) :
    ∀ (S P : List ConnEntry), L = P ++ S →
      mOutSum (portFold false (List.eraseP (entryPred (.str X) cls)) (P ++ S) md) +
          S.length =
        mOutSum (portFold false (List.eraseP (entryPred (.str X) cls)) P md) := by
  intro S
  induction S with
  | nil =>
    intro P _
    rw [List.append_nil]
    rfl
  | cons c S' ih =>
    intro P hsplit
    have hres : P ++ c :: S' = (P ++ [c]) ++ S' := by
      rw [List.append_assoc]
      rfl
    have hsplit2 : L = (P ++ [c]) ++ S' := by rw [hsplit, hres]
    have ih2 := ih (P ++ [c]) hsplit2
    have hcL : c ∈ L := by
      rw [hsplit]
      exact List.mem_append_right _ (List.mem_cons_self _ _)
    have hwf := wfside_at hsymT hX
      (show lookupA cls (sideGet true nx) = some L from hcls) hcL
    obtain ⟨rn, lR, hrn, hlR, hcnt⟩ := partner_unpack hwf.2.1
    have hwfR : ∀ e ∈ lR, e.node = JsVal.str e.node.toKey := fun e he =>
      (wfside_at hsymF hrn hlR he).1
    have hcntJ : lR.countP (entryPred (.str X) cls) = 1 :=
      (countP_entryPred_bridge hwfR).trans hcnt
    obtain ⟨e, he, hpe⟩ : ∃ e ∈ lR, entryPred (.str X) cls e = true := by
      rw [← List.countP_pos]
      omega
    have hlen : (lR.eraseP (entryPred (.str X) cls)).length = lR.length - 1 :=
      List.length_eraseP_of_mem he hpe
    have hpos : 1 ≤ lR.length := List.length_pos.mpr (List.ne_nil_of_mem he)
    have hpairs : (L.map fun e => (e.node, e.ref)).Nodup :=
      pairs_nodup_of_countP fun c' hc' =>
        (wfside_at hsymT hX (show lookupA cls (sideGet true nx) = some L from hcls) hc').2.2
    have hwfL : ∀ e ∈ L, e.node = JsVal.str e.node.toKey := fun e he =>
      (wfside_at hsymT hX (show lookupA cls (sideGet true nx) = some L from hcls) he).1
    obtain ⟨hPnot, _⟩ := keyPair_notin hwfL hpairs hsplit
    have hMPR : listAt false c.node.toKey c.ref
        (portFold false (List.eraseP (entryPred (.str X) cls)) P md) = some lR := by
      rw [listAt_portFold_untouched hPnot]
      exact listAt_eq_some.mpr ⟨rn, hrn, hlR⟩
    have hstep := mOutSum_modPort_false hMPR (List.eraseP (entryPred (.str X) cls))
    have hPc : portFold false (List.eraseP (entryPred (.str X) cls)) (P ++ [c]) md =
        modPort false c.node.toKey c.ref (List.eraseP (entryPred (.str X) cls))
          (portFold false (List.eraseP (entryPred (.str X) cls)) P md) := by
      rw [portFold_append, portFold_cons, portFold_nil]
    rw [hres]
    rw [hPc] at ih2
    rw [show ((P ++ [c]) ++ S') = ((P ++ [c]) ++ S') from rfl] at ih2
    have hPc2 : portFold false (List.eraseP (entryPred (.str X) cls)) ((P ++ [c]) ++ S') md =
        portFold false (List.eraseP (entryPred (.str X) cls)) S'
          (portFold false (List.eraseP (entryPred (.str X) cls)) (P ++ [c]) md) :=
      portFold_append _ _ _ _ _
    rw [List.length_cons]
    omega

theorem mOutSum_detached_in {st : EditorState} {m X cls : String} {md : ModuleData}
    {nx : NodeRec} {L : List ConnEntry}
    (hsymT : WFside true md) (hsymF : WFside false md)
    (hm : lookupA m st.drawflow = some md) (hX : lookupA X md = some nx)
    (hcls : lookupA cls nx.inputs = some L) :
    mOutSum (detachedMd true X cls [] L md) + L.length = mOutSum md := by
  unfold detachedMd
  simp only [Bool.not_true]
  rw [mOutSum_modPort_true]
  have h1 := mOutSum_stripFold_in hsymT hsymF hm hX hcls L [] rfl
  rw [List.nil_append] at h1
  have h2 : portFold false (List.eraseP (entryPred (.str X) cls)) [] md = md := rfl
  rw [h2] at h1
  exact h1

/-! C3 groundwork: the rebuild and rewrite phases. -/

theorem sideGet_sideSet_other {bSel bMod : Bool} (h : bSel ≠ bMod) (nd : NodeRec)
    (pm : List (String × List ConnEntry)) :
    sideGet bSel (sideSet bMod nd pm) = sideGet bSel nd := by
  cases bSel <;> cases bMod
  · exact absurd rfl h
  · rfl
  · rfl
  · exact absurd rfl h

theorem modifyA_id {α : Type} (k : String) :
    ∀ l : List (String × α), modifyA k (fun x => x) l = l := by
  intro l
  induction l with
  | nil => rfl
  | cons p t ih =>
    obtain ⟨k', v'⟩ := p
    by_cases hk : k' = k
    · rw [modifyA, if_pos hk]
    · rw [modifyA, if_neg hk, ih]

theorem mem_eraseA_of_ne {α : Type} {k : String} {x : String × α} (hne : x.1 ≠ k) :
    ∀ {l : List (String × α)}, x ∈ l → x ∈ eraseA k l := by
  intro l
  induction l with
  | nil => intro h; simp at h
  | cons p t ih =>
    obtain ⟨k', v'⟩ := p
    intro hmem
    rw [List.mem_cons] at hmem
    by_cases hk : k' = k
    · rw [eraseA, if_pos hk]
      rcases hmem with h | h
      · exact absurd (by rw [h, hk]) hne
      · exact h
    · rw [eraseA, if_neg hk]
      rcases hmem with h | h
      · exact h ▸ List.mem_cons_self _ _
      · exact List.mem_cons_of_mem _ (ih h)

theorem stripEntry_node (b : Bool) (c : ConnEntry) : (stripEntry b c).node = c.node := by
  cases b <;> rfl

theorem stripEntry_ref (b : Bool) (c : ConnEntry) : (stripEntry b c).ref = c.ref := by
  cases b <;> rfl

theorem rewriteEntry_noop {id : JsVal} {c : ConnEntry} (h : jsEq c.node id = false)
    (clsId pre : String) : rewriteEntry id clsId pre c = c := by
  unfold rewriteEntry
  rw [h]
  rfl

theorem rebuilt_eq_renumber (b : Bool) (pm : List (String × List ConnEntry)) :
    ((pm.map Prod.snd).enum.map fun p => (sidePre b ++ natToStr (p.1 + 1), p.2)) =
      renumberPorts b pm := by
  unfold renumberPorts
  rw [List.enum_map, List.map_map]
  rfl

theorem length_renumber (b : Bool) (pm : List (String × List ConnEntry)) :
    (renumberPorts b pm).length = pm.length := by
  unfold renumberPorts
  rw [List.length_map, List.enum_length]

theorem contiguous_nodup {b : Bool} {nd : NodeRec} (hc : contiguousPorts b nd) :
    ((sideGet b nd).map Prod.fst).Nodup := by
  rw [hc]
  refine List.Nodup.map ?_ (List.nodup_range _)
  intro i j hij
  have := portName_inj hij
  omega

theorem pairs_nodup_of_records_nodup {U : List ConnEntry} (h : U.Nodup)
    (hpts : ∀ u ∈ U, u.points = none)
    (hstr : ∀ u ∈ U, u.node = JsVal.str u.node.toKey) :
    (U.map fun e => (e.node.toKey, e.ref)).Nodup := by
  refine List.Nodup.map_on ?_ h
  intro x hx y hy hxy
  rw [Prod.ext_iff] at hxy
  obtain ⟨h1, h2⟩ := hxy
  have h1' : x.node.toKey = y.node.toKey := h1
  have h2' : x.ref = y.ref := h2
  have hnode : x.node = y.node := by
    rw [hstr x hx, hstr y hy, h1']
  have hp1 := hpts _ hx
  have hp2 := hpts _ hy
  obtain ⟨xn, xr, xp⟩ := x
  obtain ⟨yn, yr, yp⟩ := y
  simp only at hnode h2' hp1 hp2
  rw [hnode, h2', hp1, hp2]

theorem lookup_sideGet_modPort_other {bSel bMod : Bool} (h : bSel ≠ bMod)
    (Z r : String) (g : List ConnEntry → List ConnEntry) (md : ModuleData) (Y : String) :
    (lookupA Y (modPort bMod Z r g md)).map (sideGet bSel) =
      (lookupA Y md).map (sideGet bSel) := by
  unfold modPort
  by_cases hy : Z = Y
  · subst hy
    cases h2 : lookupA Z md with
    | none => rw [modifyA_absent _ h2, h2]
    | some nd =>
      rw [lookupA_modifyA_of_eq _ h2, Option.map_some', Option.map_some',
        sideGet_sideSet_other h]
  · rw [lookupA_modifyA_ne hy]

theorem lookup_sideGet_portFold_other {bSel bMod : Bool} (h : bSel ≠ bMod)
    (g : List ConnEntry → List ConnEntry) :
    ∀ (U : List ConnEntry) (md : ModuleData) (Y : String),
      (lookupA Y (portFold bMod g U md)).map (sideGet bSel) =
        (lookupA Y md).map (sideGet bSel) := by
  intro U
  induction U with
  | nil => intro md Y; rfl
  | cons c t ih =>
    intro md Y
    rw [portFold_cons, ih, lookup_sideGet_modPort_other h]

theorem listAt_modifyA_sideSet_other {bSel bMod : Bool} (h : bSel ≠ bMod)
    (Z : String) (pmv : List (String × List ConnEntry)) (md : ModuleData)
    (Y r : String) :
    listAt bSel Y r (modifyA Z (fun nd => sideSet bMod nd pmv) md) =
      listAt bSel Y r md := by
  unfold listAt
  by_cases hy : Z = Y
  · subst hy
    cases h2 : lookupA Z md with
    | none => rw [modifyA_absent _ h2, h2]
    | some nd =>
      rw [lookupA_modifyA_of_eq _ h2]
      simp only [Option.some_bind]
      rw [sideGet_sideSet_other h]
  · rw [lookupA_modifyA_ne hy]

theorem skView_modifyA_sideSet_other {bSel bMod : Bool} (h : bSel ≠ bMod)
    (Z : String) (pmv : List (String × List ConnEntry)) (md : ModuleData) :
    skView bSel (modifyA Z (fun nd => sideSet bMod nd pmv) md) = skView bSel md :=
  map_modifyA_congr Z _ (fun nd => (sideGet bSel nd).map Prod.fst)
    (fun nd => congrArg (List.map Prod.fst) (sideGet_sideSet_other h nd pmv)) md

theorem lookup_sideGet_modifyA_sideSet_other {bSel bMod : Bool} (h : bSel ≠ bMod)
    (Z : String) (pmv : List (String × List ConnEntry)) (md : ModuleData) (Y : String) :
    (lookupA Y (modifyA Z (fun nd => sideSet bMod nd pmv) md)).map (sideGet bSel) =
      (lookupA Y md).map (sideGet bSel) := by
  by_cases hy : Z = Y
  · subst hy
    cases h2 : lookupA Z md with
    | none => rw [modifyA_absent _ h2, h2]
    | some nd =>
      rw [lookupA_modifyA_of_eq _ h2, Option.map_some', Option.map_some',
        sideGet_sideSet_other h]
  · rw [lookupA_modifyA_ne hy]

theorem keyPairK_notin {U P S : List ConnEntry} {u : ConnEntry}
    (hnd : (U.map fun e => (e.node.toKey, e.ref)).Nodup) (hsplit : U = P ++ u :: S) :
    (∀ e ∈ P, ¬(e.node.toKey = u.node.toKey ∧ e.ref = u.ref)) ∧
    (∀ e ∈ S, ¬(e.node.toKey = u.node.toKey ∧ e.ref = u.ref)) := by
  subst hsplit
  rw [List.map_append, List.nodup_append] at hnd
  obtain ⟨h1, h2, h3⟩ := hnd
  constructor
  · rintro e heP ⟨hk, hr⟩
    refine h3 (List.mem_map.mpr ⟨e, heP, rfl⟩) ?_
    rw [List.map_cons]
    rw [show ((e.node.toKey, e.ref) : String × String) = (u.node.toKey, u.ref) from by
      rw [hk, hr]]
    exact List.mem_cons_self _ _
  · rintro e heS ⟨hk, hr⟩
    rw [List.map_cons, List.nodup_cons] at h2
    apply h2.1
    rw [show ((u.node.toKey, u.ref) : String × String) = (e.node.toKey, e.ref) from by
      rw [hk, hr]]
    exact List.mem_map.mpr ⟨e, heS, rfl⟩

theorem phaseD_run {st : EditorState} {m : String} {mdC : ModuleData} (ob : Bool)
    (rwf : ConnEntry → ConnEntry)
    (hm : lookupA m st.drawflow = some mdC) (U : List ConnEntry)
    (hnodup : (U.map fun e => (e.node.toKey, e.ref)).Nodup)
    (hex : ∀ u ∈ U, (listAt ob u.node.toKey u.ref mdC).isSome = true) :
    ∀ (S P : List ConnEntry), U = P ++ S →
      S.foldlM
        (fun s u => do
          let md ← lookupA m s.drawflow
          let nd ← lookupA u.node.toKey md
          let lst ← lookupA u.ref (sideGet ob nd)
          pure (updatePort s m u.node.toKey ob u.ref (lst.map rwf)))
        { st with drawflow := modifyA m (portFold ob (List.map rwf) P) st.drawflow } =
      some { st with drawflow := modifyA m (portFold ob (List.map rwf) U) st.drawflow } := by
  intro S
  induction S with
  | nil =>
    intro P hsplit
    have h1 : P = U := by rw [hsplit, List.append_nil]
    subst h1
    rfl
  | cons u S' ih =>
    intro P hsplit
    rw [List.foldlM_cons]
    have hu : u ∈ U := by
      rw [hsplit]
      exact List.mem_append_right _ (List.mem_cons_self _ _)
    obtain ⟨hPnot, _⟩ := keyPairK_notin hnodup hsplit
    have hmP : lookupA m (modifyA m (portFold ob (List.map rwf) P) st.drawflow) =
        some (portFold ob (List.map rwf) P mdC) := lookupA_modifyA_of_eq _ hm
    obtain ⟨lcur, hlcur⟩ := Option.isSome_iff_exists.mp (hex u hu)
    have hcurP : listAt ob u.node.toKey u.ref (portFold ob (List.map rwf) P mdC) =
        some lcur := by
      rw [listAt_portFold_untouched hPnot, hlcur]
    obtain ⟨ndv, hndv, hndvl⟩ := listAt_eq_some.mp hcurP
    simp only [Option.bind_eq_bind, Option.some_bind, Option.pure_def, hmP, hndv, hndvl]
    have hmP2 : lookupA m (EditorState.drawflow { st with drawflow := modifyA m (portFold ob (List.map rwf) P) st.drawflow }) = some (portFold ob (List.map rwf) P mdC) :=
      lookupA_modifyA_of_eq _ hm
    have hup := updatePort_eq_modPort hmP2 hcurP (lcur.map rwf)
    have hval : modPort ob u.node.toKey u.ref (fun _ => lcur.map rwf)
        (portFold ob (List.map rwf) P mdC) =
        portFold ob (List.map rwf) (P ++ [u]) mdC := by
      rw [portFold_append, portFold_cons, portFold_nil]
      exact modPort_congr_value hcurP rfl
    have hstEq2 : updatePort
        { st with drawflow := modifyA m (portFold ob (List.map rwf) P) st.drawflow }
        m u.node.toKey ob u.ref (lcur.map rwf) =
        { st with drawflow := modifyA m (portFold ob (List.map rwf) (P ++ [u])) st.drawflow } := by
      rw [hup]
      show ({ st with drawflow := modifyA m (modPort ob u.node.toKey u.ref fun _ => lcur.map rwf) (modifyA m (portFold ob (List.map rwf) P) st.drawflow) } : EditorState) = _
      rw [modifyA_modifyA]
      exact congrArg (fun z => { st with drawflow := z })
        (modifyA_congr_value
          (f := fun x => modPort ob u.node.toKey u.ref (fun _ => lcur.map rwf)
            (portFold ob (List.map rwf) P x))
          (g := portFold ob (List.map rwf) (P ++ [u])) hm hval)
    rw [hstEq2]
    have hsplit2 : U = (P ++ [u]) ++ S' := by
      rw [hsplit, List.append_assoc]
      rfl
    exact ih (P ++ [u]) hsplit2


/-! C3: the closed form of removeNodeInput and removeNodeOutput, its count, view and resolution consequences, and the claim. -/

theorem removeNodePort_closed_out {st : EditorState} {m X cls : String} {md : ModuleData}
    {nx : NodeRec} {L : List ConnEntry}
    (hnd : (st.drawflow.map fun mE : String × ModuleData => mE.2.map Prod.fst).flatten.Nodup)
    (hsymT : WFside true md) (hsymF : WFside false md)
    (hm : lookupA m st.drawflow = some md) (hX : lookupA X md = some nx)
    (hcls : lookupA cls nx.outputs = some L)
    (hnodupU : ((strippedU false cls nx).map fun e => (e.node.toKey, e.ref)).Nodup)
    (hexU : ∀ u ∈ strippedU false cls nx,
      (listAt true u.node.toKey u.ref
        (modifyA X (fun nd => sideSet false nd (rebuiltPorts false cls nx))
          (portFold true (List.eraseP (entryPred (.str X) cls)) L md))).isSome = true) :
    ∃ ev, removeNodePort st (.str X) cls false =
      some ({ st with drawflow := modifyA m (fun _ => finalMd false X cls nx md) st.drawflow },
        ev) := by
  have hmod : getModuleFromNodeId st (.str X) = some m :=
    getModuleFromNodeId_of_mem hnd hm hX
  have hnode : getNodeFromId st (.str X) = some nx :=
    getNodeFromId_eq hmod hm (show lookupA (JsVal.str X).toKey md = some nx from hX)
  have hdet0 : modifyA m (detachedMd false X cls L []) st.drawflow = st.drawflow := by
    apply modifyA_value_id hm
    show modPort false X cls (fun _ => L)
      (portFold (!false) (List.eraseP (entryPred (.str X) cls)) [] md) = md
    rw [portFold_nil]
    exact modPort_value_id (listAt_eq_some.mpr ⟨nx, hX, hcls⟩) rfl
  have hst0 : ({ st with drawflow := modifyA m (detachedMd false X cls L []) st.drawflow } :
      EditorState) = st := by
    rw [hdet0]
  obtain ⟨evA, hrun⟩ := phaseA_run_out hnd hsymT hsymF hm hX hcls L [] rfl []
  have hsA : lookupA m (modifyA m (detachedMd false X cls [] L) st.drawflow) =
      some (detachedMd false X cls [] L md) := lookupA_modifyA_of_eq _ hm
  have hXMPL : (lookupA X
      (portFold true (List.eraseP (entryPred (.str X) cls)) L md)).map (sideGet false) =
      some (sideGet false nx) := by
    rw [lookup_sideGet_portFold_other (by decide), hX, Option.map_some']
  obtain ⟨nxP, hnxP, hnxPs⟩ : ∃ nxP,
      lookupA X (portFold true (List.eraseP (entryPred (.str X) cls)) L md) = some nxP ∧
      sideGet false nxP = sideGet false nx := by
    cases h : lookupA X (portFold true (List.eraseP (entryPred (.str X) cls)) L md) with
    | none => rw [h] at hXMPL; exact absurd hXMPL (by simp)
    | some nxP =>
      rw [h, Option.map_some'] at hXMPL
      exact ⟨nxP, rfl, Option.some.inj hXMPL⟩
  have hXDA : lookupA X (detachedMd false X cls [] L md) =
      some (sideSet false nxP
        (modifyA cls (fun _ => []) (sideGet false nxP))) := by
    unfold detachedMd
    simp only [Bool.not_false]
    exact lookupA_modifyA_of_eq _ hnxP
  -- the record the rebuild loop reads
  have hside2 : sideGet false (sideSet false
        (sideSet false nxP (modifyA cls (fun _ => []) (sideGet false nxP)))
        (eraseA cls (sideGet false
          (sideSet false nxP (modifyA cls (fun _ => []) (sideGet false nxP)))))) =
      eraseA cls (sideGet false nx) := by
    rw [sideGet_sideSet, sideGet_sideSet, eraseA_modifyA_self, hnxPs]
  -- canonical phase C state value
  have hmdC : modifyA X
        (fun nd => sideSet false nd
          ((((eraseA cls (sideGet false nx)).map Prod.snd).enum.map
            fun p => (sidePre false ++ natToStr (p.1 + 1), p.2))))
        (modifyA X
          (fun nd => sideSet false nd (eraseA cls (sideGet false nd)))
          (detachedMd false X cls [] L md)) =
      modifyA X (fun nd => sideSet false nd (rebuiltPorts false cls nx))
        (portFold true (List.eraseP (entryPred (.str X) cls)) L md) := by
    unfold detachedMd
    simp only [Bool.not_false]
    unfold modPort
    rw [modifyA_modifyA, modifyA_modifyA]
    congr 1
    funext nd
    simp only [sideGet_sideSet, sideSet_sideSet]
    rw [rebuilt_eq_renumber]
    rfl
  refine ⟨evA, ?_⟩
  unfold removeNodePort
  rw [hmod]
  simp only [Option.bind_eq_bind, Option.some_bind]
  rw [hnode]
  simp only [Option.some_bind]
  rw [show (JsVal.str X).toKey = X from rfl]
  rw [show lookupA cls (sideGet false nx) = some L from hcls]
  simp only [Option.some_bind]
  rw [hst0] at hrun
  simp only [Option.bind_eq_bind, Option.some_bind] at hrun
  rw [hrun]
  simp only [Option.some_bind]
  -- phase B: the erase of the removed port
  have hmd2 : lookupA m (updateNode
      { st with drawflow := modifyA m (detachedMd false X cls [] L) st.drawflow }
      m X fun nd => sideSet false nd (eraseA cls (sideGet false nd))).drawflow =
      some (modifyA X (fun nd => sideSet false nd (eraseA cls (sideGet false nd)))
        (detachedMd false X cls [] L md)) := by
    rw [updateNode_drawflow]
    show lookupA m (modifyA m (modifyA X fun nd => sideSet false nd (eraseA cls (sideGet false nd))) (modifyA m (detachedMd false X cls [] L) st.drawflow)) = _
    rw [lookupA_modifyA_self, hsA, Option.map_some']
  rw [hmd2]
  simp only [Option.some_bind]
  rw [lookupA_modifyA_of_eq _ hXDA]
  simp only [Option.some_bind]
  rw [hside2]
  simp only [Bool.not_false]
  -- the deduplicated endpoint list
  have hU : ((List.map
      (fun c => if false = true then c else { node := c.node, ref := c.ref, points := none })
      (List.foldl (fun a b => a ++ b) []
        (List.map Prod.snd (eraseA cls (sideGet false nx)))))).eraseDups =
      strippedU false cls nx := by
    unfold strippedU
    rw [foldl_append_flatten, List.nil_append]
    rfl
  rw [hU]
  -- phase C: the canonical rebuilt state
  have hst3 : updateNode (updateNode
      { st with drawflow := modifyA m (detachedMd false X cls [] L) st.drawflow }
      m X fun nd => sideSet false nd (eraseA cls (sideGet false nd)))
      m X (fun nd => sideSet false nd
        (List.map (fun p => (sidePre false ++ natToStr (p.1 + 1), p.2))
          (List.map Prod.snd (eraseA cls (sideGet false nx))).enum)) =
      { st with drawflow := modifyA m (fun _ =>
        modifyA X (fun nd => sideSet false nd (rebuiltPorts false cls nx))
          (portFold true (List.eraseP (entryPred (JsVal.str X) cls)) L md)) st.drawflow } := by
    unfold updateNode
    show ({ st with drawflow := modifyA m (modifyA X (fun nd => sideSet false nd (List.map (fun p => (sidePre false ++ natToStr (p.1 + 1), p.2)) (List.map Prod.snd (eraseA cls (sideGet false nx))).enum))) (modifyA m (modifyA X fun nd => sideSet false nd (eraseA cls (sideGet false nd))) (modifyA m (detachedMd false X cls [] L) st.drawflow)) } : EditorState) = _
    rw [modifyA_modifyA, modifyA_modifyA]
    refine congrArg (fun z => { st with drawflow := z })
      (modifyA_congr_value
        (f := fun x => modifyA X
          (fun nd => sideSet false nd
            (List.map (fun p => (sidePre false ++ natToStr (p.1 + 1), p.2))
              (List.map Prod.snd (eraseA cls (sideGet false nx))).enum))
          (modifyA X (fun nd => sideSet false nd (eraseA cls (sideGet false nd)))
            (detachedMd false X cls [] L x)))
        (g := fun _ => modifyA X (fun nd => sideSet false nd (rebuiltPorts false cls nx))
          (portFold true (List.eraseP (entryPred (JsVal.str X) cls)) L md))
        hm ?_)
    exact hmdC
  rw [hst3]
  -- phase D: the remote-reference rewrite loop
  have hm3 : lookupA m (EditorState.drawflow { st with drawflow := modifyA m (fun _ => modifyA X (fun nd => sideSet false nd (rebuiltPorts false cls nx)) (portFold true (List.eraseP (entryPred (JsVal.str X) cls)) L md)) st.drawflow }) =
      some (modifyA X (fun nd => sideSet false nd (rebuiltPorts false cls nx))
        (portFold true (List.eraseP (entryPred (JsVal.str X) cls)) L md)) :=
    lookupA_modifyA_of_eq _ hm
  have hD := phaseD_run true
    (rewriteEntry (JsVal.str X) (strDrop cls (sidePre false).length) (sidePre false))
    hm3 (strippedU false cls nx) hnodupU hexU (strippedU false cls nx) [] rfl
  simp only [Option.bind_eq_bind, Option.some_bind] at hD
  have hbase : ({ st with drawflow := modifyA m (portFold true (List.map (rewriteEntry (JsVal.str X) (strDrop cls (sidePre false).length) (sidePre false))) []) (modifyA m (fun _ => modifyA X (fun nd => sideSet false nd (rebuiltPorts false cls nx)) (portFold true (List.eraseP (entryPred (JsVal.str X) cls)) L md)) st.drawflow) } : EditorState) =
      { st with drawflow := modifyA m (fun _ =>
        modifyA X (fun nd => sideSet false nd (rebuiltPorts false cls nx))
          (portFold true (List.eraseP (entryPred (JsVal.str X) cls)) L md)) st.drawflow } := by
    rw [modifyA_modifyA]
    exact congrArg (fun z => { st with drawflow := z }) (modifyA_congr_value hm rfl)
  have hvfin : portFold true
      (List.map (rewriteEntry (JsVal.str X) (strDrop cls (sidePre false).length)
        (sidePre false)))
      (strippedU false cls nx)
      (modifyA X (fun nd => sideSet false nd (rebuiltPorts false cls nx))
        (portFold true (List.eraseP (entryPred (JsVal.str X) cls)) L md)) =
      finalMd false X cls nx md := by
    unfold finalMd
    simp only [Bool.not_false]
    rw [show (lookupA cls (sideGet false nx)).getD [] = L from by
      rw [show lookupA cls (sideGet false nx) = some L from hcls]
      rfl]
  have hfin : ({ st with drawflow := modifyA m (portFold true (List.map (rewriteEntry (JsVal.str X) (strDrop cls (sidePre false).length) (sidePre false))) (strippedU false cls nx)) (modifyA m (fun _ => modifyA X (fun nd => sideSet false nd (rebuiltPorts false cls nx)) (portFold true (List.eraseP (entryPred (JsVal.str X) cls)) L md)) st.drawflow) } : EditorState) =
      { st with drawflow := modifyA m (fun _ => finalMd false X cls nx md) st.drawflow } := by
    rw [modifyA_modifyA]
    refine congrArg (fun z => { st with drawflow := z }) (modifyA_congr_value hm ?_)
    exact hvfin
  rw [hbase, hfin] at hD
  rw [hD]
  simp only [Option.some_bind]
  rfl

theorem removeNodePort_closed_in {st : EditorState} {m X cls : String} {md : ModuleData}
    {nx : NodeRec} {L : List ConnEntry}
    (hnd : (st.drawflow.map fun mE : String × ModuleData => mE.2.map Prod.fst).flatten.Nodup)
    (hsymT : WFside true md) (hsymF : WFside false md)
    (hm : lookupA m st.drawflow = some md) (hX : lookupA X md = some nx)
    (hcls : lookupA cls nx.inputs = some L)
    (hnodupU : ((strippedU true cls nx).map fun e => (e.node.toKey, e.ref)).Nodup)
    (hexU : ∀ u ∈ strippedU true cls nx,
      (listAt false u.node.toKey u.ref
        (modifyA X (fun nd => sideSet true nd (rebuiltPorts true cls nx))
          (portFold false (List.eraseP (entryPred (.str X) cls)) L md))).isSome = true) :
    ∃ ev, removeNodePort st (.str X) cls true =
      some ({ st with drawflow := modifyA m (fun _ => finalMd true X cls nx md) st.drawflow },
        ev) := by
  have hmod : getModuleFromNodeId st (.str X) = some m :=
    getModuleFromNodeId_of_mem hnd hm hX
  have hnode : getNodeFromId st (.str X) = some nx :=
    getNodeFromId_eq hmod hm (show lookupA (JsVal.str X).toKey md = some nx from hX)
  have hdet0 : modifyA m (detachedMd true X cls L []) st.drawflow = st.drawflow := by
    apply modifyA_value_id hm
    show modPort true X cls (fun _ => L)
      (portFold (!true) (List.eraseP (entryPred (.str X) cls)) [] md) = md
    rw [portFold_nil]
    exact modPort_value_id (listAt_eq_some.mpr ⟨nx, hX, hcls⟩) rfl
  have hst0 : ({ st with drawflow := modifyA m (detachedMd true X cls L []) st.drawflow } :
      EditorState) = st := by
    rw [hdet0]
  obtain ⟨evA, hrun⟩ := phaseA_run_in hnd hsymT hsymF hm hX hcls L [] rfl []
  have hsA : lookupA m (modifyA m (detachedMd true X cls [] L) st.drawflow) =
      some (detachedMd true X cls [] L md) := lookupA_modifyA_of_eq _ hm
  have hXMPL : (lookupA X
      (portFold false (List.eraseP (entryPred (.str X) cls)) L md)).map (sideGet true) =
      some (sideGet true nx) := by
    rw [lookup_sideGet_portFold_other (by decide), hX, Option.map_some']
  obtain ⟨nxP, hnxP, hnxPs⟩ : ∃ nxP,
      lookupA X (portFold false (List.eraseP (entryPred (.str X) cls)) L md) = some nxP ∧
      sideGet true nxP = sideGet true nx := by
    cases h : lookupA X (portFold false (List.eraseP (entryPred (.str X) cls)) L md) with
    | none => rw [h] at hXMPL; exact absurd hXMPL (by simp)
    | some nxP =>
      rw [h, Option.map_some'] at hXMPL
      exact ⟨nxP, rfl, Option.some.inj hXMPL⟩
  have hXDA : lookupA X (detachedMd true X cls [] L md) =
      some (sideSet true nxP
        (modifyA cls (fun _ => []) (sideGet true nxP))) := by
    unfold detachedMd
    simp only [Bool.not_true]
    exact lookupA_modifyA_of_eq _ hnxP
  -- the record the rebuild loop reads
  have hside2 : sideGet true (sideSet true
        (sideSet true nxP (modifyA cls (fun _ => []) (sideGet true nxP)))
        (eraseA cls (sideGet true
          (sideSet true nxP (modifyA cls (fun _ => []) (sideGet true nxP)))))) =
      eraseA cls (sideGet true nx) := by
    rw [sideGet_sideSet, sideGet_sideSet, eraseA_modifyA_self, hnxPs]
  -- canonical phase C state value
  have hmdC : modifyA X
        (fun nd => sideSet true nd
          ((((eraseA cls (sideGet true nx)).map Prod.snd).enum.map
            fun p => (sidePre true ++ natToStr (p.1 + 1), p.2))))
        (modifyA X
          (fun nd => sideSet true nd (eraseA cls (sideGet true nd)))
          (detachedMd true X cls [] L md)) =
      modifyA X (fun nd => sideSet true nd (rebuiltPorts true cls nx))
        (portFold false (List.eraseP (entryPred (.str X) cls)) L md) := by
    unfold detachedMd
    simp only [Bool.not_true]
    unfold modPort
    rw [modifyA_modifyA, modifyA_modifyA]
    congr 1
    funext nd
    simp only [sideGet_sideSet, sideSet_sideSet]
    rw [rebuilt_eq_renumber]
    rfl
  refine ⟨evA, ?_⟩
  unfold removeNodePort
  rw [hmod]
  simp only [Option.bind_eq_bind, Option.some_bind]
  rw [hnode]
  simp only [Option.some_bind]
  rw [show (JsVal.str X).toKey = X from rfl]
  rw [show lookupA cls (sideGet true nx) = some L from hcls]
  simp only [Option.some_bind]
  rw [hst0] at hrun
  simp only [Option.bind_eq_bind, Option.some_bind] at hrun
  rw [hrun]
  simp only [Option.some_bind]
  -- phase B: the erase of the removed port
  have hmd2 : lookupA m (updateNode
      { st with drawflow := modifyA m (detachedMd true X cls [] L) st.drawflow }
      m X fun nd => sideSet true nd (eraseA cls (sideGet true nd))).drawflow =
      some (modifyA X (fun nd => sideSet true nd (eraseA cls (sideGet true nd)))
        (detachedMd true X cls [] L md)) := by
    rw [updateNode_drawflow]
    show lookupA m (modifyA m (modifyA X fun nd => sideSet true nd (eraseA cls (sideGet true nd))) (modifyA m (detachedMd true X cls [] L) st.drawflow)) = _
    rw [lookupA_modifyA_self, hsA, Option.map_some']
  rw [hmd2]
  simp only [Option.some_bind]
  rw [lookupA_modifyA_of_eq _ hXDA]
  simp only [Option.some_bind]
  rw [hside2]
  simp only [Bool.not_true]
  -- the deduplicated endpoint list
  have hU : ((List.map
      (fun c => if True then c else { node := c.node, ref := c.ref, points := none })
      (List.foldl (fun a b => a ++ b) []
        (List.map Prod.snd (eraseA cls (sideGet true nx)))))).eraseDups =
      strippedU true cls nx := by
    unfold strippedU
    rw [foldl_append_flatten, List.nil_append]
    rfl
  rw [hU]
  -- phase C: the canonical rebuilt state
  have hst3 : updateNode (updateNode
      { st with drawflow := modifyA m (detachedMd true X cls [] L) st.drawflow }
      m X fun nd => sideSet true nd (eraseA cls (sideGet true nd)))
      m X (fun nd => sideSet true nd
        (List.map (fun p => (sidePre true ++ natToStr (p.1 + 1), p.2))
          (List.map Prod.snd (eraseA cls (sideGet true nx))).enum)) =
      { st with drawflow := modifyA m (fun _ =>
        modifyA X (fun nd => sideSet true nd (rebuiltPorts true cls nx))
          (portFold false (List.eraseP (entryPred (JsVal.str X) cls)) L md)) st.drawflow } := by
    unfold updateNode
    show ({ st with drawflow := modifyA m (modifyA X (fun nd => sideSet true nd (List.map (fun p => (sidePre true ++ natToStr (p.1 + 1), p.2)) (List.map Prod.snd (eraseA cls (sideGet true nx))).enum))) (modifyA m (modifyA X fun nd => sideSet true nd (eraseA cls (sideGet true nd))) (modifyA m (detachedMd true X cls [] L) st.drawflow)) } : EditorState) = _
    rw [modifyA_modifyA, modifyA_modifyA]
    refine congrArg (fun z => { st with drawflow := z })
      (modifyA_congr_value
        (f := fun x => modifyA X
          (fun nd => sideSet true nd
            (List.map (fun p => (sidePre true ++ natToStr (p.1 + 1), p.2))
              (List.map Prod.snd (eraseA cls (sideGet true nx))).enum))
          (modifyA X (fun nd => sideSet true nd (eraseA cls (sideGet true nd)))
            (detachedMd true X cls [] L x)))
        (g := fun _ => modifyA X (fun nd => sideSet true nd (rebuiltPorts true cls nx))
          (portFold false (List.eraseP (entryPred (JsVal.str X) cls)) L md))
        hm ?_)
    exact hmdC
  rw [hst3]
  -- phase D: the remote-reference rewrite loop
  have hm3 : lookupA m (EditorState.drawflow { st with drawflow := modifyA m (fun _ => modifyA X (fun nd => sideSet true nd (rebuiltPorts true cls nx)) (portFold false (List.eraseP (entryPred (JsVal.str X) cls)) L md)) st.drawflow }) =
      some (modifyA X (fun nd => sideSet true nd (rebuiltPorts true cls nx))
        (portFold false (List.eraseP (entryPred (JsVal.str X) cls)) L md)) :=
    lookupA_modifyA_of_eq _ hm
  have hD := phaseD_run false
    (rewriteEntry (JsVal.str X) (strDrop cls (sidePre true).length) (sidePre true))
    hm3 (strippedU true cls nx) hnodupU hexU (strippedU true cls nx) [] rfl
  simp only [Option.bind_eq_bind, Option.some_bind] at hD
  have hbase : ({ st with drawflow := modifyA m (portFold false (List.map (rewriteEntry (JsVal.str X) (strDrop cls (sidePre true).length) (sidePre true))) []) (modifyA m (fun _ => modifyA X (fun nd => sideSet true nd (rebuiltPorts true cls nx)) (portFold false (List.eraseP (entryPred (JsVal.str X) cls)) L md)) st.drawflow) } : EditorState) =
      { st with drawflow := modifyA m (fun _ =>
        modifyA X (fun nd => sideSet true nd (rebuiltPorts true cls nx))
          (portFold false (List.eraseP (entryPred (JsVal.str X) cls)) L md)) st.drawflow } := by
    rw [modifyA_modifyA]
    exact congrArg (fun z => { st with drawflow := z }) (modifyA_congr_value hm rfl)
  have hvfin : portFold false
      (List.map (rewriteEntry (JsVal.str X) (strDrop cls (sidePre true).length)
        (sidePre true)))
      (strippedU true cls nx)
      (modifyA X (fun nd => sideSet true nd (rebuiltPorts true cls nx))
        (portFold false (List.eraseP (entryPred (JsVal.str X) cls)) L md)) =
      finalMd true X cls nx md := by
    unfold finalMd
    simp only [Bool.not_true]
    rw [show (lookupA cls (sideGet true nx)).getD [] = L from by
      rw [show lookupA cls (sideGet true nx) = some L from hcls]
      rfl]
  have hfin : ({ st with drawflow := modifyA m (portFold false (List.map (rewriteEntry (JsVal.str X) (strDrop cls (sidePre true).length) (sidePre true))) (strippedU true cls nx)) (modifyA m (fun _ => modifyA X (fun nd => sideSet true nd (rebuiltPorts true cls nx)) (portFold false (List.eraseP (entryPred (JsVal.str X) cls)) L md)) st.drawflow) } : EditorState) =
      { st with drawflow := modifyA m (fun _ => finalMd true X cls nx md) st.drawflow } := by
    rw [modifyA_modifyA]
    refine congrArg (fun z => { st with drawflow := z }) (modifyA_congr_value hm ?_)
    exact hvfin
  rw [hbase, hfin] at hD
  rw [hD]
  simp only [Option.some_bind]
  rfl

theorem wfside_mem_refTarget {b : Bool} {md : ModuleData} (h : WFside b md)
    {nk : String × NodeRec} {pc : String × List ConnEntry} {c : ConnEntry}
    (h1 : nk ∈ md) (h2 : pc ∈ sideGet b nk.2) (h3 : c ∈ pc.2) :
    (refTarget md (!b) c).isSome = true := by
  have h4 := (h nk h1 pc h2 c h3).2.1
  unfold partnerCount at h4
  cases h5 : refTarget md (!b) c with
  | none => simp only [h5] at h4; exact absurd h4 (by decide)
  | some lst => rfl

theorem finalMd_keys (b : Bool) (X cls : String) (nx : NodeRec) (md : ModuleData) :
    (finalMd b X cls nx md).map Prod.fst = md.map Prod.fst := by
  unfold finalMd
  rw [keys_portFold, keys_modifyA, keys_portFold]

theorem finalMd_skView_ob (b : Bool) (X cls : String) (nx : NodeRec) (md : ModuleData) :
    skView (!b) (finalMd b X cls nx md) = skView (!b) md := by
  unfold finalMd
  rw [skView_portFold, skView_modifyA_sideSet_other (by cases b <;> decide),
    skView_portFold]

theorem finalMd_lookup_sideGet_ne {b : Bool} {X cls Y : String} (hY : X ≠ Y)
    (nx : NodeRec) (md : ModuleData) :
    (lookupA Y (finalMd b X cls nx md)).map (sideGet b) =
      (lookupA Y md).map (sideGet b) := by
  unfold finalMd
  rw [lookup_sideGet_portFold_other (by cases b <;> decide)]
  rw [show (lookupA Y (modifyA X (fun nd => sideSet b nd (rebuiltPorts b cls nx))
      (portFold (!b) (List.eraseP (entryPred (.str X) cls))
        ((lookupA cls (sideGet b nx)).getD []) md))) =
    (lookupA Y (portFold (!b) (List.eraseP (entryPred (.str X) cls))
        ((lookupA cls (sideGet b nx)).getD []) md)) from lookupA_modifyA_ne hY _ _]
  rw [lookup_sideGet_portFold_other (by cases b <;> decide)]

theorem finalMd_lookup_sideGet_X {b : Bool} {X cls : String} {nx : NodeRec}
    {md : ModuleData} (hX : lookupA X md = some nx) :
    (lookupA X (finalMd b X cls nx md)).map (sideGet b) =
      some (rebuiltPorts b cls nx) := by
  unfold finalMd
  rw [lookup_sideGet_portFold_other (by cases b <;> decide)]
  have hMPL : (lookupA X (portFold (!b) (List.eraseP (entryPred (.str X) cls))
      ((lookupA cls (sideGet b nx)).getD []) md)).map (sideGet b) =
      some (sideGet b nx) := by
    rw [lookup_sideGet_portFold_other (by cases b <;> decide), hX, Option.map_some']
  obtain ⟨nxP, hnxP, hnxPs⟩ : ∃ nxP,
      lookupA X (portFold (!b) (List.eraseP (entryPred (.str X) cls))
        ((lookupA cls (sideGet b nx)).getD []) md) = some nxP ∧
      sideGet b nxP = sideGet b nx := by
    cases h : lookupA X (portFold (!b) (List.eraseP (entryPred (.str X) cls))
        ((lookupA cls (sideGet b nx)).getD []) md) with
    | none => rw [h] at hMPL; exact absurd hMPL (by simp)
    | some nxP =>
      rw [h, Option.map_some'] at hMPL
      exact ⟨nxP, rfl, Option.some.inj hMPL⟩
  rw [lookupA_modifyA_of_eq _ hnxP, Option.map_some', sideGet_sideSet]


theorem strippedU_mem {b : Bool} {cls : String} {nx : NodeRec} {u : ConnEntry}
    (hu : u ∈ strippedU b cls nx) :
    ∃ d pr, pr ∈ eraseA cls (sideGet b nx) ∧ d ∈ pr.2 ∧ u = stripEntry b d := by
  unfold strippedU at hu
  rw [mem_eraseDups_iff] at hu
  obtain ⟨d, hd, hud⟩ := List.mem_map.mp hu
  rw [List.mem_flatten] at hd
  obtain ⟨l, hl, hdl⟩ := hd
  obtain ⟨pr, hpr, hlp⟩ := List.mem_map.mp hl
  exact ⟨d, pr, hpr, hlp ▸ hdl, hud.symm⟩

theorem strippedU_records_nodup (b : Bool) (cls : String) (nx : NodeRec) :
    (strippedU b cls nx).Nodup := by
  unfold strippedU
  exact nodup_eraseDups _

theorem strippedU_wf_out {md : ModuleData} {X cls : String} {nx : NodeRec}
    (hsymF : WFside false md) (hX : lookupA X md = some nx) :
    ∀ u ∈ strippedU false cls nx,
      u.points = none ∧ u.node = JsVal.str u.node.toKey := by
  intro u hu
  obtain ⟨d, pr, hpr, hdpr, hud⟩ := strippedU_mem hu
  have hdwf := hsymF (X, nx) (lookupA_mem hX) pr (mem_eraseA_sub hpr) d hdpr
  constructor
  · rw [hud]
    rfl
  · rw [hud, stripEntry_node]
    exact hdwf.1

theorem strippedU_wf_in {md : ModuleData} {X cls : String} {nx : NodeRec}
    (hsymT : WFside true md) (hipf : inputPointsFree md) (hX : lookupA X md = some nx) :
    ∀ u ∈ strippedU true cls nx,
      u.points = none ∧ u.node = JsVal.str u.node.toKey := by
  intro u hu
  obtain ⟨d, pr, hpr, hdpr, hud⟩ := strippedU_mem hu
  have hdwf := hsymT (X, nx) (lookupA_mem hX) pr (mem_eraseA_sub hpr) d hdpr
  constructor
  · rw [hud]
    rw [show stripEntry true d = d from rfl]
    exact hipf (X, nx) (lookupA_mem hX) pr (mem_eraseA_sub hpr) d hdpr
  · rw [hud, stripEntry_node]
    exact hdwf.1

theorem strippedU_pairs_nodup {b : Bool} {cls : String} {nx : NodeRec}
    (hwf : ∀ u ∈ strippedU b cls nx,
      u.points = none ∧ u.node = JsVal.str u.node.toKey) :
    ((strippedU b cls nx).map fun e => (e.node.toKey, e.ref)).Nodup :=
  pairs_nodup_of_records_nodup (strippedU_records_nodup b cls nx)
    (fun u hu => (hwf u hu).1) (fun u hu => (hwf u hu).2)

theorem strippedU_ex_out {md : ModuleData} {X cls : String} {nx : NodeRec}
    {L : List ConnEntry}
    (hsymF : WFside false md) (hX : lookupA X md = some nx)
    (hnodups : ((sideGet false nx).map Prod.fst).Nodup) :
    ∀ u ∈ strippedU false cls nx,
      (listAt true u.node.toKey u.ref
        (modifyA X (fun nd => sideSet false nd (rebuiltPorts false cls nx))
          (portFold true (List.eraseP (entryPred (.str X) cls)) L md))).isSome = true := by
  intro u hu
  obtain ⟨d, pr, hpr, hdpr, hud⟩ := strippedU_mem hu
  have hprL : lookupA pr.1 (sideGet false nx) = some pr.2 :=
    mem_lookupA_of_nodup hnodups (Prod.mk.eta ▸ mem_eraseA_sub hpr)
  have hdwf := wfside_at hsymF hX hprL hdpr
  obtain ⟨rnd, ld, hrnd, hld, _⟩ := partner_unpack hdwf.2.1
  have hmdlist : listAt true d.node.toKey d.ref md = some ld :=
    listAt_eq_some.mpr ⟨rnd, hrnd, show lookupA d.ref (sideGet true rnd) = some ld from hld⟩
  have hskv : skView true
      (modifyA X (fun nd => sideSet false nd (rebuiltPorts false cls nx))
        (portFold true (List.eraseP (entryPred (.str X) cls)) L md)) =
      skView true md := by
    rw [skView_modifyA_sideSet_other (by decide), skView_portFold]
  rw [hud, stripEntry_node, stripEntry_ref]
  rw [listAt_isSome_congr hskv d.node.toKey d.ref, hmdlist]
  rfl

theorem strippedU_ex_in {md : ModuleData} {X cls : String} {nx : NodeRec}
    {L : List ConnEntry}
    (hsymT : WFside true md) (hX : lookupA X md = some nx)
    (hnodups : ((sideGet true nx).map Prod.fst).Nodup) :
    ∀ u ∈ strippedU true cls nx,
      (listAt false u.node.toKey u.ref
        (modifyA X (fun nd => sideSet true nd (rebuiltPorts true cls nx))
          (portFold false (List.eraseP (entryPred (.str X) cls)) L md))).isSome = true := by
  intro u hu
  obtain ⟨d, pr, hpr, hdpr, hud⟩ := strippedU_mem hu
  have hprL : lookupA pr.1 (sideGet true nx) = some pr.2 :=
    mem_lookupA_of_nodup hnodups (Prod.mk.eta ▸ mem_eraseA_sub hpr)
  have hdwf := wfside_at hsymT hX hprL hdpr
  obtain ⟨rnd, ld, hrnd, hld, _⟩ := partner_unpack hdwf.2.1
  have hmdlist : listAt false d.node.toKey d.ref md = some ld :=
    listAt_eq_some.mpr ⟨rnd, hrnd, show lookupA d.ref (sideGet false rnd) = some ld from hld⟩
  have hskv : skView false
      (modifyA X (fun nd => sideSet true nd (rebuiltPorts true cls nx))
        (portFold false (List.eraseP (entryPred (.str X) cls)) L md)) =
      skView false md := by
    rw [skView_modifyA_sideSet_other (by decide), skView_portFold]
  rw [hud, stripEntry_node, stripEntry_ref]
  rw [listAt_isSome_congr hskv d.node.toKey d.ref, hmdlist]
  rfl


theorem mOutSum_final_out {md : ModuleData} {X cls : String} {nx : NodeRec}
    {L : List ConnEntry} (hX : lookupA X md = some nx)
    (hcls : lookupA cls nx.outputs = some L) :
    mOutSum (finalMd false X cls nx md) + L.length = mOutSum md := by
  unfold finalMd
  simp only [Bool.not_false]
  rw [show (lookupA cls (sideGet false nx)).getD [] = L from by
    rw [show lookupA cls (sideGet false nx) = some L from hcls]
    rfl]
  rw [mOutSum_portFold_lenpres (fun l => by rw [List.length_map]) true]
  have hMPL : (lookupA X (portFold true (List.eraseP (entryPred (.str X) cls)) L md)).map
      (sideGet false) = some (sideGet false nx) := by
    rw [lookup_sideGet_portFold_other (by decide), hX, Option.map_some']
  obtain ⟨nxP, hnxP, hnxPs⟩ : ∃ nxP,
      lookupA X (portFold true (List.eraseP (entryPred (.str X) cls)) L md) = some nxP ∧
      sideGet false nxP = sideGet false nx := by
    cases h : lookupA X (portFold true (List.eraseP (entryPred (.str X) cls)) L md) with
    | none => rw [h] at hMPL; exact absurd hMPL (by simp)
    | some nxP =>
      rw [h, Option.map_some'] at hMPL
      exact ⟨nxP, rfl, Option.some.inj hMPL⟩
  have h1 : mOutSum (modifyA X (fun nd => sideSet false nd (rebuiltPorts false cls nx))
      (portFold true (List.eraseP (entryPred (.str X) cls)) L md)) + outSum nxP =
      mOutSum (portFold true (List.eraseP (entryPred (.str X) cls)) L md) +
        outSum (sideSet false nxP (rebuiltPorts false cls nx)) :=
    sumMap_modifyA (v := nxP) _ outSum hnxP
  have h2 : outSum (sideSet false nxP (rebuiltPorts false cls nx)) =
      ((rebuiltPorts false cls nx).map fun pc => pc.2.length).sum :=
    outSum_sideSet_false nxP _
  have h3 : ((rebuiltPorts false cls nx).map fun pc => pc.2.length).sum =
      ((eraseA cls (sideGet false nx)).map fun pc => pc.2.length).sum :=
    sums_renumber false (eraseA cls (sideGet false nx))
  have h4 : ((eraseA cls (sideGet false nx)).map fun pc => pc.2.length).sum + L.length =
      ((sideGet false nx).map fun pc => pc.2.length).sum :=
    sumMap_eraseA List.length (show lookupA cls (sideGet false nx) = some L from hcls)
  have h5 : outSum nxP = ((sideGet false nx).map fun pc => pc.2.length).sum := by
    rw [show outSum nxP = ((sideGet false nxP).map fun pc => pc.2.length).sum from rfl,
      hnxPs]
  have h6 : mOutSum (portFold true (List.eraseP (entryPred (.str X) cls)) L md) =
      mOutSum md := mOutSum_portFold_true _ _ _
  omega

theorem mOutSum_final_in {st : EditorState} {m : String} {md : ModuleData}
    {X cls : String} {nx : NodeRec} {L : List ConnEntry}
    (hsymT : WFside true md) (hsymF : WFside false md)
    (hm : lookupA m st.drawflow = some md) (hX : lookupA X md = some nx)
    (hcls : lookupA cls nx.inputs = some L) :
    mOutSum (finalMd true X cls nx md) + L.length = mOutSum md := by
  unfold finalMd
  simp only [Bool.not_true]
  rw [show (lookupA cls (sideGet true nx)).getD [] = L from by
    rw [show lookupA cls (sideGet true nx) = some L from hcls]
    rfl]
  rw [mOutSum_portFold_lenpres (fun l => by rw [List.length_map]) false]
  have hMPL : (lookupA X (portFold false (List.eraseP (entryPred (.str X) cls)) L md)).map
      (sideGet true) = some (sideGet true nx) := by
    rw [lookup_sideGet_portFold_other (by decide), hX, Option.map_some']
  obtain ⟨nxP, hnxP, hnxPs⟩ : ∃ nxP,
      lookupA X (portFold false (List.eraseP (entryPred (.str X) cls)) L md) = some nxP ∧
      sideGet true nxP = sideGet true nx := by
    cases h : lookupA X (portFold false (List.eraseP (entryPred (.str X) cls)) L md) with
    | none => rw [h] at hMPL; exact absurd hMPL (by simp)
    | some nxP =>
      rw [h, Option.map_some'] at hMPL
      exact ⟨nxP, rfl, Option.some.inj hMPL⟩
  have h1 : mOutSum (modifyA X (fun nd => sideSet true nd (rebuiltPorts true cls nx))
      (portFold false (List.eraseP (entryPred (.str X) cls)) L md)) + outSum nxP =
      mOutSum (portFold false (List.eraseP (entryPred (.str X) cls)) L md) +
        outSum (sideSet true nxP (rebuiltPorts true cls nx)) :=
    sumMap_modifyA (v := nxP) _ outSum hnxP
  have h2 : outSum (sideSet true nxP (rebuiltPorts true cls nx)) = outSum nxP :=
    outSum_sideSet_true nxP _
  have h6 : mOutSum (portFold false (List.eraseP (entryPred (.str X) cls)) L md) +
      L.length = mOutSum md := by
    have := mOutSum_stripFold_in hsymT hsymF hm hX hcls L [] rfl
    rw [List.nil_append] at this
    rw [show portFold false (List.eraseP (entryPred (.str X) cls)) [] md = md from rfl]
      at this
    exact this
  omega

theorem rewriteEntry_eval {c : ConnEntry} {X : String} (hnode : c.node = JsVal.str X)
    (pre : String) {sa : String} {a j : Nat}
    (hsa : parseIntJs sa = some (a : Int))
    (hsb : strDrop c.ref pre.length = natToStr j) :
    rewriteEntry (JsVal.str X) sa pre c =
      if a < j then
        { node := c.node, ref := pre ++ intToStr ((j : Int) - 1), points := c.points }
      else c := by
  unfold rewriteEntry
  rw [show jsEq c.node (JsVal.str X) = true from by
    rw [hnode]; exact jsEq_str_iff.mpr rfl]
  rw [if_pos rfl, hsa, hsb, parseIntJs_natToStr]
  by_cases h : a < j
  · rw [if_pos h]
    show (if (a : Int) < (j : Int) then
        ({ node := c.node, ref := pre ++ intToStr ((j : Int) - 1), points := c.points } :
          ConnEntry)
      else c) =
      { node := c.node, ref := pre ++ intToStr ((j : Int) - 1), points := c.points }
    rw [if_pos (by exact_mod_cast h)]
  · rw [if_neg h]
    show (if (a : Int) < (j : Int) then
        ({ node := c.node, ref := pre ++ intToStr ((j : Int) - 1), points := c.points } :
          ConnEntry)
      else c) = c
    rw [if_neg (by exact_mod_cast h)]

theorem finalMd_refs {md : ModuleData} {X cls : String} {nx : NodeRec}
    {L : List ConnEntry} {k : Nat} (b : Bool)
    (hmdnd : (md.map Prod.fst).Nodup)
    (hsymT : WFside true md) (hsymF : WFside false md)
    (hcont : ∀ nk ∈ md, contiguousPorts true nk.2 ∧ contiguousPorts false nk.2)
    (hX : lookupA X md = some nx)
    (hcls : lookupA cls (sideGet b nx) = some L)
    (hkname : cls = sidePre b ++ natToStr k) (hk1 : 1 ≤ k)
    (hUwf : ∀ u ∈ strippedU b cls nx,
      u.points = none ∧ u.node = JsVal.str u.node.toKey) :
    ∀ nk ∈ finalMd b X cls nx md, ∀ b' : Bool, ∀ pc ∈ sideGet b' nk.2, ∀ c ∈ pc.2,
      (refTarget (finalMd b X cls nx md) (!b') c).isSome = true := by
  have hsymB : WFside b md := by cases b; exacts [hsymF, hsymT]
  have hsymOB : WFside (!b) md := by cases b; exacts [hsymT, hsymF]
  have hcontSel : ∀ (bb : Bool), ∀ nk ∈ md, contiguousPorts bb nk.2 := by
    intro bb nk hnk
    cases bb
    exacts [(hcont nk hnk).2, (hcont nk hnk).1]
  have hobb : (!b) ≠ b := by cases b <;> decide
  have hFkeys : (finalMd b X cls nx md).map Prod.fst = md.map Prod.fst :=
    finalMd_keys b X cls nx md
  have hFnd : ((finalMd b X cls nx md).map Prod.fst).Nodup := by
    rw [hFkeys]; exact hmdnd
  have hFsk : skView (!b) (finalMd b X cls nx md) = skView (!b) md :=
    finalMd_skView_ob b X cls nx md
  have htrans : ∀ Z r, (listAt (!b) Z r (finalMd b X cls nx md)).isSome =
      (listAt (!b) Z r md).isSome := fun Z r => listAt_isSome_congr hFsk Z r
  have hcontX : contiguousPorts b nx := hcontSel b (X, nx) (lookupA_mem hX)
  obtain ⟨k0, hk01, hk0n, hk0name⟩ := contiguous_lookup_name hcontX hcls
  have hkk0 : k0 = k := portName_inj (hk0name.symm.trans hkname)
  have hkn : k ≤ (sideGet b nx).length := hkk0 ▸ hk0n
  have hELen : (eraseA cls (sideGet b nx)).length + 1 = (sideGet b nx).length :=
    length_eraseA hcls
  have hwfL : ∀ e ∈ L, e.node = JsVal.str e.node.toKey :=
    fun e he => (wfside_at hsymB hX hcls he).1
  have hndL : (L.map fun e => (e.node, e.ref)).Nodup :=
    pairs_nodup_of_countP (fun c hc => (wfside_at hsymB hX hcls hc).2.2)
  have hndU : ((strippedU b cls nx).map fun e => (e.node.toKey, e.ref)).Nodup :=
    strippedU_pairs_nodup hUwf
  have hLD : (lookupA cls (sideGet b nx)).getD [] = L := by rw [hcls]; rfl
  have hFeq : finalMd b X cls nx md =
      portFold (!b)
        (List.map (rewriteEntry (JsVal.str X)
          (strDrop cls (sidePre b).length) (sidePre b)))
        (strippedU b cls nx)
        (modifyA X (fun nd => sideSet b nd (rebuiltPorts b cls nx))
          (portFold (!b) (List.eraseP (entryPred (JsVal.str X) cls)) L md)) := by
    unfold finalMd
    rw [hLD]
  have hclsId : parseIntJs (strDrop cls (sidePre b).length) = some (k : Int) := by
    rw [hkname, strDrop_append]
    exact parseIntJs_natToStr k
  have hXtarget : ∀ t : Nat, 1 ≤ t → t ≤ (eraseA cls (sideGet b nx)).length →
      (listAt b X (sidePre b ++ natToStr t) (finalMd b X cls nx md)).isSome = true := by
    intro t ht1 ht2
    have hmapX := @finalMd_lookup_sideGet_X b X cls nx md hX
    obtain ⟨ndX, hndX, hsgX⟩ : ∃ ndX, lookupA X (finalMd b X cls nx md) = some ndX ∧
        sideGet b ndX = rebuiltPorts b cls nx := by
      cases h : lookupA X (finalMd b X cls nx md) with
      | none => rw [h] at hmapX; exact absurd hmapX (by simp)
      | some ndX =>
        rw [h, Option.map_some'] at hmapX
        exact ⟨ndX, rfl, Option.some.inj hmapX⟩
    unfold listAt
    rw [hndX]
    simp only [Option.some_bind]
    rw [hsgX]
    unfold rebuiltPorts
    exact lookup_renumber_isSome ht1 ht2
  have hYtarget : ∀ e : ConnEntry, e.node.toKey ≠ X →
      (∃ rn lR, lookupA e.node.toKey md = some rn ∧
        lookupA e.ref (sideGet b rn) = some lR) →
      (listAt b e.node.toKey e.ref (finalMd b X cls nx md)).isSome = true := by
    intro e hne hex
    obtain ⟨rn, lR, hrn, hlR⟩ := hex
    have hmapeq := @finalMd_lookup_sideGet_ne b X cls e.node.toKey
      (fun h => hne h.symm) nx md
    rw [hrn, Option.map_some'] at hmapeq
    obtain ⟨ndF, hndF, hsgF⟩ : ∃ ndF, lookupA e.node.toKey (finalMd b X cls nx md) =
        some ndF ∧ sideGet b ndF = sideGet b rn := by
      cases h : lookupA e.node.toKey (finalMd b X cls nx md) with
      | none => rw [h] at hmapeq; exact absurd hmapeq (by simp)
      | some ndF =>
        rw [h, Option.map_some'] at hmapeq
        exact ⟨ndF, rfl, Option.some.inj hmapeq⟩
    unfold listAt
    rw [hndF]
    simp only [Option.some_bind]
    rw [hsgF, hlR]
    rfl
  intro nk hnkF b' pc hpc c hc
  have hlkF : lookupA nk.1 (finalMd b X cls nx md) = some nk.2 :=
    mem_lookupA_of_nodup hFnd (Prod.mk.eta ▸ hnkF)
  by_cases hbb : b' = b
  · rw [hbb] at hpc
    rw [hbb, refTarget_listAt, htrans c.node.toKey c.ref]
    by_cases hXY : nk.1 = X
    · have hsR : sideGet b nk.2 = rebuiltPorts b cls nx := by
        have h2 := @finalMd_lookup_sideGet_X b X cls nx md hX
        rw [show lookupA X (finalMd b X cls nx md) = some nk.2 from hXY ▸ hlkF,
          Option.map_some'] at h2
        exact Option.some.inj h2
      rw [hsR] at hpc
      obtain ⟨p0, hp0⟩ := mem_renumber_snd
        (show pc ∈ renumberPorts b (eraseA cls (sideGet b nx)) from hpc)
      have hres := wfside_mem_refTarget hsymB (lookupA_mem hX) (mem_eraseA_sub hp0) hc
      rw [refTarget_listAt] at hres
      exact hres
    · have h2 := @finalMd_lookup_sideGet_ne b X cls nk.1
        (fun h => hXY h.symm) nx md
      rw [hlkF, Option.map_some'] at h2
      obtain ⟨nd0, hnd0, hsg⟩ : ∃ nd0, lookupA nk.1 md = some nd0 ∧
          sideGet b nd0 = sideGet b nk.2 := by
        cases h : lookupA nk.1 md with
        | none => rw [h] at h2; exact absurd h2 (by simp)
        | some nd0 =>
          rw [h, Option.map_some'] at h2
          exact ⟨nd0, rfl, (Option.some.inj h2).symm⟩
      rw [← hsg] at hpc
      have hres := wfside_mem_refTarget hsymB (lookupA_mem hnd0) hpc hc
      rw [refTarget_listAt] at hres
      exact hres
  · have hb' : b' = !b := by cases b <;> cases b' <;> simp_all
    subst hb'
    rw [refTarget_listAt, Bool.not_not]
    have hskF := lookupA_skView (!b) nk.1 (finalMd b X cls nx md)
    rw [hFsk, lookupA_skView, hlkF, Option.map_some'] at hskF
    obtain ⟨nd0, hnd0, hkeq⟩ : ∃ nd0, lookupA nk.1 md = some nd0 ∧
        (sideGet (!b) nk.2).map Prod.fst = (sideGet (!b) nd0).map Prod.fst := by
      cases h : lookupA nk.1 md with
      | none => rw [h] at hskF; exact absurd hskF (by simp)
      | some nd0 =>
        rw [h, Option.map_some'] at hskF
        exact ⟨nd0, rfl, (Option.some.inj hskF).symm⟩
    have hndpk : ((sideGet (!b) nk.2).map Prod.fst).Nodup := by
      rw [hkeq]
      exact contiguous_nodup (hcontSel (!b) (nk.1, nd0) (lookupA_mem hnd0))
    have hlpc : lookupA pc.1 (sideGet (!b) nk.2) = some pc.2 :=
      mem_lookupA_of_nodup hndpk (Prod.mk.eta ▸ hpc)
    have hlF : listAt (!b) nk.1 pc.1 (finalMd b X cls nx md) = some pc.2 :=
      listAt_eq_some.mpr ⟨nk.2, hlkF, hlpc⟩
    rw [hFeq] at hlF
    obtain ⟨lC, hlCmdC, hDcase⟩ : ∃ lC,
        listAt (!b) nk.1 pc.1
          (modifyA X (fun nd => sideSet b nd (rebuiltPorts b cls nx))
            (portFold (!b) (List.eraseP (entryPred (JsVal.str X) cls)) L md)) = some lC ∧
        ((∃ u ∈ strippedU b cls nx, u.node.toKey = nk.1 ∧ u.ref = pc.1) ∧
            pc.2 = lC.map (rewriteEntry (JsVal.str X)
              (strDrop cls (sidePre b).length) (sidePre b)) ∨
          (∀ u ∈ strippedU b cls nx, ¬(u.node.toKey = nk.1 ∧ u.ref = pc.1)) ∧
            pc.2 = lC) := by
      by_cases hDT : ∃ u ∈ strippedU b cls nx, u.node.toKey = nk.1 ∧ u.ref = pc.1
      · obtain ⟨u, hu, hu1, hu2⟩ := hDT
        obtain ⟨U1, U2, hUsplit⟩ := List.append_of_mem hu
        obtain ⟨hU1, hU2⟩ := keyPairK_notin hndU hUsplit
        have hfold := listAt_portFold_touched (b := !b)
          (g := List.map (rewriteEntry (JsVal.str X)
            (strDrop cls (sidePre b).length) (sidePre b)))
          hUsplit hU1 hU2
          (modifyA X (fun nd => sideSet b nd (rebuiltPorts b cls nx))
            (portFold (!b) (List.eraseP (entryPred (JsVal.str X) cls)) L md))
        rw [hu1, hu2] at hfold
        rw [hfold] at hlF
        cases h : listAt (!b) nk.1 pc.1
            (modifyA X (fun nd => sideSet b nd (rebuiltPorts b cls nx))
              (portFold (!b) (List.eraseP (entryPred (JsVal.str X) cls)) L md)) with
        | none => rw [h] at hlF; exact absurd hlF (by simp)
        | some lC =>
          rw [h, Option.map_some'] at hlF
          exact ⟨lC, rfl, Or.inl ⟨⟨u, hu, hu1, hu2⟩, (Option.some.inj hlF).symm⟩⟩
      · have hDnone : ∀ u ∈ strippedU b cls nx, ¬(u.node.toKey = nk.1 ∧ u.ref = pc.1) :=
          fun u hu hcon => hDT ⟨u, hu, hcon⟩
        rw [listAt_portFold_untouched hDnone] at hlF
        exact ⟨pc.2, hlF, Or.inr ⟨hDnone, rfl⟩⟩
    rw [listAt_modifyA_sideSet_other hobb] at hlCmdC
    obtain ⟨l0, hl0look, hAcase⟩ : ∃ l0, lookupA pc.1 (sideGet (!b) nd0) = some l0 ∧
        (lC = l0.eraseP (entryPred (JsVal.str X) cls) ∧
            lC.countP (entryPred (JsVal.str X) cls) = 0 ∨
          lC = l0 ∧ ∀ d ∈ L, ¬(d.node.toKey = nk.1 ∧ d.ref = pc.1)) := by
      by_cases hAT : ∃ d ∈ L, d.node.toKey = nk.1 ∧ d.ref = pc.1
      · obtain ⟨d, hdL, hd1, hd2⟩ := hAT
        obtain ⟨P1, P2, hLsplit⟩ := List.append_of_mem hdL
        obtain ⟨hP1, hP2⟩ := keyPair_notin hwfL hndL hLsplit
        have hfold := listAt_portFold_touched (b := !b)
          (g := List.eraseP (entryPred (JsVal.str X) cls)) hLsplit hP1 hP2 md
        rw [hd1, hd2] at hfold
        have hdwf := wfside_at hsymB hX hcls hdL
        obtain ⟨rn, lR, hrn, hlR, hcntR⟩ := partner_unpack hdwf.2.1
        rw [hd1] at hrn
        rw [hd2] at hlR
        have hrn0 : rn = nd0 := by
          have h2 := hnd0
          rw [hrn] at h2
          exact Option.some.inj h2
        rw [hrn0] at hlR
        have hlmd : listAt (!b) nk.1 pc.1 md = some lR :=
          listAt_eq_some.mpr ⟨nd0, hnd0, hlR⟩
        rw [hfold, hlmd, Option.map_some'] at hlCmdC
        have hlCe : lC = lR.eraseP (entryPred (JsVal.str X) cls) :=
          (Option.some.inj hlCmdC).symm
        have hallnode : ∀ e ∈ lR, e.node = JsVal.str e.node.toKey :=
          fun e he => (wfside_at hsymOB hnd0 hlR he).1
        have hcnt1 : lR.countP (entryPred (JsVal.str X) cls) = 1 := by
          rw [countP_entryPred_bridge hallnode]
          exact hcntR
        have hex1 : ∃ a ∈ lR, entryPred (JsVal.str X) cls a = true :=
          List.countP_pos.mp (by rw [hcnt1]; exact Nat.one_pos)
        have hzero := countP_eraseP_self hex1
        refine ⟨lR, hlR, Or.inl ⟨hlCe, ?_⟩⟩
        rw [hlCe]
        omega
      · have hAnone : ∀ d ∈ L, ¬(d.node.toKey = nk.1 ∧ d.ref = pc.1) :=
          fun d hd hcon => hAT ⟨d, hd, hcon⟩
        rw [listAt_portFold_untouched hAnone] at hlCmdC
        obtain ⟨ndm, hndm, hlm⟩ := listAt_eq_some.mp hlCmdC
        have hmm : ndm = nd0 := by
          have h2 := hnd0
          rw [hndm] at h2
          exact Option.some.inj h2
        rw [hmm] at hlm
        exact ⟨lC, hlm, Or.inr ⟨rfl, hAnone⟩⟩
    have main : ∀ e1 ∈ lC,
        (listAt b (rewriteEntry (JsVal.str X) (strDrop cls (sidePre b).length)
            (sidePre b) e1).node.toKey
          (rewriteEntry (JsVal.str X) (strDrop cls (sidePre b).length)
            (sidePre b) e1).ref
          (finalMd b X cls nx md)).isSome = true ∧
        ((∀ u ∈ strippedU b cls nx, ¬(u.node.toKey = nk.1 ∧ u.ref = pc.1)) →
          (listAt b e1.node.toKey e1.ref (finalMd b X cls nx md)).isSome = true) := by
      intro e1 he1C
      have he1l0 : e1 ∈ l0 := by
        rcases hAcase with ⟨hEq, _⟩ | ⟨hEq, _⟩
        · rw [hEq] at he1C
          exact List.mem_of_mem_eraseP he1C
        · rw [hEq] at he1C
          exact he1C
      have hwfe1 := wfside_at hsymOB hnd0 hl0look he1l0
      have he1node : e1.node = JsVal.str e1.node.toKey := hwfe1.1
      have hpart := hwfe1.2.1
      rw [Bool.not_not] at hpart
      obtain ⟨rn1, lR1, hrn1, hlR1, hcnt1⟩ := partner_unpack hpart
      by_cases hXe : e1.node.toKey = X
      · rw [hXe] at hrn1
        rw [hX] at hrn1
        have hrnnx : rn1 = nx := (Option.some.inj hrn1).symm
        rw [hrnnx] at hlR1
        obtain ⟨j, hj1, hjn, hrefj⟩ := contiguous_lookup_name hcontX hlR1
        by_cases hjk : j = k
        · exfalso
          have hrefcls : e1.ref = cls := by rw [hrefj, hjk, ← hkname]
          have hLl : lR1 = L := by
            have h2 := hlR1
            rw [hrefcls, hcls] at h2
            exact (Option.some.inj h2).symm
          rcases hAcase with ⟨_, hcnt0⟩ | ⟨_, hAnone⟩
          · have hpredE : entryPred (JsVal.str X) cls e1 = true := by
              unfold entryPred
              rw [he1node, hXe, hrefcls]
              simp [jsEq]
            have := List.countP_pos.mpr ⟨e1, he1C, hpredE⟩
            omega
          · rw [hLl] at hcnt1
            obtain ⟨d, hdL, hdp⟩ :=
              List.countP_pos.mp (by rw [hcnt1]; exact Nat.one_pos)
            rw [Bool.and_eq_true] at hdp
            have hdn : d.node = JsVal.str nk.1 := beq_iff_eq.mp hdp.1
            have hdr : d.ref = pc.1 := beq_iff_eq.mp hdp.2
            exact hAnone d hdL ⟨by rw [hdn]; rfl, hdr⟩
        · have hrefne : e1.ref ≠ cls := by
            intro h
            exact hjk (portName_inj (by rw [← hrefj, h, hkname]))
          have hEmem : lookupA e1.ref (eraseA cls (sideGet b nx)) = some lR1 := by
            rw [lookupA_eraseA_ne (Ne.symm hrefne)]
            exact hlR1
          obtain ⟨d, hdR, hdp⟩ :=
            List.countP_pos.mp (by rw [hcnt1]; exact Nat.one_pos)
          rw [Bool.and_eq_true] at hdp
          have hdn : d.node = JsVal.str nk.1 := beq_iff_eq.mp hdp.1
          have hdr : d.ref = pc.1 := beq_iff_eq.mp hdp.2
          have huU : stripEntry b d ∈ strippedU b cls nx := by
            unfold strippedU
            rw [mem_eraseDups_iff]
            exact List.mem_map.mpr ⟨d, List.mem_flatten.mpr ⟨lR1,
              List.mem_map.mpr ⟨(e1.ref, lR1), lookupA_mem hEmem, rfl⟩, hdR⟩, rfl⟩
          have hupair : (stripEntry b d).node.toKey = nk.1 ∧ (stripEntry b d).ref = pc.1 := by
            rw [stripEntry_node, stripEntry_ref, hdn, hdr]
            exact ⟨rfl, rfl⟩
          have he1X : e1.node = JsVal.str X := by rw [he1node, hXe]
          have hrwEval := rewriteEntry_eval he1X (sidePre b) hclsId
            (by rw [hrefj]; exact strDrop_append _ _)
          constructor
          · by_cases hkj : k < j
            · rw [if_pos hkj] at hrwEval
              rw [hrwEval]
              show (listAt b e1.node.toKey (sidePre b ++ intToStr ((j : Int) - 1))
                (finalMd b X cls nx md)).isSome = true
              rw [hXe, intToStr_natCast_sub_one hj1]
              exact hXtarget (j - 1) (by omega) (by omega)
            · rw [if_neg hkj] at hrwEval
              rw [hrwEval, hXe, hrefj]
              exact hXtarget j hj1 (by omega)
          · intro hDnone
            exact absurd hupair (hDnone _ huU)
      · have hje : jsEq e1.node (JsVal.str X) = false := by
          rw [he1node]
          cases hj : jsEq (JsVal.str e1.node.toKey) (JsVal.str X) with
          | false => rfl
          | true => exact absurd (jsEq_str_iff.mp hj) hXe
        have hrwf : rewriteEntry (JsVal.str X) (strDrop cls (sidePre b).length)
            (sidePre b) e1 = e1 := rewriteEntry_noop hje _ _
        have htgt : (listAt b e1.node.toKey e1.ref (finalMd b X cls nx md)).isSome = true :=
          hYtarget e1 hXe ⟨rn1, lR1, hrn1, hlR1⟩
        exact ⟨by rw [hrwf]; exact htgt, fun _ => htgt⟩
    rcases hDcase with ⟨hDex, hmap⟩ | ⟨hDnone, hid⟩
    · rw [hmap] at hc
      obtain ⟨e1, he1C, hce1⟩ := List.mem_map.mp hc
      rw [← hce1]
      exact (main e1 he1C).1
    · rw [hid] at hc
      exact (main c hc).2 hDnone

theorem refsResolve_final {st : EditorState} {m : String} {md : ModuleData}
    {X cls : String} {nx : NodeRec} {L : List ConnEntry} {k : Nat} (b : Bool)
    (hWF : WF st) (hm : lookupA m st.drawflow = some md) (hX : lookupA X md = some nx)
    (hcls : lookupA cls (sideGet b nx) = some L)
    (hkname : cls = sidePre b ++ natToStr k) (hk1 : 1 ≤ k) :
    RefsResolve { st with drawflow := modifyA m (fun _ => finalMd b X cls nx md) st.drawflow } := by
  obtain ⟨hmodnd, hglob, hall⟩ := hWF
  have hmdmem : (m, md) ∈ st.drawflow := lookupA_mem hm
  have hmdnd : (md.map Prod.fst).Nodup :=
    nodup_of_mem_flatten hglob
      (List.mem_map.mpr ⟨(m, md), hmdmem, rfl⟩)
  obtain ⟨hsymT, hsymF, hipf, hcont⟩ := hall (m, md) hmdmem
  have hUwf : ∀ u ∈ strippedU b cls nx,
      u.points = none ∧ u.node = JsVal.str u.node.toKey := by
    cases b
    · exact strippedU_wf_out hsymF hX
    · exact strippedU_wf_in hsymT hipf hX
  intro mE hmE
  have hmE' : mE ∈ modifyA m (fun _ => finalMd b X cls nx md) st.drawflow := hmE
  rcases mem_modifyA_nodup (fun _ => finalMd b X cls nx md) hmodnd hmE' with
    ⟨_, hmem⟩ | ⟨_, v, hv, hveq⟩
  · obtain ⟨hT2, hF2, _, _⟩ := hall mE hmem
    intro nk hnk b' pc hpc c hc
    cases b'
    · exact wfside_mem_refTarget hF2 hnk hpc hc
    · exact wfside_mem_refTarget hT2 hnk hpc hc
  · have hvmd : v = md := by
      have h2 := hm
      rw [hv] at h2
      exact Option.some.inj h2
    subst hvmd
    rw [hveq]
    exact finalMd_refs b hmdnd hsymT hsymF hcont hX hcls hkname hk1 hUwf

/-- C3: on a well-formed store, removing port number k of one side of a
node (removeNodeInput for the input side, removeNodeOutput for the output
side) succeeds, removes exactly the dropped port's connections from the
store's connection count, rebuilds that side as the remaining ports in
their previous relative order under contiguous names with each port's
connection list kept, and leaves every remaining connection record's
remote-side reference resolving to an existing port of an existing node. -/
theorem C3_port_removal_renumbering (st : EditorState) (b : Bool) (m X : String)
    (md : ModuleData) (nx : NodeRec) (k : Nat) (L : List ConnEntry)
    (hWF : WF st) (hm : lookupA m st.drawflow = some md)
    (hX : lookupA X md = some nx) (hk1 : 1 ≤ k)
    (hcls : lookupA (sidePre b ++ natToStr k) (sideGet b nx) = some L) :
    ∃ st' ev,
      (if b then removeNodeInput st (JsVal.str X) (sidePre b ++ natToStr k)
       else removeNodeOutput st (JsVal.str X) (sidePre b ++ natToStr k)) =
        some (st', ev) ∧
      connCount st' + L.length = connCount st ∧
      (∃ nx', nodeAt st' m X = some nx' ∧
        sideGet b nx' =
          renumberPorts b (eraseA (sidePre b ++ natToStr k) (sideGet b nx)) ∧
        contiguousPorts b nx') ∧
      RefsResolve st' := by
  have hWF' := hWF
  obtain ⟨hmodnd, hglob, hall⟩ := hWF'
  obtain ⟨hsymT, hsymF, hipf, hcontm⟩ := hall (m, md) (lookupA_mem hm)
  have hUwf : ∀ u ∈ strippedU b (sidePre b ++ natToStr k) nx,
      u.points = none ∧ u.node = JsVal.str u.node.toKey := by
    cases b
    · exact strippedU_wf_out hsymF hX
    · exact strippedU_wf_in hsymT hipf hX
  have hnodupU := strippedU_pairs_nodup hUwf
  have hcontX : contiguousPorts b nx := by
    cases b
    exacts [(hcontm (X, nx) (lookupA_mem hX)).2, (hcontm (X, nx) (lookupA_mem hX)).1]
  have hndps : ((sideGet b nx).map Prod.fst).Nodup := contiguous_nodup hcontX
  have hexU : ∀ u ∈ strippedU b (sidePre b ++ natToStr k) nx,
      (listAt (!b) u.node.toKey u.ref
        (modifyA X (fun nd => sideSet b nd
            (rebuiltPorts b (sidePre b ++ natToStr k) nx))
          (portFold (!b)
            (List.eraseP (entryPred (.str X) (sidePre b ++ natToStr k)))
            L md))).isSome = true := by
    cases b
    · exact strippedU_ex_out hsymF hX hndps
    · exact strippedU_ex_in hsymT hX hndps
  obtain ⟨ev, hrun⟩ :
      ∃ ev, removeNodePort st (.str X) (sidePre b ++ natToStr k) b =
        some ({ st with drawflow := modifyA m (fun _ => finalMd b X (sidePre b ++ natToStr k) nx md) st.drawflow }, ev) := by
    cases b
    · exact removeNodePort_closed_out hglob hsymT hsymF hm hX hcls hnodupU hexU
    · exact removeNodePort_closed_in hglob hsymT hsymF hm hX hcls hnodupU hexU
  refine ⟨{ st with drawflow := modifyA m (fun _ => finalMd b X (sidePre b ++ natToStr k) nx md) st.drawflow }, ev, ?_, ?_, ?_, ?_⟩
  · cases b
    · exact hrun
    · exact hrun
  · have hcc : connCount { st with drawflow := modifyA m (fun _ => finalMd b X (sidePre b ++ natToStr k) nx md) st.drawflow } + mOutSum md = connCount st + mOutSum (finalMd b X (sidePre b ++ natToStr k) nx md) :=
      connCount_modifyA hm (fun _ => finalMd b X (sidePre b ++ natToStr k) nx md)
    have hms : mOutSum (finalMd b X (sidePre b ++ natToStr k) nx md) + L.length =
        mOutSum md := by
      cases b
      · exact mOutSum_final_out hX hcls
      · exact mOutSum_final_in hsymT hsymF hm hX hcls
    omega
  · have hmF : lookupA m (modifyA m (fun _ => finalMd b X (sidePre b ++ natToStr k) nx md) st.drawflow) = some (finalMd b X (sidePre b ++ natToStr k) nx md) :=
      lookupA_modifyA_of_eq _ hm
    have hmapX := @finalMd_lookup_sideGet_X b X (sidePre b ++ natToStr k) nx md hX
    obtain ⟨nx', hnx', hsg'⟩ : ∃ nx',
        lookupA X (finalMd b X (sidePre b ++ natToStr k) nx md) = some nx' ∧
        sideGet b nx' = rebuiltPorts b (sidePre b ++ natToStr k) nx := by
      cases h : lookupA X (finalMd b X (sidePre b ++ natToStr k) nx md) with
      | none => rw [h] at hmapX; exact absurd hmapX (by simp)
      | some nx' =>
        rw [h, Option.map_some'] at hmapX
        exact ⟨nx', rfl, Option.some.inj hmapX⟩
    refine ⟨nx', ?_, ?_, ?_⟩
    · show (lookupA m (modifyA m (fun _ => finalMd b X (sidePre b ++ natToStr k) nx md) st.drawflow)).bind (lookupA X) = some nx'
      rw [hmF]
      simp only [Option.some_bind]
      exact hnx'
    · rw [hsg']
      rfl
    · unfold contiguousPorts
      rw [hsg']
      unfold rebuiltPorts
      rw [keys_renumberPorts, length_renumber]
  · exact refsResolve_final b hWF hm hX hcls rfl hk1

/-- C3 witness: removing output_1 of node 1 in the two-node Home store
drops its two connections, leaves output_2 renamed to output_1 with its
list kept, and every remaining reference resolving. -/
theorem C3_witness :
    WF c3State ∧ lookupA "Home" c3State.drawflow = some c3Md ∧
    lookupA "1" c3Md = some c3Nx ∧ 1 ≤ 1 ∧
    lookupA (sidePre false ++ natToStr 1) (sideGet false c3Nx) = some c3L ∧
    (∃ st' ev,
      (if false then removeNodeInput c3State (JsVal.str "1") (sidePre false ++ natToStr 1)
       else removeNodeOutput c3State (JsVal.str "1") (sidePre false ++ natToStr 1)) =
        some (st', ev) ∧
      connCount st' + c3L.length = connCount c3State ∧
      (∃ nx', nodeAt st' "Home" "1" = some nx' ∧
        sideGet false nx' =
          renumberPorts false (eraseA (sidePre false ++ natToStr 1) (sideGet false c3Nx)) ∧
        contiguousPorts false nx') ∧
      RefsResolve st') :=
  ⟨by decide, rfl, rfl, by decide, rfl,
    C3_port_removal_renumbering c3State false "Home" "1" c3Md c3Nx 1 c3L
      (by decide) rfl rfl (by decide) rfl⟩

end Drawflow
